import Mathlib

set_option maxRecDepth 100000

/-! ICAP responder: the message handler of `pkg/httpHandler.go`.

A shallow embedding of `HTTPMessageHandle` and the functions it calls.

* A Go byte slice or string is a `List Byte`; a byte is a natural number
  (every value the handler receives is below 256).
* A Go `int` is an `Int`; sums that can leave the 64-bit range wrap (`wrap64`).
* A slice expression that Go would reject at run time (a negative bound, a
  bound past the length, low above high) and an index past the end of a
  slice evaluate to `none`; the handler then ends in `Outcome.panicked`.
* The connection is a pair of oracles: the list of results the successive
  `syscall.Read` calls return, and the list of results of the successive
  `syscall.Write` calls.  A handler that needs a result the oracle no longer
  holds is `Outcome.blocked` (it waits in the system call).
* What the Go standard library decides from tables that are not part of the
  repository (Unicode case mapping and white space, JSON, URL decoding, the
  clock, the iteration order of a map) is a field of `Env`.
-/

namespace ICAP

/-! ## Bytes, slices and the `bytes` / `strings` packages -/

abbrev Byte := Nat

/-- The bytes of an ASCII string literal. -/
def bs (s : String) : List Byte := s.toList.map Char.toNat

/-- Go `int` on a 64-bit platform: the value of a sum after wrap-around. -/
def wrap64 (x : Int) : Int := (x + 2 ^ 63) % 2 ^ 64 - 2 ^ 63

/-- The slice expression `s[lo:hi]`; `none` when Go panics. -/
def slice (s : List Byte) (lo hi : Int) : Option (List Byte) :=
  if 0 ≤ lo ∧ lo ≤ hi ∧ hi ≤ (s.length : Int) then
    some ((s.drop lo.toNat).take (hi.toNat - lo.toNat))
  else none

/-- The slice expression `s[lo:]`. -/
def sliceFrom (s : List Byte) (lo : Int) : Option (List Byte) :=
  slice s lo s.length

/-- The slice expression `s[:hi]`. -/
def sliceTo (s : List Byte) (hi : Int) : Option (List Byte) :=
  slice s 0 hi

/-- The function `bytes.HasPrefix`. -/
def hasPrefix (s pre : List Byte) : Bool := pre.isPrefixOf s

/-- Search of `bytes.Index`, counting positions from `i`. -/
def indexFrom (sep : List Byte) : List Byte → Nat → Int
  | [], i => if sep = [] then (i : Int) else -1
  | c :: cs, i => if hasPrefix (c :: cs) sep then (i : Int) else indexFrom sep cs (i + 1)

/-- The function `bytes.Index`: position of the first `sep` in `s`, or `-1`. -/
def bytesIndex (s sep : List Byte) : Int := indexFrom sep s 0

/-- The function `strings.Contains`. -/
def contains (s sub : List Byte) : Bool := decide (0 ≤ bytesIndex s sub)

/-- Worker of `bytes.Split` for a non-empty separator: `skip` bytes of a
separator just found are still to be passed over, `cur` is the current piece,
reversed. -/
def splitGo (sep : List Byte) : List Byte → Nat → List Byte → List (List Byte)
  | [], _, cur => [cur.reverse]
  | _ :: cs, skip + 1, cur => splitGo sep cs skip cur
  | c :: cs, 0, cur =>
    if hasPrefix (c :: cs) sep then cur.reverse :: splitGo sep cs (sep.length - 1) []
    else splitGo sep cs 0 (c :: cur)

/-- The function `bytes.Split(s, sep)` for a non-empty `sep`. -/
def bytesSplit (s sep : List Byte) : List (List Byte) := splitGo sep s 0 []

/-- The function `bytes.SplitN(s, sep, 2)`: at most two pieces, cut at the first `sep`. -/
def splitN2 (s sep : List Byte) : List (List Byte) :=
  let m := bytesIndex s sep
  if m < 0 then [s] else [s.take m.toNat, s.drop (m.toNat + sep.length)]

def upperByte (c : Byte) : Byte := if 97 ≤ c ∧ c ≤ 122 then c - 32 else c

def lowerByte (c : Byte) : Byte := if 65 ≤ c ∧ c ≤ 90 then c + 32 else c

def isASCII (s : List Byte) : Bool := s.all (fun c => decide (c < 128))

/-- The white space of the ASCII fast path of `bytes.TrimSpace`:
tab, line feed, vertical tab, form feed, carriage return, space. -/
def asciiSpace (c : Byte) : Bool := c = 9 || c = 10 || c = 11 || c = 12 || c = 13 || c = 32

/-- Outcome of one scan of `bytes.TrimSpace`. -/
inductive Scan where
  | stop (rest : List Byte)
  | unicode (rest : List Byte)

/-- First loop of `bytes.TrimSpace`: drop ASCII white space from the front,
stopping at the first other byte; a byte of 128 or more hands over to the
Unicode-aware trimming. -/
def trimScan : List Byte → Scan
  | [] => .stop []
  | c :: cs =>
    if 128 ≤ c then .unicode (c :: cs)
    else if asciiSpace c then trimScan cs
    else .stop (c :: cs)

/-- What the standard library computes from tables outside the repository. -/
structure Env where
  /-- The call `bytes.Map(unicode.ToUpper, s)`, taken by `bytes.ToUpper` when `s` is not ASCII. -/
  unicodeUpper : List Byte → List Byte
  /-- The call `bytes.Map(unicode.ToLower, s)`, taken by `bytes.ToLower` when `s` is not ASCII. -/
  unicodeLower : List Byte → List Byte
  /-- The call `bytes.TrimFunc(s, unicode.IsSpace)`, taken by `TrimSpace` at a non-ASCII byte. -/
  unicodeTrim : List Byte → List Byte
  /-- The number of runes of a string, which `fmt` pads to. -/
  runeCount : List Byte → Nat
  /-- The calls `json.Unmarshal` into a `map[string]interface{}` followed by
  `json.MarshalIndent(_, "", "  ")`; `none` when `Unmarshal` reports an error. -/
  jsonIndent : List Byte → Option (List Byte)
  /-- The call `url.ParseQuery` and the order in which `range` visits the
  resulting map in this run; `none` when `ParseQuery` reports an error. -/
  formEntries : List Byte → Option (List (List Byte × List (List Byte)))
  /-- The value of `time.Now().Format("2006-01-02 15:04:05")`. -/
  now : List Byte

/-- The function `bytes.ToUpper`. -/
def toUpper (env : Env) (s : List Byte) : List Byte :=
  if isASCII s then s.map upperByte else env.unicodeUpper s

/-- The function `bytes.ToLower`. -/
def toLower (env : Env) (s : List Byte) : List Byte :=
  if isASCII s then s.map lowerByte else env.unicodeLower s

/-- The functions `bytes.TrimSpace` and `strings.TrimSpace`. -/
def trimSpace (env : Env) (s : List Byte) : List Byte :=
  match trimScan s with
  | .unicode rest => env.unicodeTrim rest
  | .stop rest =>
    match trimScan rest.reverse with
    | .unicode r => env.unicodeTrim r.reverse
    | .stop r => r.reverse

/-! ## `strconv.Atoi` -/

/-- Result of the digit loop of `strconv.ParseUint(s, 10, 64)`. -/
inductive UintResult where
  | value (n : Nat)
  | syntaxError
  | rangeError

/-- The digit loop of `strconv.ParseUint(s, 10, 64)` with `n` accumulated so far. -/
def parseUintLoop : List Byte → Nat → UintResult
  | [], n => .value n
  | c :: cs, n =>
    if 48 ≤ c ∧ c ≤ 57 then
      if (2 ^ 64 - 1) / 10 + 1 ≤ n then .rangeError
      else if 2 ^ 64 - 1 < n * 10 + (c - 48) then .rangeError
      else parseUintLoop cs (n * 10 + (c - 48))
    else .syntaxError

/-- The function `strconv.ParseUint(s, 10, 64)`; on a range error the value is the maximum. -/
def parseUint (s : List Byte) : Option Nat :=
  if s = [] then none
  else match parseUintLoop s 0 with
    | .value n => some n
    | .syntaxError => none
    | .rangeError => some (2 ^ 64 - 1)

/-- Clamping of `strconv.ParseInt(s, 10, 0)` on a 64-bit platform. -/
def clampInt (neg : Bool) (un : Nat) : Int :=
  if !neg ∧ 2 ^ 63 ≤ un then 2 ^ 63 - 1
  else if neg ∧ 2 ^ 63 < un then -(2 ^ 63)
  else if neg then -(un : Int) else (un : Int)

/-- The value `strconv.Atoi` returns when its error is discarded: 0 on a syntax
error, the nearest bound on a range error. -/
def atoi (s : List Byte) : Int :=
  match s with
  | [] => 0
  | c :: rest =>
    let neg := decide (c = 45)
    let digits := if c = 43 ∨ c = 45 then rest else c :: rest
    match parseUint digits with
    | none => 0
    | some un => clampInt neg un

/-! ## Sensitivity heuristic -/

/-- The function `hasURLParameter`. -/
def hasURLParameter (targetURL : List Byte) : Bool :=
  let urlParameters := [
    bs "login", bs "signin", bs "auth", bs "register", bs "ap/", bs "account", bs "signup",
    bs "session", bs "oauth",
    bs "form", bs "submit", bs "entry", bs "contact", bs "profile", bs "post", bs "feedback",
    bs "setting", bs "edit", bs "update"]
  urlParameters.any (fun urlParameter => contains targetURL urlParameter)

/-- The regular expressions that `hasKeyParameter` builds. -/
inductive Regex where
  /-- A literal string. -/
  | lit (s : List Byte)
  /-- The assertion `\b`: an ASCII word boundary. -/
  | wordBoundary
  /-- The expression that matches nothing (an alternation of no branch). -/
  | never
  /-- Alternation `a|b`. -/
  | alt (a b : Regex)
  /-- Concatenation `ab`. -/
  | cat (a b : Regex)

/-- The class `\w` of Go regular expressions: `[0-9A-Za-z_]`. -/
def isWordByte (c : Byte) : Bool :=
  (48 ≤ c && c ≤ 57) || (65 ≤ c && c ≤ 90) || (97 ≤ c && c ≤ 122) || c = 95

/-- Is the byte at position `i` of `s` a word byte? Outside the text there is none. -/
def wordAt (s : List Byte) (i : Nat) : Bool :=
  match s[i]? with
  | some c => isWordByte c
  | none => false

/-- The assertion `\b` at position `i`: a word byte on exactly one side. -/
def boundaryAt (s : List Byte) (i : Nat) : Bool :=
  (if i = 0 then false else wordAt s (i - 1)) != wordAt s i

/-- The positions at which a match of `r` that starts at position `i` of `s` can end. -/
def Regex.ends (s : List Byte) : Regex → Nat → List Nat
  | .lit k, i => if hasPrefix (s.drop i) k then [i + k.length] else []
  | .wordBoundary, i => if boundaryAt s i then [i] else []
  | .never, _ => []
  | .alt a b, i => a.ends s i ++ b.ends s i
  | .cat a b, i => (a.ends s i).flatMap (fun j => b.ends s j)

/-- The method `MatchString`: some match starts somewhere in `s`. -/
def Regex.matchString (r : Regex) (s : List Byte) : Bool :=
  (List.range (s.length + 1)).any (fun i => !(r.ends s i).isEmpty)

/-- The list `keyParameters` of `hasKeyParameter`. -/
def keyParameters : List (List Byte) := [
  bs "user_id", bs "userid", bs "username", bs "login_id",
  bs "password", bs "passwd", bs "pwd", bs "pw",
  bs "email", bs "phone",
  bs "access_token", bs "session_id",
  bs "first_name", bs "last_name",
  bs "client_secret", bs "refresh_token", bs "bearer"]

/-- The pattern compiled from the keys joined by a bar between `\b(` and `)\b`. -/
def sensitiveKeyPattern : Regex :=
  .cat .wordBoundary (.cat (keyParameters.foldr (fun k r => .alt (.lit k) r) .never) .wordBoundary)

/-- The function `hasKeyParameter`. -/
def hasKeyParameter (payload : List Byte) : Bool :=
  if sensitiveKeyPattern.matchString payload then true else false

/-- The function `hasGetPostData`. -/
def hasGetPostData (hasURL hasKey : Bool) : Bool :=
  if hasURL && hasKey then true
  else if hasURL && !hasKey then false
  else if !hasURL && hasKey then true
  else false

/-! ## Content classifier and payload logger -/

/-- One call of `logFileWrite`. -/
structure LogCall where
  targetURL : List Byte
  displayFormat : List Byte
deriving DecidableEq, Repr

/-- How a call of a function that reports an `error` ends. -/
inductive Call (α : Type) where
  /-- The function returns `nil` as its error. -/
  | ok (a : α)
  /-- The function returns an error. -/
  | error
  /-- The function panics. -/
  | panicked
deriving DecidableEq, Repr

/-- The variables `jsonStart`, `jsonEnd` and `braceCount` of `parseJsonAndTextBody`. -/
structure BraceScan where
  jsonStart : Int
  jsonEnd : Int
  braceCount : Int
deriving DecidableEq, Repr

/-- The brace-counting loop of `parseJsonAndTextBody` from position `index` on. -/
def braceLoop : List Byte → Nat → BraceScan → BraceScan
  | [], _, st => st
  | jsonValue :: rest, index, st =>
    if jsonValue = 123 ∧ st.braceCount = 0 then
      braceLoop rest (index + 1) { st with jsonStart := index, braceCount := 1 }
    else if jsonValue = 123 then
      braceLoop rest (index + 1) { st with braceCount := st.braceCount + 1 }
    else if jsonValue = 125 then
      if st.braceCount - 1 = 0 ∧ 0 ≤ st.jsonStart then
        { st with braceCount := st.braceCount - 1, jsonEnd := index + 1 }
      else braceLoop rest (index + 1) { st with braceCount := st.braceCount - 1 }
    else braceLoop rest (index + 1) st

/-- The candidate region `noChunkedHttpBody[jsonStart:jsonEnd]` that
`parseJsonAndTextBody` hands to the JSON parser: `error` when the function
returns "no valid json data found" before. -/
def jsonCandidate (env : Env) (payload : List Byte) : Call (List Byte) :=
  let noChunkedHttpBody := trimSpace env payload
  let sc := braceLoop noChunkedHttpBody 0 ⟨0, 0, 0⟩
  let jsonEnd : Int :=
    if sc.jsonEnd = 0 ∧ 0 ≤ sc.jsonStart then noChunkedHttpBody.length else sc.jsonEnd
  if sc.jsonStart < 0 ∨ jsonEnd = 0 then .error
  else match slice noChunkedHttpBody sc.jsonStart jsonEnd with
    | none => .panicked
    | some jsonPayload => .ok jsonPayload

/-- The function `parseJsonAndTextBody`; the value is the list of calls of `logFileWrite`. -/
def parseJsonAndTextBody (env : Env) (targetURL payload : List Byte) : Call (List LogCall) :=
  match jsonCandidate env payload with
  | .error => .error
  | .panicked => .panicked
  | .ok jsonPayload =>
    match env.jsonIndent jsonPayload with
    | none => .error
    | some indentJSON =>
      .ok [⟨targetURL,
        bs "[" ++ env.now ++ bs "]\n" ++
        bs "=====================================\n" ++
        bs "1. TargetURL: " ++ targetURL ++ bs "\n" ++
        bs "2. Payload\n" ++
        indentJSON ++ bs "\n" ++
        bs "=====================================\n\n"⟩]

/-- The function `strings.Join`. -/
def join (sep : List Byte) : List (List Byte) → List Byte
  | [] => []
  | [v] => v
  | v :: vs => v ++ sep ++ join sep vs

/-- The verb `%-*s` of `fmt`: the string, then spaces up to `width` runes. -/
def padRight (env : Env) (width : Nat) (s : List Byte) : List Byte :=
  s ++ List.replicate (width - env.runeCount s) 32

/-- The function `parseFormBody`; the value is the list of calls of `logFileWrite`. -/
def parseFormBody (env : Env) (targetURL payload : List Byte) : Call (List LogCall) :=
  match env.formEntries (trimSpace env payload) with
  | none => .error
  | some postPayload =>
    let maxKeyLen := postPayload.foldl
      (fun maxKeyLen kv => if maxKeyLen < kv.1.length then kv.1.length else maxKeyLen) 0
    let payloadOutputFormatting := postPayload.foldl
      (fun out kv => out ++ padRight env maxKeyLen kv.1 ++ bs " | " ++ join (bs ", ") kv.2 ++ bs "\n")
      []
    .ok [⟨targetURL,
      bs "[" ++ env.now ++ bs "]\n" ++
      bs "=====================================\n" ++
      bs "1. TargetURL: " ++ targetURL ++ bs "\n\n" ++
      bs "2. Payload\n" ++
      payloadOutputFormatting ++
      bs "=====================================\n\n"⟩]

/-! ## Body extractor -/

/-- The variables `contentType` and `targetURL` of `extractPostPayload`. -/
structure HdrScan where
  contentType : List Byte
  targetURL : List Byte
deriving DecidableEq, Repr

/-- One round of the header loop of `extractPostPayload`; `none` when a slice panics. -/
def hdrScanLine (env : Env) (st : HdrScan) (httpHdrLine : List Byte) : Option HdrScan :=
  let st1 : Option HdrScan :=
    if hasPrefix (toLower env httpHdrLine) (bs "content-type: ") then
      (sliceFrom httpHdrLine (bs "Content-Type:").length).map
        (fun v => { st with contentType := trimSpace env v })
    else some st
  match st1 with
  | none => none
  | some st1 =>
    if hasPrefix (toLower env httpHdrLine) (bs "referer: ") then
      (sliceFrom httpHdrLine (bs "Referer:").length).map
        (fun v => { st1 with targetURL := trimSpace env v })
    else some st1

/-- The header loop of `extractPostPayload` over the lines still to visit. -/
def hdrScan (env : Env) : List (List Byte) → HdrScan → Option HdrScan
  | [], st => some st
  | line :: rest, st =>
    match hdrScanLine env st line with
    | none => none
    | some st1 => hdrScan env rest st1

/-- The function `extractPostPayload`: the calls of `logFileWrite` it makes,
or `none` when it panics.  It never returns an error. -/
def extractPostPayload (env : Env) (httpHdrStart : Int) (payload recvBuf : List Byte) :
    Option (List LogCall) :=
  let noChunkStart := bytesIndex payload (bs "\r\n")
  let noChunkEnd := bytesIndex payload (bs "0\r\n\r\n")
  if noChunkEnd = -1 then some []
  else match sliceFrom recvBuf httpHdrStart with
    | none => none
    | some hdrs =>
      match hdrScan env (bytesSplit hdrs (bs "\r\n")) ⟨[], []⟩ with
      | none => none
      | some h =>
        if h.targetURL = [] then some []
        else
          let hasURL := hasURLParameter h.targetURL
          match slice payload noChunkStart noChunkEnd with
          | none => none
          | some body =>
            let hasKey := hasKeyParameter body
            let logged (r : Call (List LogCall)) : Option (List LogCall) :=
              match r with
              | .ok calls => some calls
              | .error => some []
              | .panicked => none
            if contains h.contentType (bs "application/json") then
              if hasGetPostData hasURL hasKey then logged (parseJsonAndTextBody env h.targetURL body)
              else some []
            else if contains h.contentType (bs "text/plain") then
              if hasGetPostData hasURL hasKey then logged (parseJsonAndTextBody env h.targetURL body)
              else some []
            else if contains h.contentType (bs "application/x-www-form-urlencoded") then
              if hasGetPostData hasURL hasKey then logged (parseFormBody env h.targetURL body)
              else some []
            else some []

/-! ## Response writer -/

/-- The error numbers the handler tells apart. -/
inductive Errno where
  | EPIPE
  | ECONNRESET
  | other (code : Nat)
deriving DecidableEq, Repr

/-- What one call of `syscall.Read` returns: the bytes read (none of them at
the end of the stream), or an error. -/
inductive ReadResult where
  | ok (chunk : List Byte)
  | err (e : Errno)
deriving DecidableEq, Repr

/-- What one call of `syscall.Write` does: the transport takes up to `n` bytes
of the buffer it is given, or fails. -/
inductive WriteResult where
  | ok (n : Nat)
  | err (e : Errno)
deriving DecidableEq, Repr

/-- The errors `HTTPMessageHandle` returns. -/
inductive HandlerError where
  /-- The error "failed to read tcp data". -/
  | read (e : Errno)
  /-- The error "req-hdr not found in encapsulated header". -/
  | reqHdrNotFound
  /-- The error "failed to write http code". -/
  | write (e : Errno)
deriving DecidableEq, Repr

/-- How a run ends. -/
inductive Outcome where
  /-- The function returns, with an error or with `nil`. -/
  | returned (err : Option HandlerError)
  /-- A run-time panic (slice or index out of range). -/
  | panicked
  /-- The run waits in a system call whose result the oracle does not hold. -/
  | blocked
deriving DecidableEq, Repr

/-- A finished call of `sendHTTPCode200` or `sendHTTPCode204`. -/
structure Sent where
  outcome : Outcome
  /-- The bytes the transport took. -/
  written : List Byte
  /-- The write results not consumed. -/
  writes : List WriteResult
deriving DecidableEq, Repr

/-- The literal `httpCode200`. -/
def httpCode200 : List Byte :=
  bs "ICAP/1.0 200 OK\r\n" ++
  bs "Server: Go-ICAP/1.0\r\n" ++
  bs "Methods: REQMOD\r\n" ++
  bs "ISTag: v1-local-1\r\n" ++
  bs "Allow: 204\r\n" ++
  bs "Encapsulated: null-body=0\r\n\r\n"

/-- The literal `httpCode204`. -/
def httpCode204 : List Byte := bs "ICAP/1.0 204 No Content\r\n\r\n"

/-- The write loop shared by `sendHTTPCode200` and `sendHTTPCode204`, with
`writeLen` bytes counted as sent and `out` taken by the transport so far. -/
def sendLoop (code : List Byte) : List WriteResult → Nat → List Byte → Sent
  | [], writeLen, out =>
    if writeLen < code.length then ⟨.blocked, out, []⟩ else ⟨.returned none, out, []⟩
  | w :: ws, writeLen, out =>
    if writeLen < code.length then
      match w with
      | .err e =>
        if e = .EPIPE ∨ e = .ECONNRESET then ⟨.returned none, out, ws⟩
        else ⟨.returned (some (.write e)), out, ws⟩
      | .ok n =>
        let numWrite := min n (code.drop writeLen).length
        sendLoop code ws (writeLen + numWrite) (out ++ (code.drop writeLen).take numWrite)
    else ⟨.returned none, out, w :: ws⟩

/-- The function `sendHTTPCode200`. -/
def sendHTTPCode200 (writes : List WriteResult) : Sent := sendLoop httpCode200 writes 0 []

/-- The function `sendHTTPCode204`. -/
def sendHTTPCode204 (writes : List WriteResult) : Sent := sendLoop httpCode204 writes 0 []

/-! ## Stream reassembler -/

/-- The map `encapsulatedOffsets`: the latest entry of a name comes first. -/
abbrev Offsets := List (List Byte × Int)

/-- The variables of `HTTPMessageHandle` that live across rounds of its loop. -/
structure HState where
  recvBuf : List Byte
  contentLength : Int
  encapsulatedOffsets : Offsets
deriving DecidableEq, Repr

/-- The separator `hdrDelimiter`. -/
def hdrDelimiter : List Byte := bs "\r\n\r\n"

/-- The inner loop over the entries of one `Encapsulated` line; `none` when
`encapsulatedPairs[1]` is out of range. -/
def encapsulatedEntries (env : Env) : List (List Byte) → Offsets → Option Offsets
  | [], offsets => some offsets
  | encapsulated :: rest, offsets =>
    let encapsulatedPairs := splitN2 (trimSpace env encapsulated) (bs "=")
    match encapsulatedPairs[1]? with
    | none => none
    | some value =>
      match encapsulatedPairs[0]? with
      | none => none
      | some name =>
        encapsulatedEntries env rest ((trimSpace env name, atoi (trimSpace env value)) :: offsets)

/-- The loop over the lines of the ICAP header that fills `encapsulatedOffsets`. -/
def encapsulatedLoop (env : Env) : List (List Byte) → Offsets → Option Offsets
  | [], offsets => some offsets
  | icapHdrLine :: rest, offsets =>
    if hasPrefix (toLower env icapHdrLine) (bs "encapsulated: ") then
      match sliceFrom icapHdrLine (bs "Encapsulated:").length with
      | none => none
      | some value =>
        match encapsulatedEntries env (bytesSplit (trimSpace env value) (bs ",")) offsets with
        | none => none
        | some offsets1 => encapsulatedLoop env rest offsets1
    else encapsulatedLoop env rest offsets

/-- The loop over the lines of the embedded HTTP header that sets `contentLength`. -/
def contentLengthLoop (env : Env) : List (List Byte) → Int → Option Int
  | [], contentLength => some contentLength
  | httpHdrLine :: rest, contentLength =>
    if hasPrefix (toLower env httpHdrLine) (bs "content-length: ") then
      match sliceFrom httpHdrLine (bs "Content-Length:").length with
      | none => none
      | some value => contentLengthLoop env rest (atoi (trimSpace env value))
    else contentLengthLoop env rest contentLength

/-- What one round of the loop of `HTTPMessageHandle` decides once the bytes
read are appended to `recvBuf`. -/
inductive Step where
  /-- The statement `continue`: on to the next read. -/
  | next (st : HState)
  /-- A run-time panic. -/
  | panicked
  /-- The statement `return fmt.Errorf(...)`. -/
  | fail (e : HandlerError)
  /-- The statement `return sendHTTPCode200(cliFD)`. -/
  | reply200
  /-- The statement `return sendHTTPCode204(cliFD)`, after a call of
  `extractPostPayload(httpHdrStart, payload, recvBuf)` when `extract` holds its arguments. -/
  | reply204 (extract : Option (Int × List Byte × List Byte))
deriving DecidableEq, Repr

/-- The body of the loop of `HTTPMessageHandle` from `icapHdrEnd := ...` on. -/
def iteration (env : Env) (st : HState) : Step :=
  let recvBuf := st.recvBuf
  let icapHdrEnd := bytesIndex recvBuf hdrDelimiter
  match sliceTo recvBuf icapHdrEnd with
  | none => .panicked
  | some icapHdr =>
    if hasPrefix (toUpper env icapHdr) (bs "OPTIONS ") then .reply200
    else
      let httpHdrStart := icapHdrEnd + hdrDelimiter.length
      match sliceFrom recvBuf httpHdrStart with
      | none => .panicked
      | some afterIcap =>
        let httpHdrEnd0 := bytesIndex afterIcap (bs "\r\n\r\n")
        if httpHdrEnd0 = -1 then .next st
        else
          let httpHdrEnd := httpHdrEnd0 + httpHdrStart
          match encapsulatedLoop env (bytesSplit icapHdr (bs "\r\n")) st.encapsulatedOffsets with
          | none => .panicked
          | some offsets =>
            if (offsets.lookup (bs "null-body")).isSome then .reply204 none
            else
              match slice recvBuf httpHdrStart httpHdrEnd with
              | none => .panicked
              | some httpHdr =>
                match contentLengthLoop env (bytesSplit httpHdr (bs "\r\n")) st.contentLength with
                | none => .panicked
                | some contentLength =>
                  if wrap64 (wrap64 (httpHdrEnd + (bs "\r\n\r\n").length) + contentLength)
                      > recvBuf.length then
                    .next ⟨recvBuf, contentLength, offsets⟩
                  else if (offsets.lookup (bs "req-hdr")).isNone then .fail .reqHdrNotFound
                  else
                    let reqBodyLen := (offsets.lookup (bs "req-body")).getD 0
                    let hasReqBody := (offsets.lookup (bs "req-body")).isSome
                    match sliceFrom recvBuf (wrap64 (httpHdrStart + reqBodyLen)) with
                    | none => .panicked
                    | some payload =>
                      let hasPost := hasPrefix (toUpper env afterIcap) (bs "POST ")
                      if hasReqBody && hasPost then .reply204 (some (httpHdrStart, payload, recvBuf))
                      else .reply204 none

/-- A run of `HTTPMessageHandle`. -/
structure Run where
  outcome : Outcome
  /-- The bytes written to the connection. -/
  written : List Byte
  /-- The calls of `logFileWrite`, in order. -/
  logged : List LogCall
  /-- Whether `extractPostPayload` was called. -/
  extracted : Bool
  /-- The read results not consumed. -/
  reads : List ReadResult
  /-- The write results not consumed. -/
  writes : List WriteResult
deriving DecidableEq, Repr

/-- The loop of `HTTPMessageHandle` over the results of its reads. -/
def handleLoop (env : Env) : List ReadResult → List WriteResult → HState → Run
  | [], writes, _ => ⟨.blocked, [], [], false, [], writes⟩
  | .err e :: reads, writes, _ => ⟨.returned (some (.read e)), [], [], false, reads, writes⟩
  | .ok chunk :: reads, writes, st =>
    if chunk.length = 0 then ⟨.returned none, [], [], false, reads, writes⟩
    else
      match iteration env { st with recvBuf := st.recvBuf ++ chunk } with
      | .next st1 => handleLoop env reads writes st1
      | .panicked => ⟨.panicked, [], [], false, reads, writes⟩
      | .fail e => ⟨.returned (some e), [], [], false, reads, writes⟩
      | .reply200 =>
        let sent := sendHTTPCode200 writes
        ⟨sent.outcome, sent.written, [], false, reads, sent.writes⟩
      | .reply204 none =>
        let sent := sendHTTPCode204 writes
        ⟨sent.outcome, sent.written, [], false, reads, sent.writes⟩
      | .reply204 (some (httpHdrStart, payload, recvBuf)) =>
        match extractPostPayload env httpHdrStart payload recvBuf with
        | none => ⟨.panicked, [], [], true, reads, writes⟩
        | some calls =>
          let sent := sendHTTPCode204 writes
          ⟨sent.outcome, sent.written, calls, true, reads, sent.writes⟩

/-- The function `HTTPMessageHandle` on a connection whose reads and writes
return `reads` and `writes`. -/
def HTTPMessageHandle (env : Env) (reads : List ReadResult) (writes : List WriteResult) : Run :=
  handleLoop env reads writes ⟨[], 0, []⟩

/-- An environment for runs on ASCII text that never reach the JSON or
URL decoder: no Unicode mapping, every decoder call reports an error. -/
def asciiEnv : Env where
  unicodeUpper := fun s => s
  unicodeLower := fun s => s
  unicodeTrim := fun s => s
  runeCount := fun s => s.length
  jsonIndent := fun _ => none
  formEntries := fun _ => none
  now := bs "2006-01-02 15:04:05"

/-! ## The parts of a buffered message, as `HTTPMessageHandle` cuts them -/

/-- The value of `icapHdrEnd` for the buffer `recvBuf`. -/
def icapHdrEndOf (recvBuf : List Byte) : Int := bytesIndex recvBuf hdrDelimiter

/-- The ICAP header block `recvBuf[:icapHdrEnd]`, when `icapHdrEnd` is not negative. -/
def icapHdrOf (recvBuf : List Byte) : List Byte := recvBuf.take (icapHdrEndOf recvBuf).toNat

/-- The value of `httpHdrStart`. -/
def httpHdrStartOf (recvBuf : List Byte) : Int := icapHdrEndOf recvBuf + hdrDelimiter.length

/-- The bytes `recvBuf[httpHdrStart:]` after the ICAP header block. -/
def afterIcapOf (recvBuf : List Byte) : List Byte := recvBuf.drop (httpHdrStartOf recvBuf).toNat

/-- The value of `httpHdrEnd` after `httpHdrEnd += httpHdrStart`. -/
def httpHdrEndOf (recvBuf : List Byte) : Int :=
  bytesIndex (afterIcapOf recvBuf) hdrDelimiter + httpHdrStartOf recvBuf

/-- The embedded HTTP header block `recvBuf[httpHdrStart:httpHdrEnd]`. -/
def httpHdrOf (recvBuf : List Byte) : List Byte :=
  (afterIcapOf recvBuf).take (bytesIndex (afterIcapOf recvBuf) hdrDelimiter).toNat

/-- The left side of the completeness check,
`httpHdrEnd + len("\r\n\r\n") + contentLength`, in 64-bit arithmetic. -/
def completenessSum (recvBuf : List Byte) (contentLength : Int) : Int :=
  wrap64 (wrap64 (httpHdrEndOf recvBuf + (bs "\r\n\r\n").length) + contentLength)

/-- The write results of a transport that takes the sizes `ns` one after the
other, each time without error, and then goes on with `rest`. -/
def accepting (ns : List Nat) (rest : List WriteResult) : List WriteResult :=
  ns.map WriteResult.ok ++ rest

/-- The start `httpHdrStart + reqBodyLen` of the slice `payload`, in 64-bit arithmetic. -/
def payloadStartOf (recvBuf : List Byte) (reqBodyLen : Int) : Int :=
  wrap64 (httpHdrStartOf recvBuf + reqBodyLen)

/-- An OPTIONS probe. -/
def optionsProbe : List Byte :=
  bs "OPTIONS icap://127.0.0.1/reqmod ICAP/1.0\r\nHost: 127.0.0.1\r\n\r\n"

/-- A REQMOD request that carries a GET request without body. -/
def reqmodGet : List Byte :=
  bs "REQMOD icap://127.0.0.1/reqmod ICAP/1.0\r\nHost: 127.0.0.1\r\nEncapsulated: req-hdr=0, null-body=37\r\n\r\n" ++
  bs "GET / HTTP/1.1\r\nHost: example.com\r\n\r\n"

/-- A REQMOD request whose only Encapsulated entry is `null-body=0`: it embeds
no HTTP header block. -/
def reqmodNullBodyOnly : List Byte :=
  bs "REQMOD icap://127.0.0.1/reqmod ICAP/1.0\r\nHost: 127.0.0.1\r\nEncapsulated: null-body=0\r\n\r\n"

/-- A REQMOD request that carries a PUT request with a chunked body. -/
def reqmodPut : List Byte :=
  bs "REQMOD icap://127.0.0.1/reqmod ICAP/1.0\r\nHost: 127.0.0.1\r\nEncapsulated: req-hdr=0, req-body=41\r\n\r\n" ++
  bs "PUT /item HTTP/1.1\r\nHost: example.com\r\n\r\n" ++
  bs "5\r\nhello\r\n0\r\n\r\n"

/-- A REQMOD request whose Encapsulated header names neither `req-hdr` nor `null-body`. -/
def reqmodNoReqHdr : List Byte :=
  bs "REQMOD icap://127.0.0.1/reqmod ICAP/1.0\r\nHost: 127.0.0.1\r\nEncapsulated: req-body=41\r\n\r\n" ++
  bs "PUT /item HTTP/1.1\r\nHost: example.com\r\n\r\n" ++
  bs "5\r\nhello\r\n0\r\n\r\n"

/-- The request `reqmodGet` with a `req-body` offset past the end of the message. -/
def reqmodOffsetBeyond : List Byte :=
  bs "REQMOD icap://127.0.0.1/reqmod ICAP/1.0\r\nHost: 127.0.0.1\r\nEncapsulated: req-hdr=0, req-body=9999\r\n\r\n" ++
  bs "GET / HTTP/1.1\r\nHost: example.com\r\n\r\n"

/-- The request `reqmodPut` with a `req-body` offset past the end of the message. -/
def reqmodPutOffsetBeyond : List Byte :=
  bs "REQMOD icap://127.0.0.1/reqmod ICAP/1.0\r\nHost: 127.0.0.1\r\nEncapsulated: req-hdr=0, req-body=9999\r\n\r\n" ++
  bs "PUT /item HTTP/1.1\r\nHost: example.com\r\n\r\n" ++
  bs "5\r\nhello\r\n0\r\n\r\n"

/-- The request `reqmodGet` with a negative `req-body` offset. -/
def reqmodOffsetNegative : List Byte :=
  bs "REQMOD icap://127.0.0.1/reqmod ICAP/1.0\r\nHost: 127.0.0.1\r\nEncapsulated: req-hdr=0, req-body=-500\r\n\r\n" ++
  bs "GET / HTTP/1.1\r\nHost: example.com\r\n\r\n"

/-- The request `reqmodGet` with an Encapsulated entry that has no `=`. -/
def reqmodEntryWithoutEq : List Byte :=
  bs "REQMOD icap://127.0.0.1/reqmod ICAP/1.0\r\nHost: 127.0.0.1\r\nEncapsulated: req-hdr=0, req-body\r\n\r\n" ++
  bs "GET / HTTP/1.1\r\nHost: example.com\r\n\r\n"

/-- The delivery of a message in reads of one byte each. -/
def byteReads (msg : List Byte) : List ReadResult := msg.map (fun b => ReadResult.ok [b])

/-- A REQMOD request that carries a POST request with a Referer line and the
empty chunked body `0 CRLF CRLF`. -/
def reqmodPostEmptyBody : List Byte :=
  bs "REQMOD icap://127.0.0.1/reqmod ICAP/1.0\r\nHost: 127.0.0.1\r\nEncapsulated: req-hdr=0, req-body=65\r\n\r\n" ++
  bs "POST /login HTTP/1.1\r\nHost: site\r\nReferer: https://site/login\r\n\r\n" ++
  bs "0\r\n\r\n"

/-- The first line of a REQMOD request, as a read that ends before the header block does. -/
def reqmodFirstLine : List Byte := bs "REQMOD icap://127.0.0.1/reqmod ICAP/1.0\r\n"

/-- Does the key start and end with a word byte? -/
def keyShape (k : List Byte) : Bool :=
  match k[0]?, k[k.length - 1]? with
  | some c, some d => isWordByte c && isWordByte d
  | _, _ => false

/-- A REQMOD request that carries a JSON POST with a sensitive key and a
recognised Content-Type, but no Referer line. -/
def reqmodPostNoReferer : List Byte :=
  bs "REQMOD icap://127.0.0.1/reqmod ICAP/1.0\r\nHost: 127.0.0.1\r\nEncapsulated: req-hdr=0, req-body=68\r\n\r\n" ++
  bs "POST /login HTTP/1.1\r\nHost: site\r\nContent-Type: application/json\r\n\r\n" ++
  bs "15\r\n\x7b\"password\":\"abc123\"\x7d\r\n0\r\n\r\n"

/-- The brace depth of a text: every `{` counts +1, every `}` counts -1. -/
def braceDepth : List Byte → Int
  | [] => 0
  | c :: cs => (if c = 123 then 1 else if c = 125 then -1 else 0) + braceDepth cs

/-- The environment `asciiEnv` with the values the Go library returns on the
texts of the examples: `json.Unmarshal` into a map accepts the JSON text `null`
(the map stays nil and `json.MarshalIndent` prints it as `null`) and the object
`{"password":"abc123"}`; `url.ParseQuery` accepts `password=a&email=b`, and
`range` visits the key `password` first.  On every other text this environment
reports an error. -/
def sampleEnv : Env :=
  { asciiEnv with
    jsonIndent := fun s =>
      if s = bs "null" then some (bs "null")
      else if s = bs "\x7b\"password\":\"abc123\"\x7d" then
        some (bs "\x7b\n  \"password\": \"abc123\"\n\x7d")
      else none
    formEntries := fun s =>
      if s = bs "password=a&email=b" then
        some [(bs "password", [bs "a"]), (bs "email", [bs "b"])]
      else none }

/-- The environment `sampleEnv` in a run in which `range` visits the key `email` first. -/
def sampleEnvEmailFirst : Env :=
  { sampleEnv with
    formEntries := fun s =>
      if s = bs "password=a&email=b" then
        some [(bs "email", [bs "b"]), (bs "password", [bs "a"])]
      else none }

/-- The text that `parseJsonAndTextBody` hands to `logFileWrite` for the target
URL `targetURL` and the re-serialised object `indentJSON`. -/
def jsonDisplayFormat (env : Env) (targetURL indentJSON : List Byte) : List Byte :=
  bs "[" ++ env.now ++ bs "]\n" ++
  bs "=====================================\n" ++
  bs "1. TargetURL: " ++ targetURL ++ bs "\n" ++
  bs "2. Payload\n" ++
  indentJSON ++ bs "\n" ++
  bs "=====================================\n\n"

/-- A REQMOD request that carries a single-chunk JSON POST with a Referer line. -/
def reqmodPostJson : List Byte :=
  bs "REQMOD icap://127.0.0.1/reqmod ICAP/1.0\r\nHost: 127.0.0.1\r\nEncapsulated: req-hdr=0, req-body=97\r\n\r\n" ++
  bs "POST /login HTTP/1.1\r\nHost: site\r\nContent-Type: application/json\r\nReferer: https://site/login\r\n\r\n" ++
  bs "15\r\n\x7b\"password\":\"abc123\"\x7d\r\n0\r\n\r\n"

/-- A REQMOD request that carries a single-chunk form POST with two distinct keys. -/
def reqmodPostForm : List Byte :=
  bs "REQMOD icap://127.0.0.1/reqmod ICAP/1.0\r\nHost: 127.0.0.1\r\nEncapsulated: req-hdr=0, req-body=114\r\n\r\n" ++
  bs "POST /login HTTP/1.1\r\nHost: site\r\nContent-Type: application/x-www-form-urlencoded\r\nReferer: https://site/login\r\n\r\n" ++
  bs "12\r\npassword=a&email=b\r\n0\r\n\r\n"

/-- Is the byte a decimal digit? -/
def isDigit (c : Byte) : Bool := decide (48 ≤ c ∧ c ≤ 57)

/-- The number that the decimal digits `ds` denote after the number `n`. -/
def decimalFrom (n : Nat) (ds : List Byte) : Nat :=
  ds.foldl (fun n c => n * 10 + (c - 48)) n

/-- The text that `strconv.Atoi` reads as digits: what follows one leading sign. -/
def digitsPart : List Byte → List Byte
  | [] => []
  | c :: rest => if c = 43 ∨ c = 45 then rest else c :: rest

/-- A value that is not a number: after an optional sign it is empty, or it
reaches a byte that is not a decimal digit while the digits before that byte
denote a number below 2^64. -/
def NonNumeric (s : List Byte) : Prop :=
  digitsPart s = [] ∨
    ∃ ds c rest, digitsPart s = ds ++ c :: rest ∧ (∀ d ∈ ds, isDigit d = true) ∧
      isDigit c = false ∧ decimalFrom 0 ds < 2 ^ 64

/-- The name and the offset that the parser stores for one entry of the
Encapsulated header: the trimmed text before the first `=` and the value
`strconv.Atoi` gives for the trimmed text after it. -/
def entryPair (env : Env) (encapsulated : List Byte) : List Byte × Int :=
  let entry := trimSpace env encapsulated
  let m := (bytesIndex entry (bs "=")).toNat
  (trimSpace env (entry.take m), atoi (trimSpace env (entry.drop (m + 1))))

/-- A REQMOD request whose embedded header has the Content-Length value
`99999999999999999999x`. -/
def reqmodHugeLength : List Byte :=
  bs "REQMOD icap://127.0.0.1/reqmod ICAP/1.0\r\nHost: 127.0.0.1\r\nEncapsulated: req-hdr=0, req-body=83\r\n\r\n" ++
  bs "PUT /item HTTP/1.1\r\nHost: example.com\r\nContent-Length: 99999999999999999999x\r\n\r\n" ++
  bs "5\r\nhello\r\n0\r\n\r\n"

/-- A REQMOD request whose embedded header has the Content-Length value `12abc`. -/
def reqmodBadLength : List Byte :=
  bs "REQMOD icap://127.0.0.1/reqmod ICAP/1.0\r\nHost: 127.0.0.1\r\nEncapsulated: req-hdr=0, req-body=67\r\n\r\n" ++
  bs "PUT /item HTTP/1.1\r\nHost: example.com\r\nContent-Length: 12abc\r\n\r\n" ++
  bs "5\r\nhello\r\n0\r\n\r\n"

/-- Is the byte a hexadecimal digit? -/
def isHexDigit (c : Byte) : Bool :=
  (48 ≤ c && c ≤ 57) || (65 ≤ c && c ≤ 70) || (97 ≤ c && c ≤ 102)

/-- The body of a request sent as one chunk: the chunk-size line, the data,
and the terminal chunk. -/
def singleChunk (sizeLine data : List Byte) : List Byte :=
  sizeLine ++ bs "\r\n" ++ data ++ bs "\r\n0\r\n\r\n"

/-- The range `payload[noChunkStart:noChunkEnd]` of `extractPostPayload`;
`none` when the slice expression panics. -/
def chunkRange (payload : List Byte) : Option (List Byte) :=
  slice payload (bytesIndex payload (bs "\r\n")) (bytesIndex payload (bs "0\r\n\r\n"))

/-! ## The Unicode-aware trimming of the Go library -/

/-- The rune `utf8.RuneError`. -/
def runeError : Nat := 0xFFFD

/-- The function `unicode.IsSpace`. -/
def isSpaceRune (r : Nat) : Bool :=
  r = 0x09 || r = 0x0A || r = 0x0B || r = 0x0C || r = 0x0D || r = 0x20 || r = 0x85 || r = 0xA0 ||
  r = 0x1680 || (0x2000 ≤ r && r ≤ 0x200A) || r = 0x2028 || r = 0x2029 || r = 0x202F ||
  r = 0x205F || r = 0x3000

/-- The function `utf8.DecodeRune`: the rune at the front of the text and its width. -/
def decodeRune : List Byte → Nat × Nat
  | [] => (runeError, 0)
  | p0 :: rest =>
    if p0 < 0x80 then (p0, 1)
    else if p0 < 0xC2 ∨ 0xF5 ≤ p0 then (runeError, 1)
    else
      let lo := if p0 = 0xE0 then 0xA0 else if p0 = 0xF0 then 0x90 else 0x80
      let hi := if p0 = 0xED then 0x9F else if p0 = 0xF4 then 0x8F else 0xBF
      let sz := if p0 < 0xE0 then 2 else if p0 < 0xF0 then 3 else 4
      if rest.length + 1 < sz then (runeError, 1)
      else
        match rest with
        | [] => (runeError, 1)
        | b1 :: rest1 =>
          if b1 < lo ∨ hi < b1 then (runeError, 1)
          else if sz ≤ 2 then (p0 % 32 * 64 + b1 % 64, 2)
          else
            match rest1 with
            | [] => (runeError, 1)
            | b2 :: rest2 =>
              if b2 < 0x80 ∨ 0xBF < b2 then (runeError, 1)
              else if sz ≤ 3 then (p0 % 16 * 4096 + b1 % 64 * 64 + b2 % 64, 3)
              else
                match rest2 with
                | [] => (runeError, 1)
                | b3 :: _ =>
                  if b3 < 0x80 ∨ 0xBF < b3 then (runeError, 1)
                  else (p0 % 8 * 262144 + b1 % 64 * 4096 + b2 % 64 * 64 + b3 % 64, 4)

/-- The function `utf8.RuneStart`: the byte is not a continuation byte. -/
def runeStart (b : Byte) : Bool := decide (b / 64 % 4 ≠ 2)

/-- The loop of `utf8.DecodeLastRune` that looks back for the start of the last rune. -/
def lookBack (p : List Byte) (lim : Int) : Int → Nat → Int
  | start, 0 => start
  | start, fuel + 1 =>
    if start < lim then start
    else if runeStart (p.getD start.toNat 0) then start
    else lookBack p lim (start - 1) fuel

/-- The function `utf8.DecodeLastRune`: the rune at the end of the text and its width. -/
def decodeLastRune (p : List Byte) : Nat × Nat :=
  match p.getLast? with
  | none => (runeError, 0)
  | some last =>
    if last < 0x80 then (last, 1)
    else
      let lim : Int := if (p.length : Int) - 4 < 0 then 0 else (p.length : Int) - 4
      let found := lookBack p lim ((p.length : Int) - 2) 4
      let start := if found < 0 then 0 else found.toNat
      let rw := decodeRune (p.drop start)
      if start + rw.2 ≠ p.length then (runeError, 1) else rw

/-- The function `bytes.TrimLeftFunc(s, unicode.IsSpace)`; `skip` bytes of a
white-space rune are still to be passed over. -/
def trimLeftSpace : List Byte → Nat → List Byte
  | [], _ => []
  | _ :: cs, skip + 1 => trimLeftSpace cs skip
  | c :: cs, 0 =>
    let rw := if c < 0x80 then (c, 1) else decodeRune (c :: cs)
    if isSpaceRune rw.1 then trimLeftSpace cs (rw.2 - 1) else c :: cs

/-- The function `lastIndexFunc(s, unicode.IsSpace, false)` of package `bytes`
on the reversed text: the index at which the last rune that is not white space
starts; `skip` bytes of a white-space rune are still to be passed over. -/
def lastIndexSpace : List Byte → Nat → Option Nat
  | [], _ => none
  | _ :: rest, skip + 1 => lastIndexSpace rest skip
  | b :: rest, 0 =>
    let rw := if b < 0x80 then (b, 1) else decodeLastRune (b :: rest).reverse
    if isSpaceRune rw.1 then lastIndexSpace rest (rw.2 - 1)
    else some ((b :: rest).length - rw.2)

/-- The function `bytes.TrimRightFunc(s, unicode.IsSpace)`. -/
def trimRightSpace (s : List Byte) : List Byte :=
  match lastIndexSpace s.reverse 0 with
  | none => []
  | some i =>
    if 0x80 ≤ s.getD i 0 then s.take (i + (decodeRune (s.drop i)).2) else s.take (i + 1)

/-- The function `bytes.TrimFunc(s, unicode.IsSpace)`. -/
def trimFuncSpace (s : List Byte) : List Byte := trimRightSpace (trimLeftSpace s 0)

/-- The environment `asciiEnv` with the Unicode-aware trimming of the Go library. -/
def trimmingEnv : Env := { asciiEnv with unicodeTrim := trimFuncSpace }

/-- The environment `sampleEnv` with the Unicode-aware trimming of the Go library. -/
def sampleTrimmingEnv : Env := { sampleEnv with unicodeTrim := trimFuncSpace }

/-! ## Facts about the byte-string functions -/

theorem hasPrefix_iff (s k : List Byte) : hasPrefix s k = true ↔ k <+: s := by
  unfold hasPrefix
  exact List.isPrefixOf_iff_prefix

theorem indexFrom_bounds (sep s : List Byte) (i : Nat) :
    indexFrom sep s i = -1 ∨
      ((i : Int) ≤ indexFrom sep s i ∧
        indexFrom sep s i + (sep.length : Int) ≤ (i : Int) + (s.length : Int)) := by
  induction s generalizing i with
  | nil =>
    unfold indexFrom
    by_cases h : sep = []
    · right; simp [h]
    · left; simp [h]
  | cons c cs ih =>
    unfold indexFrom
    by_cases h : hasPrefix (c :: cs) sep = true
    · right
      rw [if_pos h]
      have := ((hasPrefix_iff _ _).1 h).length_le
      refine ⟨le_refl _, ?_⟩
      have h2 : (sep.length : Int) ≤ ((c :: cs).length : Int) := by exact_mod_cast this
      omega
    · rw [if_neg h]
      rcases ih (i + 1) with h1 | ⟨h1, h2⟩
      · left; exact h1
      · right
        simp only [List.length_cons]
        push_cast at h1 h2 ⊢
        omega

theorem bytesIndex_bounds (s sep : List Byte) :
    bytesIndex s sep = -1 ∨
      (0 ≤ bytesIndex s sep ∧ bytesIndex s sep + (sep.length : Int) ≤ (s.length : Int)) := by
  unfold bytesIndex
  rcases indexFrom_bounds sep s 0 with h | ⟨h1, h2⟩
  · exact Or.inl h
  · right
    push_cast at h1 h2
    omega

theorem hdrDelimiter_length : hdrDelimiter.length = 4 := by decide

/-! ## Facts about the response writer -/

theorem sendLoop_accepting (code : List Byte) (ns : List Nat) (rest : List WriteResult)
    (writeLen : Nat) (out : List Byte) (hlen : writeLen ≤ code.length)
    (hcap : code.length ≤ writeLen + ns.sum) :
    (sendLoop code (accepting ns rest) writeLen out).outcome = .returned none ∧
      (sendLoop code (accepting ns rest) writeLen out).written = out ++ code.drop writeLen := by
  induction ns generalizing writeLen out with
  | nil =>
    have hw : writeLen = code.length := by simp at hcap; omega
    subst hw
    cases rest with
    | nil => simp [accepting, sendLoop]
    | cons w ws => simp [accepting, sendLoop]
  | cons n ns ih =>
    by_cases hlt : writeLen < code.length
    · have hstep : sendLoop code (accepting (n :: ns) rest) writeLen out =
          sendLoop code (accepting ns rest) (writeLen + min n (code.drop writeLen).length)
            (out ++ (code.drop writeLen).take (min n (code.drop writeLen).length)) := by
        simp [accepting, sendLoop, hlt]
      rw [hstep]
      have hd : (code.drop writeLen).length = code.length - writeLen := by simp
      have h1 : writeLen + min n (code.drop writeLen).length ≤ code.length := by
        rw [hd]; omega
      have h2 : code.length ≤ writeLen + min n (code.drop writeLen).length + ns.sum := by
        rw [hd]
        simp only [List.sum_cons] at hcap
        omega
      obtain ⟨ho, hw⟩ := ih _ _ h1 h2
      refine ⟨ho, ?_⟩
      rw [hw, List.append_assoc]
      congr 1
      have := List.take_append_drop (min n (code.drop writeLen).length) (code.drop writeLen)
      rw [List.drop_drop] at this
      rw [Nat.add_comm] at this
      first
        | exact this
        | (rw [Nat.add_comm] at this; exact this)
    · have hw : writeLen = code.length := by omega
      subst hw
      simp [accepting, sendLoop]

/-! ## Facts about the sensitivity heuristic -/

theorem mem_alternation_ends (s : List Byte) (i j : Nat) (keys : List (List Byte)) :
    j ∈ (keys.foldr (fun k r => Regex.alt (Regex.lit k) r) Regex.never).ends s i ↔
      ∃ k ∈ keys, hasPrefix (s.drop i) k = true ∧ j = i + k.length := by
  induction keys with
  | nil => simp [Regex.ends]
  | cons k ks ih =>
    simp only [List.foldr_cons, Regex.ends, List.mem_append, ih, List.mem_cons, exists_eq_or_imp]
    constructor
    · rintro (h | h)
      · left
        split at h
        · next hp => exact ⟨hp, by simpa using h⟩
        · simp at h
      · exact Or.inr h
    · rintro (⟨hp, rfl⟩ | h)
      · left; simp [hp]
      · exact Or.inr h

theorem matchString_pattern_iff (s : List Byte) (keys : List (List Byte)) :
    (Regex.cat .wordBoundary
        (.cat (keys.foldr (fun k r => Regex.alt (Regex.lit k) r) Regex.never)
          .wordBoundary)).matchString s = true ↔
      ∃ i, i ≤ s.length ∧ boundaryAt s i = true ∧
        ∃ k ∈ keys, hasPrefix (s.drop i) k = true ∧ boundaryAt s (i + k.length) = true := by
  unfold Regex.matchString
  rw [List.any_eq_true]
  constructor
  · rintro ⟨i, hi, hne⟩
    refine ⟨i, by simpa [Nat.lt_succ_iff] using hi, ?_⟩
    have hex : ∃ j, j ∈ (Regex.cat .wordBoundary
        (.cat (keys.foldr (fun k r => Regex.alt (Regex.lit k) r) Regex.never)
          .wordBoundary)).ends s i := by
      cases hl : (Regex.cat .wordBoundary
        (.cat (keys.foldr (fun k r => Regex.alt (Regex.lit k) r) Regex.never)
          .wordBoundary)).ends s i with
      | nil => simp [hl] at hne
      | cons a l => exact ⟨a, by simp⟩
    obtain ⟨j, hj⟩ := hex
    simp only [Regex.ends, List.mem_flatMap] at hj
    obtain ⟨a, ha, b, hb, hj⟩ := hj
    split at ha
    · next hb0 =>
      simp only [List.mem_singleton] at ha
      subst ha
      obtain ⟨k, hk, hp, rfl⟩ := (mem_alternation_ends s a b keys).1 hb
      split at hj
      · next hb1 => exact ⟨hb0, k, hk, hp, hb1⟩
      · simp at hj
    · simp at ha
  · rintro ⟨i, hi, hb0, k, hk, hp, hb1⟩
    refine ⟨i, by simpa [Nat.lt_succ_iff] using hi, ?_⟩
    have hmem : i + k.length ∈ (Regex.cat .wordBoundary
        (.cat (keys.foldr (fun k r => Regex.alt (Regex.lit k) r) Regex.never)
          .wordBoundary)).ends s i := by
      simp only [Regex.ends, List.mem_flatMap]
      refine ⟨i, by simp [hb0], i + k.length, (mem_alternation_ends s i _ keys).2 ⟨k, hk, hp, rfl⟩, ?_⟩
      simp [hb1]
    cases hl : (Regex.cat .wordBoundary
        (.cat (keys.foldr (fun k r => Regex.alt (Regex.lit k) r) Regex.never)
          .wordBoundary)).ends s i with
    | nil => rw [hl] at hmem; simp at hmem
    | cons a l => simp

theorem getElem?_of_prefix_drop (s k : List Byte) (i n : Nat) (h : k <+: s.drop i)
    (hn : n < k.length) : s[i + n]? = k[n]? := by
  obtain ⟨t, ht⟩ := h
  have h1 : (s.drop i)[n]? = s[i + n]? := by simp
  rw [← h1, ← ht, List.getElem?_append_left hn]

theorem keyParameters_shape : ∀ k ∈ keyParameters, keyShape k = true := by decide

theorem wordAt_of_key (s k : List Byte) (i : Nat) (hs : keyShape k = true) (h : k <+: s.drop i) :
    0 < k.length ∧ i < s.length ∧ wordAt s i = true ∧ wordAt s (i + k.length - 1) = true := by
  unfold keyShape at hs
  split at hs
  · next c d hc hd =>
    have hlen : 0 < k.length := by
      rcases k with _ | ⟨a, l⟩
      · simp at hc
      · simp
    have h0 := getElem?_of_prefix_drop s k i 0 h hlen
    have h1 := getElem?_of_prefix_drop s k i (k.length - 1) h (by omega)
    rw [hc, Nat.add_zero] at h0
    rw [hd] at h1
    have e : i + (k.length - 1) = i + k.length - 1 := by omega
    rw [e] at h1
    simp only [Bool.and_eq_true] at hs
    refine ⟨hlen, ?_, ?_, ?_⟩
    · by_contra hcon
      have : s[i]? = none := by simp; omega
      rw [this] at h0; simp at h0
    · simp [wordAt, h0, hs.1]
    · simp [wordAt, h1, hs.2]
  · simp at hs

theorem wordAt_eq_false_iff (s : List Byte) (j : Nat) :
    wordAt s j = false ↔ ∀ c, s[j]? = some c → isWordByte c = false := by
  unfold wordAt
  cases h : s[j]? with
  | none => simp
  | some c => simp

/-- C10: `hasKeyParameter` is true exactly when one of the 17 key names occurs
in the payload text (byte for byte, so case-sensitively) at a position where
the byte before it, if there is one, and the byte after it, if there is one,
are not ASCII letters, digits or underscore. -/
theorem hasKeyParameter_iff_bounded_occurrence (payload : List Byte) :
    hasKeyParameter payload = true ↔
      ∃ key ∈ keyParameters, ∃ i : Nat, key <+: payload.drop i ∧
        (∀ c, 0 < i → payload[i - 1]? = some c → isWordByte c = false) ∧
        (∀ c, payload[i + key.length]? = some c → isWordByte c = false) := by
  have hdef : hasKeyParameter payload = true ↔
      sensitiveKeyPattern.matchString payload = true := by
    unfold hasKeyParameter
    split <;> simp_all
  rw [hdef]
  unfold sensitiveKeyPattern
  rw [matchString_pattern_iff]
  constructor
  · rintro ⟨i, _, hb0, k, hk, hp, hb1⟩
    rw [hasPrefix_iff] at hp
    obtain ⟨hlen, _, hw0, hw1⟩ := wordAt_of_key payload k i (keyParameters_shape k hk) hp
    refine ⟨k, hk, i, hp, ?_, ?_⟩
    · intro c hi hc
      unfold boundaryAt at hb0
      rw [hw0, if_neg (by omega)] at hb0
      have : wordAt payload (i - 1) = false := by
        cases h : wordAt payload (i - 1) <;> simp_all
      exact (wordAt_eq_false_iff _ _).1 this c hc
    · unfold boundaryAt at hb1
      rw [if_neg (by omega), hw1] at hb1
      have : wordAt payload (i + k.length) = false := by
        cases h : wordAt payload (i + k.length) <;> simp_all
      exact (wordAt_eq_false_iff _ _).1 this
  · rintro ⟨k, hk, i, hp, hbefore, hafter⟩
    obtain ⟨hlen, hi, hw0, hw1⟩ := wordAt_of_key payload k i (keyParameters_shape k hk) hp
    refine ⟨i, by omega, ?_, k, hk, (hasPrefix_iff _ _).2 hp, ?_⟩
    · unfold boundaryAt
      rw [hw0]
      by_cases h0 : i = 0
      · simp [h0]
      · rw [if_neg h0]
        have : wordAt payload (i - 1) = false :=
          (wordAt_eq_false_iff _ _).2 (fun c hc => hbefore c (by omega) hc)
        simp [this]
    · unfold boundaryAt
      rw [if_neg (by omega), hw1, (wordAt_eq_false_iff _ _).2 hafter]
      rfl

/-- C9: the gate `hasGetPostData` returns `hasKey`, whatever `hasURL` is: it is
true for (true, true) and (false, true) and false for (true, false) and
(false, false), so `hasURL` alone never triggers extraction. -/
theorem hasGetPostData_eq_hasKey :
    (∀ hasURL hasKey : Bool, hasGetPostData hasURL hasKey = hasKey) ∧
      hasGetPostData true true = true ∧ hasGetPostData false true = true ∧
      hasGetPostData true false = false ∧ hasGetPostData false false = false := by
  refine ⟨?_, rfl, rfl, rfl, rfl⟩
  intro hasURL hasKey
  cases hasURL <;> cases hasKey <;> rfl

/-! ## Facts about one round of the read loop -/

theorem icapHdrEndOf_bound (buf : List Byte) (h : 0 ≤ icapHdrEndOf buf) :
    icapHdrEndOf buf + 4 ≤ (buf.length : Int) := by
  unfold icapHdrEndOf at *
  rcases bytesIndex_bounds buf hdrDelimiter with h1 | ⟨_, h2⟩
  · omega
  · rw [hdrDelimiter_length] at h2
    exact_mod_cast h2

theorem sliceTo_icapHdr (buf : List Byte) (h : 0 ≤ icapHdrEndOf buf) :
    sliceTo buf (bytesIndex buf hdrDelimiter) = some (icapHdrOf buf) := by
  have hb := icapHdrEndOf_bound buf h
  unfold icapHdrEndOf at h hb
  unfold sliceTo slice icapHdrOf icapHdrEndOf
  rw [if_pos ⟨le_refl _, h, by omega⟩]
  simp

theorem sliceFrom_afterIcap (buf : List Byte) (h : 0 ≤ icapHdrEndOf buf) :
    sliceFrom buf (bytesIndex buf hdrDelimiter + (hdrDelimiter.length : Int)) =
      some (afterIcapOf buf) := by
  have hb := icapHdrEndOf_bound buf h
  unfold icapHdrEndOf at h hb
  unfold sliceFrom slice afterIcapOf httpHdrStartOf icapHdrEndOf
  rw [hdrDelimiter_length]
  rw [if_pos ⟨by omega, by push_cast; omega, le_refl _⟩]
  congr 1
  apply List.take_of_length_le
  simp

theorem slice_httpHdr (buf : List Byte) (h : 0 ≤ icapHdrEndOf buf)
    (h3 : 0 ≤ bytesIndex (afterIcapOf buf) hdrDelimiter) :
    slice buf (bytesIndex buf hdrDelimiter + (hdrDelimiter.length : Int))
        (bytesIndex (afterIcapOf buf) hdrDelimiter +
          (bytesIndex buf hdrDelimiter + (hdrDelimiter.length : Int))) =
      some (httpHdrOf buf) := by
  have hb := icapHdrEndOf_bound buf h
  unfold icapHdrEndOf at h hb
  have hlen : ((afterIcapOf buf).length : Int) =
      (buf.length : Int) - (bytesIndex buf hdrDelimiter + 4) := by
    unfold afterIcapOf httpHdrStartOf icapHdrEndOf
    rw [hdrDelimiter_length]
    simp only [List.length_drop]
    push_cast
    omega
  have hb3 : bytesIndex (afterIcapOf buf) hdrDelimiter + 4 ≤ ((afterIcapOf buf).length : Int) := by
    rcases bytesIndex_bounds (afterIcapOf buf) hdrDelimiter with h1 | ⟨_, h2⟩
    · omega
    · rw [hdrDelimiter_length] at h2
      exact_mod_cast h2
  unfold slice
  rw [hdrDelimiter_length]
  rw [if_pos ⟨by omega, by push_cast; omega, by push_cast; omega⟩]
  unfold httpHdrOf
  have e1 : afterIcapOf buf = List.drop (bytesIndex buf hdrDelimiter + ((4 : Nat) : Int)).toNat buf := by
    unfold afterIcapOf httpHdrStartOf icapHdrEndOf
    rw [hdrDelimiter_length]
  have e2 : (bytesIndex (afterIcapOf buf) hdrDelimiter +
      (bytesIndex buf hdrDelimiter + ((4 : Nat) : Int))).toNat -
        (bytesIndex buf hdrDelimiter + ((4 : Nat) : Int)).toNat =
      (bytesIndex (afterIcapOf buf) hdrDelimiter).toNat := by
    push_cast
    omega
  rw [e2, ← e1]

theorem iteration_options (env : Env) (st : HState) (h1 : 0 ≤ icapHdrEndOf st.recvBuf)
    (hopt : hasPrefix (toUpper env (icapHdrOf st.recvBuf)) (bs "OPTIONS ") = true) :
    iteration env st = .reply200 := by
  unfold iteration
  simp only [sliceTo_icapHdr _ h1, hopt, if_true]

theorem iteration_nullBody (env : Env) (st : HState) (offsets : Offsets)
    (h1 : 0 ≤ icapHdrEndOf st.recvBuf)
    (h2 : hasPrefix (toUpper env (icapHdrOf st.recvBuf)) (bs "OPTIONS ") = false)
    (h3 : 0 ≤ bytesIndex (afterIcapOf st.recvBuf) hdrDelimiter)
    (h4 : encapsulatedLoop env (bytesSplit (icapHdrOf st.recvBuf) (bs "\r\n"))
      st.encapsulatedOffsets = some offsets)
    (h5 : (offsets.lookup (bs "null-body")).isSome = true) :
    iteration env st = .reply204 none := by
  have hd : bs "\r\n\r\n" = hdrDelimiter := rfl
  have hne : bytesIndex (afterIcapOf st.recvBuf) hdrDelimiter ≠ -1 := by omega
  unfold iteration
  simp only [sliceTo_icapHdr _ h1, h2, sliceFrom_afterIcap _ h1, hd, hne, h4, h5, if_true,
    if_false, Bool.false_eq_true]

theorem iteration_incompleteHeader (env : Env) (st : HState)
    (h1 : 0 ≤ icapHdrEndOf st.recvBuf)
    (h2 : hasPrefix (toUpper env (icapHdrOf st.recvBuf)) (bs "OPTIONS ") = false)
    (h3 : bytesIndex (afterIcapOf st.recvBuf) hdrDelimiter = -1) :
    iteration env st = .next st := by
  have hd : bs "\r\n\r\n" = hdrDelimiter := rfl
  unfold iteration
  simp only [sliceTo_icapHdr _ h1, h2, sliceFrom_afterIcap _ h1, hd, h3, if_true,
    if_false, Bool.false_eq_true]

theorem iteration_checked (env : Env) (st : HState) (offsets : Offsets) (contentLength : Int)
    (h1 : 0 ≤ icapHdrEndOf st.recvBuf)
    (h2 : hasPrefix (toUpper env (icapHdrOf st.recvBuf)) (bs "OPTIONS ") = false)
    (h3 : 0 ≤ bytesIndex (afterIcapOf st.recvBuf) hdrDelimiter)
    (h4 : encapsulatedLoop env (bytesSplit (icapHdrOf st.recvBuf) (bs "\r\n"))
      st.encapsulatedOffsets = some offsets)
    (h5 : offsets.lookup (bs "null-body") = none)
    (h6 : contentLengthLoop env (bytesSplit (httpHdrOf st.recvBuf) (bs "\r\n"))
      st.contentLength = some contentLength)
    (h7 : completenessSum st.recvBuf contentLength ≤ st.recvBuf.length) :
    iteration env st =
      if (offsets.lookup (bs "req-hdr")).isNone then .fail .reqHdrNotFound
      else
        match sliceFrom st.recvBuf
          (wrap64 (httpHdrStartOf st.recvBuf + (offsets.lookup (bs "req-body")).getD 0)) with
        | none => .panicked
        | some payload =>
          if (offsets.lookup (bs "req-body")).isSome &&
              hasPrefix (toUpper env (afterIcapOf st.recvBuf)) (bs "POST ") then
            .reply204 (some (httpHdrStartOf st.recvBuf, payload, st.recvBuf))
          else .reply204 none := by
  have hd : bs "\r\n\r\n" = hdrDelimiter := rfl
  have hne : bytesIndex (afterIcapOf st.recvBuf) hdrDelimiter ≠ -1 := by omega
  have h7' : ¬ (wrap64 (wrap64 (bytesIndex (afterIcapOf st.recvBuf) hdrDelimiter +
      (bytesIndex st.recvBuf hdrDelimiter + (hdrDelimiter.length : Int)) +
        (hdrDelimiter.length : Int)) + contentLength) > (st.recvBuf.length : Int)) := by
    have := h7
    unfold completenessSum httpHdrEndOf httpHdrStartOf icapHdrEndOf at this
    rw [hd] at this
    omega
  unfold iteration
  simp only [sliceTo_icapHdr _ h1, h2, sliceFrom_afterIcap _ h1, hd, hne, h4, h5,
    slice_httpHdr _ h1 h3, h6, h7', if_false, Bool.false_eq_true, Option.isSome_none]
  rfl

/-! ## Facts about a run whose first read holds the whole message -/

theorem ne_nil_of_icapHdrEnd (msg : List Byte) (h : 0 ≤ icapHdrEndOf msg) : msg.length ≠ 0 := by
  have := icapHdrEndOf_bound msg h
  omega

theorem run_reply200 (env : Env) (msg : List Byte) (reads : List ReadResult)
    (writes : List WriteResult) (hne : msg.length ≠ 0)
    (h : iteration env ⟨msg, 0, []⟩ = .reply200) :
    HTTPMessageHandle env (.ok msg :: reads) writes =
      ⟨(sendHTTPCode200 writes).outcome, (sendHTTPCode200 writes).written, [], false, reads,
        (sendHTTPCode200 writes).writes⟩ := by
  simp [HTTPMessageHandle, handleLoop, hne, h]

theorem run_reply204 (env : Env) (msg : List Byte) (reads : List ReadResult)
    (writes : List WriteResult) (hne : msg.length ≠ 0)
    (h : iteration env ⟨msg, 0, []⟩ = .reply204 none) :
    HTTPMessageHandle env (.ok msg :: reads) writes =
      ⟨(sendHTTPCode204 writes).outcome, (sendHTTPCode204 writes).written, [], false, reads,
        (sendHTTPCode204 writes).writes⟩ := by
  simp [HTTPMessageHandle, handleLoop, hne, h]

theorem run_fail (env : Env) (msg : List Byte) (reads : List ReadResult)
    (writes : List WriteResult) (e : HandlerError) (hne : msg.length ≠ 0)
    (h : iteration env ⟨msg, 0, []⟩ = .fail e) :
    HTTPMessageHandle env (.ok msg :: reads) writes =
      ⟨.returned (some e), [], [], false, reads, writes⟩ := by
  simp [HTTPMessageHandle, handleLoop, hne, h]

theorem sendHTTPCode200_accepting (ns : List Nat) (rest : List WriteResult)
    (hcap : httpCode200.length ≤ ns.sum) :
    (sendHTTPCode200 (accepting ns rest)).outcome = .returned none ∧
      (sendHTTPCode200 (accepting ns rest)).written = httpCode200 := by
  have := sendLoop_accepting httpCode200 ns rest 0 [] (Nat.zero_le _) (by omega)
  simpa [sendHTTPCode200] using this

theorem sendHTTPCode204_accepting (ns : List Nat) (rest : List WriteResult)
    (hcap : httpCode204.length ≤ ns.sum) :
    (sendHTTPCode204 (accepting ns rest)).outcome = .returned none ∧
      (sendHTTPCode204 (accepting ns rest)).written = httpCode204 := by
  have := sendLoop_accepting httpCode204 ns rest 0 [] (Nat.zero_le _) (by omega)
  simpa [sendHTTPCode204] using this

/-- A request that is not an OPTIONS request and holds no second CRLFCRLF gets
no reply when the stream ends after it, whatever its Encapsulated header lists. -/
theorem request_without_http_header_unanswered (env : Env) (msg : List Byte)
    (writes : List WriteResult) (hdelim : 0 ≤ icapHdrEndOf msg)
    (hnotopt : hasPrefix (toUpper env (icapHdrOf msg)) (bs "OPTIONS ") = false)
    (hhttp : bytesIndex (afterIcapOf msg) hdrDelimiter = -1) :
    HTTPMessageHandle env [.ok msg, .ok []] writes =
      ⟨.returned none, [], [], false, [], writes⟩ := by
  have hit := iteration_incompleteHeader env ⟨msg, 0, []⟩ hdelim hnotopt hhttp
  have hne := ne_nil_of_icapHdrEnd msg hdelim
  simp [HTTPMessageHandle, handleLoop, hne, hit]

/-! ## The claims -/

/-- C1: when the first read delivers a message whose header block (the bytes
before the first CRLFCRLF), uppercased, starts with "OPTIONS ", whatever
follows that block, `HTTPMessageHandle` writes exactly the literal
`httpCode200` and returns no error, also when the transport takes the literal
in several partial writes of sizes `ns`; it logs nothing and reads no more. -/
theorem options_request_answered_200 (env : Env) (msg : List Byte) (reads : List ReadResult)
    (ns : List Nat) (rest : List WriteResult)
    (hdelim : 0 ≤ icapHdrEndOf msg)
    (hopt : hasPrefix (toUpper env (icapHdrOf msg)) (bs "OPTIONS ") = true)
    (hcap : httpCode200.length ≤ ns.sum) :
    (HTTPMessageHandle env (.ok msg :: reads) (accepting ns rest)).outcome = .returned none ∧
      (HTTPMessageHandle env (.ok msg :: reads) (accepting ns rest)).written = httpCode200 ∧
      (HTTPMessageHandle env (.ok msg :: reads) (accepting ns rest)).logged = [] ∧
      (HTTPMessageHandle env (.ok msg :: reads) (accepting ns rest)).reads = reads ∧
      httpCode200 = bs ("ICAP/1.0 200 OK\r\nServer: Go-ICAP/1.0\r\nMethods: REQMOD\r\n" ++
        "ISTag: v1-local-1\r\nAllow: 204\r\nEncapsulated: null-body=0\r\n\r\n") := by
  have hit := iteration_options env ⟨msg, 0, []⟩ hdelim hopt
  rw [run_reply200 env msg reads _ (ne_nil_of_icapHdrEnd msg hdelim) hit]
  obtain ⟨ho, hw⟩ := sendHTTPCode200_accepting ns rest hcap
  exact ⟨ho, hw, rfl, rfl, by decide⟩

theorem options_request_answered_200_witness :
    (0 ≤ icapHdrEndOf optionsProbe ∧
      hasPrefix (toUpper asciiEnv (icapHdrOf optionsProbe)) (bs "OPTIONS ") = true ∧
      httpCode200.length ≤ [10, 1, 200].sum) ∧
    (HTTPMessageHandle asciiEnv [.ok optionsProbe] (accepting [10, 1, 200] [])).written =
      httpCode200 :=
  ⟨by decide,
    (options_request_answered_200 asciiEnv optionsProbe [] [10, 1, 200] []
      (by decide) (by decide) (by decide)).2.1⟩

/-- C2 as stated fails: the request `reqmodNullBodyOnly` is not an OPTIONS
request and its Encapsulated header lists `null-body`, yet when it is delivered
in one read and the stream then ends, `HTTPMessageHandle` writes nothing: the
handler waits for a second CRLFCRLF before it looks at the Encapsulated header. -/
theorem nullBody_without_http_header_unanswered :
    hasPrefix (toUpper asciiEnv (icapHdrOf reqmodNullBodyOnly)) (bs "OPTIONS ") = false ∧
    encapsulatedLoop asciiEnv (bytesSplit (icapHdrOf reqmodNullBodyOnly) (bs "\r\n")) [] =
      some [(bs "null-body", 0)] ∧
    (HTTPMessageHandle asciiEnv [.ok reqmodNullBodyOnly, .ok []] (accepting [1000] [])).written
      = [] ∧
    (HTTPMessageHandle asciiEnv [.ok reqmodNullBodyOnly, .ok []] (accepting [1000] [])).written
      ≠ httpCode204 ∧
    (HTTPMessageHandle asciiEnv [.ok reqmodNullBodyOnly, .ok []] (accepting [1000] [])).outcome
      = .returned none := by
  decide

/-- C2, amended: when the first read delivers a request that is not an OPTIONS
request, together with a complete embedded HTTP header block (a second
CRLFCRLF after the ICAP header block), and the Encapsulated header parses into
a table that contains `null-body`, `HTTPMessageHandle` replies with exactly the
literal `httpCode204`, does not call `extractPostPayload` and never calls the log sink. -/
theorem nullBody_request_answered_204 (env : Env) (msg : List Byte) (reads : List ReadResult)
    (ns : List Nat) (rest : List WriteResult) (offsets : Offsets)
    (hdelim : 0 ≤ icapHdrEndOf msg)
    (hnotopt : hasPrefix (toUpper env (icapHdrOf msg)) (bs "OPTIONS ") = false)
    (hhttp : 0 ≤ bytesIndex (afterIcapOf msg) hdrDelimiter)
    (htable : encapsulatedLoop env (bytesSplit (icapHdrOf msg) (bs "\r\n")) [] = some offsets)
    (hnull : (offsets.lookup (bs "null-body")).isSome = true)
    (hcap : httpCode204.length ≤ ns.sum) :
    (HTTPMessageHandle env (.ok msg :: reads) (accepting ns rest)).outcome = .returned none ∧
      (HTTPMessageHandle env (.ok msg :: reads) (accepting ns rest)).written = httpCode204 ∧
      (HTTPMessageHandle env (.ok msg :: reads) (accepting ns rest)).logged = [] ∧
      (HTTPMessageHandle env (.ok msg :: reads) (accepting ns rest)).extracted = false ∧
      httpCode204 = bs "ICAP/1.0 204 No Content\r\n\r\n" := by
  have hit := iteration_nullBody env ⟨msg, 0, []⟩ offsets hdelim hnotopt hhttp htable hnull
  rw [run_reply204 env msg reads _ (ne_nil_of_icapHdrEnd msg hdelim) hit]
  obtain ⟨ho, hw⟩ := sendHTTPCode204_accepting ns rest hcap
  exact ⟨ho, hw, rfl, rfl, rfl⟩

theorem nullBody_request_answered_204_witness :
    (0 ≤ icapHdrEndOf reqmodGet ∧
      hasPrefix (toUpper asciiEnv (icapHdrOf reqmodGet)) (bs "OPTIONS ") = false ∧
      0 ≤ bytesIndex (afterIcapOf reqmodGet) hdrDelimiter ∧
      encapsulatedLoop asciiEnv (bytesSplit (icapHdrOf reqmodGet) (bs "\r\n")) [] =
        some [(bs "null-body", 37), (bs "req-hdr", 0)] ∧
      (List.lookup (bs "null-body") [(bs "null-body", (37 : Int)), (bs "req-hdr", 0)]).isSome
        = true ∧
      httpCode204.length ≤ [5, 100].sum) ∧
    (HTTPMessageHandle asciiEnv [.ok reqmodGet] (accepting [5, 100] [])).written = httpCode204 :=
  ⟨by decide,
    (nullBody_request_answered_204 asciiEnv reqmodGet [] [5, 100] []
      [(bs "null-body", 37), (bs "req-hdr", 0)]
      (by decide) (by decide) (by decide) (by decide) (by decide) (by decide)).2.1⟩

/-- A request other than POST whose `req-body` offset lies inside the buffer.
When the first read delivers a complete REQMOD message (both header blocks
ended by CRLFCRLF, an Encapsulated header that parses, the completeness check
passed) that has a `req-hdr` and a `req-body` entry, whose `req-body` offset
lies inside the buffer and whose embedded request line does not start,
case-insensitively, with "POST ", `HTTPMessageHandle` replies with exactly the
literal `httpCode204`, does not call `extractPostPayload` and writes no log
entry.  A REQMOD message is in particular not an OPTIONS message, which is all
that is used of it. -/
theorem non_post_request_answered_204 (env : Env) (msg : List Byte) (reads : List ReadResult)
    (ns : List Nat) (rest : List WriteResult) (offsets : Offsets)
    (contentLength reqBodyLen : Int)
    (hdelim : 0 ≤ icapHdrEndOf msg)
    (hnotopt : hasPrefix (toUpper env (icapHdrOf msg)) (bs "OPTIONS ") = false)
    (hhttp : 0 ≤ bytesIndex (afterIcapOf msg) hdrDelimiter)
    (htable : encapsulatedLoop env (bytesSplit (icapHdrOf msg) (bs "\r\n")) [] = some offsets)
    (hreqhdr : (offsets.lookup (bs "req-hdr")).isSome = true)
    (hreqbody : offsets.lookup (bs "req-body") = some reqBodyLen)
    (hlen : contentLengthLoop env (bytesSplit (httpHdrOf msg) (bs "\r\n")) 0 = some contentLength)
    (hcomplete : completenessSum msg contentLength ≤ msg.length)
    (hlo : 0 ≤ payloadStartOf msg reqBodyLen)
    (hhi : payloadStartOf msg reqBodyLen ≤ msg.length)
    (hnotpost : hasPrefix (toUpper env (afterIcapOf msg)) (bs "POST ") = false)
    (hcap : httpCode204.length ≤ ns.sum) :
    (HTTPMessageHandle env (.ok msg :: reads) (accepting ns rest)).outcome = .returned none ∧
      (HTTPMessageHandle env (.ok msg :: reads) (accepting ns rest)).written = httpCode204 ∧
      (HTTPMessageHandle env (.ok msg :: reads) (accepting ns rest)).extracted = false ∧
      (HTTPMessageHandle env (.ok msg :: reads) (accepting ns rest)).logged = [] := by
  have hit : iteration env ⟨msg, 0, []⟩ = .reply204 none := by
    cases hnull : offsets.lookup (bs "null-body") with
    | some v =>
      exact iteration_nullBody env ⟨msg, 0, []⟩ offsets hdelim hnotopt hhttp htable
        (by rw [hnull]; rfl)
    | none =>
      rw [iteration_checked env ⟨msg, 0, []⟩ offsets contentLength hdelim hnotopt hhttp htable
        hnull hlen hcomplete]
      have hsl : sliceFrom msg (wrap64 (httpHdrStartOf msg + reqBodyLen)) =
          some ((msg.drop (payloadStartOf msg reqBodyLen).toNat).take
            (((msg.length : Int)).toNat - (payloadStartOf msg reqBodyLen).toNat)) := by
        unfold sliceFrom slice
        unfold payloadStartOf at hlo hhi ⊢
        rw [if_pos ⟨hlo, hhi, le_refl _⟩]
      simp only [hreqbody, Option.getD_some, hsl, hnotpost, Bool.and_false]
      cases h : offsets.lookup (bs "req-hdr") with
      | none => rw [h] at hreqhdr; simp at hreqhdr
      | some v => simp
  rw [run_reply204 env msg reads _ (ne_nil_of_icapHdrEnd msg hdelim) hit]
  obtain ⟨ho, hw⟩ := sendHTTPCode204_accepting ns rest hcap
  exact ⟨ho, hw, rfl, rfl⟩

theorem non_post_request_answered_204_witness :
    (0 ≤ icapHdrEndOf reqmodPut ∧
      hasPrefix (toUpper asciiEnv (icapHdrOf reqmodPut)) (bs "OPTIONS ") = false ∧
      0 ≤ bytesIndex (afterIcapOf reqmodPut) hdrDelimiter ∧
      encapsulatedLoop asciiEnv (bytesSplit (icapHdrOf reqmodPut) (bs "\r\n")) [] =
        some [(bs "req-body", 41), (bs "req-hdr", 0)] ∧
      contentLengthLoop asciiEnv (bytesSplit (httpHdrOf reqmodPut) (bs "\r\n")) 0 = some 0 ∧
      completenessSum reqmodPut 0 ≤ reqmodPut.length ∧
      0 ≤ payloadStartOf reqmodPut 41 ∧ payloadStartOf reqmodPut 41 ≤ reqmodPut.length ∧
      hasPrefix (toUpper asciiEnv (afterIcapOf reqmodPut)) (bs "POST ") = false) ∧
    (HTTPMessageHandle asciiEnv [.ok reqmodPut] (accepting [27] [])).written = httpCode204 ∧
    (HTTPMessageHandle asciiEnv [.ok reqmodPut] (accepting [27] [])).logged = [] :=
  ⟨by decide,
    (non_post_request_answered_204 asciiEnv reqmodPut [] [27] []
      [(bs "req-body", 41), (bs "req-hdr", 0)] 0 41
      (by decide) (by decide) (by decide) (by decide) (by decide) (by decide) (by decide)
      (by decide) (by decide) (by decide) (by decide) (by decide)).2.1,
    (non_post_request_answered_204 asciiEnv reqmodPut [] [27] []
      [(bs "req-body", 41), (bs "req-hdr", 0)] 0 41
      (by decide) (by decide) (by decide) (by decide) (by decide) (by decide) (by decide)
      (by decide) (by decide) (by decide) (by decide) (by decide)).2.2.2⟩

/-- C3 fails on the code.  The message `reqmodPutOffsetBeyond` is a complete
REQMOD message delivered in one read: it is not an OPTIONS request, both its
header blocks end in CRLFCRLF, its Encapsulated table holds `req-hdr` and
`req-body`, it passes the completeness check and its embedded request line
starts with "PUT ", not with "POST ".  Its `req-body` offset lies past the
buffered bytes, and the slice expression `recvBuf[httpHdrStart+reqBodyLen:]`,
which is evaluated for every method before the method is looked at, panics: no
204 is sent, nothing is written.  The same message with the offset inside the
buffer (`reqmodPut`) is answered with `httpCode204`. -/
theorem non_post_offset_beyond_panics :
    (0 ≤ icapHdrEndOf reqmodPutOffsetBeyond ∧
      hasPrefix (toUpper asciiEnv (icapHdrOf reqmodPutOffsetBeyond)) (bs "OPTIONS ") = false ∧
      0 ≤ bytesIndex (afterIcapOf reqmodPutOffsetBeyond) hdrDelimiter ∧
      encapsulatedLoop asciiEnv (bytesSplit (icapHdrOf reqmodPutOffsetBeyond) (bs "\r\n")) [] =
        some [(bs "req-body", 9999), (bs "req-hdr", 0)] ∧
      contentLengthLoop asciiEnv (bytesSplit (httpHdrOf reqmodPutOffsetBeyond) (bs "\r\n")) 0 =
        some 0 ∧
      completenessSum reqmodPutOffsetBeyond 0 ≤ reqmodPutOffsetBeyond.length ∧
      hasPrefix (toUpper asciiEnv (afterIcapOf reqmodPutOffsetBeyond)) (bs "POST ") = false ∧
      (reqmodPutOffsetBeyond.length : Int) < payloadStartOf reqmodPutOffsetBeyond 9999) ∧
    HTTPMessageHandle asciiEnv [.ok reqmodPutOffsetBeyond] (accepting [1000] []) =
      ⟨.panicked, [], [], false, [], accepting [1000] []⟩ ∧
    (HTTPMessageHandle asciiEnv [.ok reqmodPut] (accepting [1000] [])).written = httpCode204 := by
  decide

/-- C7: when the first read delivers a message that is not answered as an
OPTIONS request, whose ICAP and HTTP header blocks are complete, which passes
the completeness check, and whose Encapsulated table contains neither
`null-body` nor `req-hdr`, `HTTPMessageHandle` returns the error "req-hdr not
found in encapsulated header" and writes no byte to the connection. -/
theorem missing_req_hdr_is_an_error (env : Env) (msg : List Byte) (reads : List ReadResult)
    (writes : List WriteResult) (offsets : Offsets) (contentLength : Int)
    (hdelim : 0 ≤ icapHdrEndOf msg)
    (hnotopt : hasPrefix (toUpper env (icapHdrOf msg)) (bs "OPTIONS ") = false)
    (hhttp : 0 ≤ bytesIndex (afterIcapOf msg) hdrDelimiter)
    (htable : encapsulatedLoop env (bytesSplit (icapHdrOf msg) (bs "\r\n")) [] = some offsets)
    (hnull : offsets.lookup (bs "null-body") = none)
    (hreqhdr : offsets.lookup (bs "req-hdr") = none)
    (hlen : contentLengthLoop env (bytesSplit (httpHdrOf msg) (bs "\r\n")) 0 = some contentLength)
    (hcomplete : completenessSum msg contentLength ≤ msg.length) :
    (HTTPMessageHandle env (.ok msg :: reads) writes).outcome =
        .returned (some .reqHdrNotFound) ∧
      (HTTPMessageHandle env (.ok msg :: reads) writes).written = [] ∧
      (HTTPMessageHandle env (.ok msg :: reads) writes).writes = writes ∧
      (HTTPMessageHandle env (.ok msg :: reads) writes).logged = [] := by
  have hit : iteration env ⟨msg, 0, []⟩ = .fail .reqHdrNotFound := by
    rw [iteration_checked env ⟨msg, 0, []⟩ offsets contentLength hdelim hnotopt hhttp htable
      hnull hlen hcomplete]
    simp [hreqhdr]
  rw [run_fail env msg reads writes _ (ne_nil_of_icapHdrEnd msg hdelim) hit]
  exact ⟨rfl, rfl, rfl, rfl⟩

theorem missing_req_hdr_is_an_error_witness :
    (0 ≤ icapHdrEndOf reqmodNoReqHdr ∧
      hasPrefix (toUpper asciiEnv (icapHdrOf reqmodNoReqHdr)) (bs "OPTIONS ") = false ∧
      0 ≤ bytesIndex (afterIcapOf reqmodNoReqHdr) hdrDelimiter ∧
      encapsulatedLoop asciiEnv (bytesSplit (icapHdrOf reqmodNoReqHdr) (bs "\r\n")) [] =
        some [(bs "req-body", 41)] ∧
      contentLengthLoop asciiEnv (bytesSplit (httpHdrOf reqmodNoReqHdr) (bs "\r\n")) 0 = some 0 ∧
      completenessSum reqmodNoReqHdr 0 ≤ reqmodNoReqHdr.length) ∧
    (HTTPMessageHandle asciiEnv [.ok reqmodNoReqHdr] [.ok 1000]).outcome =
      .returned (some .reqHdrNotFound) ∧
    (HTTPMessageHandle asciiEnv [.ok reqmodNoReqHdr] [.ok 1000]).written = [] :=
  ⟨by decide,
    (missing_req_hdr_is_an_error asciiEnv reqmodNoReqHdr [] [.ok 1000] [(bs "req-body", 41)] 0
      (by decide) (by decide) (by decide) (by decide) (by decide) (by decide) (by decide)
      (by decide)).1,
    (missing_req_hdr_is_an_error asciiEnv reqmodNoReqHdr [] [.ok 1000] [(bs "req-body", 41)] 0
      (by decide) (by decide) (by decide) (by decide) (by decide) (by decide) (by decide)
      (by decide)).2.1⟩

/-! ## Runs that end in a run-time panic -/

theorem iteration_without_delimiter (env : Env) (st : HState)
    (h : bytesIndex st.recvBuf hdrDelimiter = -1) : iteration env st = .panicked := by
  unfold iteration
  have : sliceTo st.recvBuf (-1) = none := by
    unfold sliceTo slice
    rw [if_neg (by omega)]
  simp only [h, this]

theorem first_read_without_delimiter (env : Env) (chunk : List Byte) (reads : List ReadResult)
    (writes : List WriteResult) (hne : chunk.length ≠ 0)
    (h : bytesIndex chunk hdrDelimiter = -1) :
    HTTPMessageHandle env (.ok chunk :: reads) writes =
      ⟨.panicked, [], [], false, reads, writes⟩ := by
  have hit := iteration_without_delimiter env ⟨chunk, 0, []⟩ h
  simp [HTTPMessageHandle, handleLoop, hne, hit]

/-- C4 fails on the code.  The message `reqmodOffsetBeyond` is delivered in one
read, both its header blocks are complete, its Encapsulated table contains
`req-hdr` and it passes the completeness check, but its `req-body` offset lies
past the buffered bytes: `HTTPMessageHandle` panics in the slice expression
`recvBuf[httpHdrStart+reqBodyLen:]` and writes nothing.  The same holds for a
negative offset (`reqmodOffsetNegative`), for an entry without `=`
(`reqmodEntryWithoutEq`, the index `encapsulatedPairs[1]`) and for a POST
request with the body `0 CRLF CRLF` (`reqmodPostEmptyBody`, the slice
`payload[noChunkStart:noChunkEnd]` in `extractPostPayload`). -/
theorem malformed_message_panics :
    (0 ≤ icapHdrEndOf reqmodOffsetBeyond ∧
      0 ≤ bytesIndex (afterIcapOf reqmodOffsetBeyond) hdrDelimiter ∧
      encapsulatedLoop asciiEnv (bytesSplit (icapHdrOf reqmodOffsetBeyond) (bs "\r\n")) [] =
        some [(bs "req-body", 9999), (bs "req-hdr", 0)] ∧
      contentLengthLoop asciiEnv (bytesSplit (httpHdrOf reqmodOffsetBeyond) (bs "\r\n")) 0 =
        some 0 ∧
      completenessSum reqmodOffsetBeyond 0 ≤ reqmodOffsetBeyond.length) ∧
    HTTPMessageHandle asciiEnv [.ok reqmodOffsetBeyond] (accepting [1000] []) =
      ⟨.panicked, [], [], false, [], accepting [1000] []⟩ ∧
    HTTPMessageHandle asciiEnv [.ok reqmodOffsetNegative] (accepting [1000] []) =
      ⟨.panicked, [], [], false, [], accepting [1000] []⟩ ∧
    HTTPMessageHandle asciiEnv [.ok reqmodEntryWithoutEq] (accepting [1000] []) =
      ⟨.panicked, [], [], false, [], accepting [1000] []⟩ ∧
    HTTPMessageHandle asciiEnv [.ok reqmodPostEmptyBody] (accepting [1000] []) =
      ⟨.panicked, [], [], true, [], accepting [1000] []⟩ := by
  decide

/-- C5 fails on the code.  Delivered in a single read, the message
`optionsProbe` is answered with `httpCode200`; delivered in reads of one byte
each, the run panics after the first byte (the buffer holds no CRLFCRLF yet,
`icapHdrEnd` is -1 and `recvBuf[:icapHdrEnd]` is out of range) and writes
nothing.  The same happens to the REQMOD request `reqmodPut`. -/
theorem byte_by_byte_delivery_panics :
    (HTTPMessageHandle asciiEnv [.ok optionsProbe, .ok []] (accepting [1000] [])).outcome
      = .returned none ∧
    (HTTPMessageHandle asciiEnv [.ok optionsProbe, .ok []] (accepting [1000] [])).written
      = httpCode200 ∧
    (HTTPMessageHandle asciiEnv (byteReads optionsProbe ++ [.ok []]) (accepting [1000] [])).outcome
      = .panicked ∧
    (HTTPMessageHandle asciiEnv (byteReads optionsProbe ++ [.ok []]) (accepting [1000] [])).written
      = [] ∧
    (HTTPMessageHandle asciiEnv [.ok reqmodPut, .ok []] (accepting [1000] [])).written
      = httpCode204 ∧
    (HTTPMessageHandle asciiEnv (byteReads reqmodPut ++ [.ok []]) (accepting [1000] [])).outcome
      = .panicked ∧
    (HTTPMessageHandle asciiEnv (byteReads reqmodPut ++ [.ok []]) (accepting [1000] [])).written
      = [] := by
  decide

/-- C6 fails on the code.  The buffer `reqmodFirstLine` is not empty and holds
no CRLFCRLF; one round of the read loop on it does not go on to the next read
but panics: `bytes.Index` returns -1 and `recvBuf[:icapHdrEnd]` is out of range. -/
theorem round_without_delimiter_panics :
    reqmodFirstLine ≠ [] ∧
    bytesIndex reqmodFirstLine hdrDelimiter = -1 ∧
    iteration asciiEnv ⟨reqmodFirstLine, 0, []⟩ = .panicked ∧
    iteration asciiEnv ⟨reqmodFirstLine, 0, []⟩ ≠ .next ⟨reqmodFirstLine, 0, []⟩ := by
  decide

/-- C8 fails on the code.  The stream delivers `reqmodFirstLine` and then ends
(a zero-length read) before a complete message arrived; the run writes nothing
but does not return: it panics on the first read. -/
theorem early_end_of_stream_panics :
    HTTPMessageHandle asciiEnv [.ok reqmodFirstLine, .ok []] (accepting [1000] []) =
      ⟨.panicked, [], [], false, [.ok []], accepting [1000] []⟩ ∧
    (HTTPMessageHandle asciiEnv [.ok reqmodFirstLine, .ok []] (accepting [1000] [])).outcome
      ≠ .returned none := by
  decide

/-! ## At most one reply -/

theorem sendLoop_written (code : List Byte) (writes : List WriteResult) (writeLen : Nat)
    (hlen : writeLen ≤ code.length) :
    ∃ k, k ≤ code.length ∧
      (sendLoop code writes writeLen (code.take writeLen)).written = code.take k := by
  induction writes generalizing writeLen with
  | nil =>
    refine ⟨writeLen, hlen, ?_⟩
    unfold sendLoop
    split <;> rfl
  | cons w ws ih =>
    unfold sendLoop
    by_cases hlt : writeLen < code.length
    · rw [if_pos hlt]
      cases w with
      | err e =>
        refine ⟨writeLen, hlen, ?_⟩
        simp only
        split <;> rfl
      | ok n =>
        simp only
        have hd : (code.drop writeLen).length = code.length - writeLen := by simp
        have h1 : writeLen + min n (code.drop writeLen).length ≤ code.length := by
          rw [hd]; omega
        have e : code.take writeLen ++
            (code.drop writeLen).take (min n (code.drop writeLen).length) =
            code.take (writeLen + min n (code.drop writeLen).length) := by
          rw [List.take_add]
        rw [e]
        exact ih _ h1
    · rw [if_neg hlt]
      exact ⟨writeLen, hlen, rfl⟩

/-- Whatever the reads and writes return, the bytes a run writes are the
beginning of one reply literal, `httpCode200` or `httpCode204` (all of it when
the transport takes it all): a run never writes two replies. -/
theorem written_within_one_reply (env : Env) (reads : List ReadResult)
    (writes : List WriteResult) (st : HState) :
    (handleLoop env reads writes st).written <+: httpCode200 ∨
      (handleLoop env reads writes st).written <+: httpCode204 := by
  have h200 : ∀ ws, (sendHTTPCode200 ws).written <+: httpCode200 := by
    intro ws
    obtain ⟨k, _, hk⟩ := sendLoop_written httpCode200 ws 0 (Nat.zero_le _)
    unfold sendHTTPCode200
    rw [List.take_zero] at hk
    rw [hk]
    exact List.take_prefix _ _
  have h204 : ∀ ws, (sendHTTPCode204 ws).written <+: httpCode204 := by
    intro ws
    obtain ⟨k, _, hk⟩ := sendLoop_written httpCode204 ws 0 (Nat.zero_le _)
    unfold sendHTTPCode204
    rw [List.take_zero] at hk
    rw [hk]
    exact List.take_prefix _ _
  induction reads generalizing st with
  | nil => left; simp [handleLoop]
  | cons r rs ih =>
    cases r with
    | err e => left; simp [handleLoop]
    | ok chunk =>
      unfold handleLoop
      by_cases hc : chunk.length = 0
      · rw [if_pos hc]; left; simp
      · rw [if_neg hc]
        split
        · exact ih _
        · left; simp
        · left; simp
        · exact Or.inl (h200 _)
        · exact Or.inr (h204 _)
        · split
          · left; simp
          · exact Or.inr (h204 _)

/-! ## The write loop on every sequence of write results -/

theorem accepting_nil (rest : List WriteResult) : accepting [] rest = rest := rfl

theorem accepting_cons (n : Nat) (ns : List Nat) (rest : List WriteResult) :
    accepting (n :: ns) rest = .ok n :: accepting ns rest := rfl

/-- Every sequence of write results is a run of successful writes followed by
nothing or by a failing write. -/
theorem writes_cases (writes : List WriteResult) :
    ∃ ns, writes = accepting ns [] ∨ ∃ e rest, writes = accepting ns (.err e :: rest) := by
  induction writes with
  | nil => exact ⟨[], Or.inl rfl⟩
  | cons w ws ih =>
    cases w with
    | err e => exact ⟨[], Or.inr ⟨e, ws, rfl⟩⟩
    | ok n =>
      obtain ⟨ns, h | ⟨e, rest, h⟩⟩ := ih
      · exact ⟨n :: ns, Or.inl (by rw [h]; rfl)⟩
      · exact ⟨n :: ns, Or.inr ⟨e, rest, by rw [h]; rfl⟩⟩

theorem sendLoop_step_ok (code : List Byte) (n : Nat) (ws : List WriteResult) (writeLen : Nat)
    (out : List Byte) (hlt : writeLen < code.length) :
    sendLoop code (.ok n :: ws) writeLen out =
      sendLoop code ws (writeLen + min n (code.drop writeLen).length)
        (out ++ (code.drop writeLen).take (min n (code.drop writeLen).length)) := by
  simp [sendLoop, hlt]

theorem take_take_drop (code : List Byte) (writeLen n m : Nat)
    (h : writeLen + n < code.length) :
    (code.drop writeLen).take (min n (code.drop writeLen).length) ++
        (code.drop (writeLen + min n (code.drop writeLen).length)).take m =
      (code.drop writeLen).take (n + m) := by
  have hd : (code.drop writeLen).length = code.length - writeLen := by simp
  have hmin : min n (code.drop writeLen).length = n := by rw [hd]; omega
  rw [hmin, List.take_add, List.drop_drop]

/-- A write that fails before the literal is sent ends the loop: without error
for EPIPE and ECONNRESET, with an error otherwise. -/
theorem sendLoop_failing (code : List Byte) (ns : List Nat) (e : Errno)
    (rest : List WriteResult) (writeLen : Nat) (out : List Byte)
    (h : writeLen + ns.sum < code.length) :
    sendLoop code (accepting ns (.err e :: rest)) writeLen out =
      ⟨if e = .EPIPE ∨ e = .ECONNRESET then .returned none else .returned (some (.write e)),
        out ++ (code.drop writeLen).take ns.sum, rest⟩ := by
  induction ns generalizing writeLen out with
  | nil =>
    have hlt : writeLen < code.length := by simpa using h
    rw [accepting_nil]
    unfold sendLoop
    rw [if_pos hlt]
    simp only [List.sum_nil, List.take_zero, List.append_nil]
    split <;> rfl
  | cons n ns ih =>
    simp only [List.sum_cons] at h
    have hlt : writeLen < code.length := by omega
    have hd : (code.drop writeLen).length = code.length - writeLen := by simp
    have hmin : min n (code.drop writeLen).length = n := by rw [hd]; omega
    rw [accepting_cons, sendLoop_step_ok code n _ writeLen out hlt, ih _ _ (by rw [hmin]; omega)]
    rw [List.append_assoc, take_take_drop code writeLen n ns.sum (by omega), List.sum_cons]

/-- When the write results end before the literal is sent, the loop waits in `syscall.Write`. -/
theorem sendLoop_waiting (code : List Byte) (ns : List Nat) (writeLen : Nat) (out : List Byte)
    (h : writeLen + ns.sum < code.length) :
    sendLoop code (accepting ns []) writeLen out =
      ⟨.blocked, out ++ (code.drop writeLen).take ns.sum, []⟩ := by
  induction ns generalizing writeLen out with
  | nil =>
    have hlt : writeLen < code.length := by simpa using h
    rw [accepting_nil]
    unfold sendLoop
    rw [if_pos hlt]
    simp
  | cons n ns ih =>
    simp only [List.sum_cons] at h
    have hlt : writeLen < code.length := by omega
    have hd : (code.drop writeLen).length = code.length - writeLen := by simp
    have hmin : min n (code.drop writeLen).length = n := by rw [hd]; omega
    rw [accepting_cons, sendLoop_step_ok code n _ writeLen out hlt, ih _ _ (by rw [hmin]; omega)]
    rw [List.append_assoc, take_take_drop code writeLen n ns.sum (by omega), List.sum_cons]

/-- The loop returns an error exactly when a write made before the literal is
sent fails with an error other than EPIPE and ECONNRESET. -/
theorem sendLoop_error_iff (code : List Byte) (writes : List WriteResult) :
    (∃ err, (sendLoop code writes 0 []).outcome = .returned (some err)) ↔
      ∃ ns e rest, writes = accepting ns (.err e :: rest) ∧ ns.sum < code.length ∧
        e ≠ .EPIPE ∧ e ≠ .ECONNRESET := by
  constructor
  · rintro ⟨err, herr⟩
    obtain ⟨ns, h | ⟨e, rest, h⟩⟩ := writes_cases writes
    · by_cases hs : code.length ≤ ns.sum
      · have := (sendLoop_accepting code ns [] 0 [] (Nat.zero_le _) (by omega)).1
        rw [← h, herr] at this
        simp at this
      · have := sendLoop_waiting code ns 0 [] (by omega)
        rw [← h] at this
        rw [this] at herr
        simp at herr
    · by_cases hs : code.length ≤ ns.sum
      · have := (sendLoop_accepting code ns (.err e :: rest) 0 [] (Nat.zero_le _) (by omega)).1
        rw [← h, herr] at this
        simp at this
      · have hf := sendLoop_failing code ns e rest 0 [] (by omega)
        rw [← h] at hf
        rw [hf] at herr
        refine ⟨ns, e, rest, h, by omega, ?_, ?_⟩
        · rintro rfl
          simp at herr
        · rintro rfl
          simp at herr
  · rintro ⟨ns, e, rest, h, hs, h1, h2⟩
    have hf := sendLoop_failing code ns e rest 0 [] (by omega)
    rw [← h] at hf
    refine ⟨.write e, ?_⟩
    rw [hf]
    simp [h1, h2]

/-- C19: on every sequence of write results, `sendHTTPCode200` and
`sendHTTPCode204` hand each write the part of their literal that is not sent
yet and go on until all of it is sent.  For successful writes of sizes `ns`
followed by `rest`: when the sizes add up to the literal, the literal is
written and no error is returned; when they do not and the next write fails
with `e`, the bytes taken so far are written and the result is no error for
EPIPE and ECONNRESET and an error otherwise.  An error is returned if and only
if such a write fails with an error other than those two. -/
theorem send_code_on_every_write_sequence (ns : List Nat) (rest : List WriteResult) (e : Errno) :
    (httpCode200.length ≤ ns.sum →
      (sendHTTPCode200 (accepting ns rest)).outcome = .returned none ∧
        (sendHTTPCode200 (accepting ns rest)).written = httpCode200) ∧
    (ns.sum < httpCode200.length →
      sendHTTPCode200 (accepting ns (.err e :: rest)) =
        ⟨if e = .EPIPE ∨ e = .ECONNRESET then .returned none else .returned (some (.write e)),
          httpCode200.take ns.sum, rest⟩) ∧
    (httpCode204.length ≤ ns.sum →
      (sendHTTPCode204 (accepting ns rest)).outcome = .returned none ∧
        (sendHTTPCode204 (accepting ns rest)).written = httpCode204) ∧
    (ns.sum < httpCode204.length →
      sendHTTPCode204 (accepting ns (.err e :: rest)) =
        ⟨if e = .EPIPE ∨ e = .ECONNRESET then .returned none else .returned (some (.write e)),
          httpCode204.take ns.sum, rest⟩) ∧
    (∀ writes, (∃ err, (sendHTTPCode200 writes).outcome = .returned (some err)) ↔
      ∃ ms e1 rest1, writes = accepting ms (.err e1 :: rest1) ∧ ms.sum < httpCode200.length ∧
        e1 ≠ .EPIPE ∧ e1 ≠ .ECONNRESET) ∧
    (∀ writes, (∃ err, (sendHTTPCode204 writes).outcome = .returned (some err)) ↔
      ∃ ms e1 rest1, writes = accepting ms (.err e1 :: rest1) ∧ ms.sum < httpCode204.length ∧
        e1 ≠ .EPIPE ∧ e1 ≠ .ECONNRESET) := by
  refine ⟨fun h => sendHTTPCode200_accepting ns rest h, fun h => ?_,
    fun h => sendHTTPCode204_accepting ns rest h, fun h => ?_,
    fun writes => sendLoop_error_iff httpCode200 writes,
    fun writes => sendLoop_error_iff httpCode204 writes⟩
  · have := sendLoop_failing httpCode200 ns e rest 0 [] (by omega)
    simpa [sendHTTPCode200] using this
  · have := sendLoop_failing httpCode204 ns e rest 0 [] (by omega)
    simpa [sendHTTPCode204] using this

theorem send_code_on_every_write_sequence_witness :
    sendHTTPCode204 (accepting [10, 5] [.err (.other 5), .ok 100]) =
        ⟨.returned (some (.write (.other 5))), httpCode204.take 15, [.ok 100]⟩ ∧
      (sendHTTPCode200 (accepting [100, 0, 20] [.err .EPIPE])).written = httpCode200 :=
  ⟨(send_code_on_every_write_sequence [10, 5] [.ok 100] (.other 5)).2.2.2.1 (by decide),
    ((send_code_on_every_write_sequence [100, 0, 20] [.err .EPIPE] .EPIPE).1 (by decide)).2⟩

/-! ## The Referer gate of `extractPostPayload` -/

theorem sliceFrom_eq_drop (s v : List Byte) (lo : Nat) (h : sliceFrom s (lo : Int) = some v) :
    v = s.drop lo := by
  unfold sliceFrom slice at h
  split at h
  · next hc =>
    simp only [Option.some.injEq] at h
    rw [← h]
    simp
  · simp at h

theorem hdrScan_targetURL_nil (env : Env) (lines : List (List Byte)) (st h : HdrScan)
    (hst : st.targetURL = [])
    (hblank : ∀ line ∈ lines, hasPrefix (toLower env line) (bs "referer: ") = true →
      trimSpace env (line.drop (bs "Referer:").length) = [])
    (hscan : hdrScan env lines st = some h) : h.targetURL = [] := by
  induction lines generalizing st with
  | nil =>
    simp only [hdrScan, Option.some.injEq] at hscan
    rw [← hscan]; exact hst
  | cons line rest ih =>
    unfold hdrScan at hscan
    cases hl : hdrScanLine env st line with
    | none => rw [hl] at hscan; simp at hscan
    | some st1 =>
      rw [hl] at hscan
      refine ih st1 ?_ (fun l hl' => hblank l (List.mem_cons_of_mem _ hl')) hscan
      unfold hdrScanLine at hl
      have key : ∀ st0 : HdrScan, st0.targetURL = [] →
          (if hasPrefix (toLower env line) (bs "referer: ") = true then
            Option.map (fun v => ({ st0 with targetURL := trimSpace env v } : HdrScan))
              (sliceFrom line ((bs "Referer:").length : Int))
          else some st0) = some st1 → st1.targetURL = [] := by
        intro st0 h0 hres
        by_cases hr : hasPrefix (toLower env line) (bs "referer: ") = true
        · rw [if_pos hr] at hres
          cases hs : sliceFrom line ((bs "Referer:").length : Int) with
          | none => rw [hs] at hres; simp at hres
          | some v =>
            rw [hs] at hres
            simp only [Option.map_some', Option.some.injEq] at hres
            rw [← hres]
            have hv := sliceFrom_eq_drop line v _ hs
            rw [hv]
            exact hblank line (List.mem_cons_self _ _) hr
        · rw [if_neg hr] at hres
          simp only [Option.some.injEq] at hres
          rw [← hres]; exact h0
      by_cases hc : hasPrefix (toLower env line) (bs "content-type: ") = true
      · rw [if_pos hc] at hl
        cases hs : sliceFrom line ((bs "Content-Type:").length : Int) with
        | none => rw [hs] at hl; simp at hl
        | some v =>
          rw [hs] at hl
          simp only [Option.map_some'] at hl
          exact key ⟨trimSpace env v, st.targetURL⟩ hst hl
      · rw [if_neg hc] at hl
        exact key _ hst hl

/-- C20: when no line from the start of the embedded HTTP header to the end of
the buffer starts, case-insensitively, with "referer: " followed by a value
that is not blank, `extractPostPayload` writes no log entry, whatever the
payload and the Content-Type are. -/
theorem no_referer_no_log_entry (env : Env) (httpHdrStart : Int) (payload recvBuf : List Byte)
    (calls : List LogCall)
    (hblank : ∀ hdrs, sliceFrom recvBuf httpHdrStart = some hdrs →
      ∀ line ∈ bytesSplit hdrs (bs "\r\n"),
        hasPrefix (toLower env line) (bs "referer: ") = true →
          trimSpace env (line.drop (bs "Referer:").length) = [])
    (hret : extractPostPayload env httpHdrStart payload recvBuf = some calls) :
    calls = [] := by
  unfold extractPostPayload at hret
  simp only at hret
  split at hret
  · simpa using hret.symm
  · cases hs : sliceFrom recvBuf httpHdrStart with
    | none => rw [hs] at hret; simp at hret
    | some hdrs =>
      rw [hs] at hret
      simp only at hret
      cases hh : hdrScan env (bytesSplit hdrs (bs "\r\n")) ⟨[], []⟩ with
      | none => rw [hh] at hret; simp at hret
      | some h =>
        rw [hh] at hret
        simp only at hret
        have hnil := hdrScan_targetURL_nil env _ ⟨[], []⟩ h rfl (hblank hdrs hs) hh
        rw [if_pos hnil] at hret
        simpa using hret.symm

theorem no_referer_no_log_entry_witness :
    extractPostPayload asciiEnv (httpHdrStartOf reqmodPostNoReferer)
        (reqmodPostNoReferer.drop (payloadStartOf reqmodPostNoReferer 68).toNat)
        reqmodPostNoReferer = some [] ∧
      hasKeyParameter (bs "\x7b\"password\":\"abc123\"\x7d") = true ∧
      (HTTPMessageHandle asciiEnv [.ok reqmodPostNoReferer] (accepting [100] [])).extracted
        = true ∧
      ([] : List LogCall) = [] :=
  ⟨by decide, by decide, by decide,
    no_referer_no_log_entry asciiEnv (httpHdrStartOf reqmodPostNoReferer)
      (reqmodPostNoReferer.drop (payloadStartOf reqmodPostNoReferer 68).toNat)
      reqmodPostNoReferer []
      (by
        intro hdrs hs
        have e : httpHdrStartOf reqmodPostNoReferer =
            (((httpHdrStartOf reqmodPostNoReferer).toNat : Nat) : Int) := by decide
        rw [e] at hs
        have hd := sliceFrom_eq_drop _ _ _ hs
        subst hd
        decide)
      (by decide)⟩

/-! ## The brace scan of `parseJsonAndTextBody` -/

theorem braceLoop_skip (pre rest : List Byte) (index : Nat)
    (hpre : ∀ b ∈ pre, b ≠ 123 ∧ b ≠ 125) :
    braceLoop (pre ++ rest) index ⟨0, 0, 0⟩ = braceLoop rest (index + pre.length) ⟨0, 0, 0⟩ := by
  induction pre generalizing index with
  | nil => simp
  | cons b bs ih =>
    have hb := hpre b (List.mem_cons_self _ _)
    have := ih (index + 1) (fun c hc => hpre c (List.mem_cons_of_mem _ hc))
    simp only [List.cons_append, braceLoop, hb.1, hb.2, false_and, if_false, List.length_cons,
      List.append_eq]
    rw [this]
    congr 1
    omega

theorem braceLoop_close (xs post : List Byte) (index : Nat) (jsonStart count : Int)
    (hstart : 0 ≤ jsonStart) (hcount : 0 < count) (hne : xs ≠ [])
    (hopen : ∀ k, 0 < k → k < xs.length → count + braceDepth (xs.take k) ≠ 0)
    (hclose : count + braceDepth xs = 0) :
    braceLoop (xs ++ post) index ⟨jsonStart, 0, count⟩ =
      ⟨jsonStart, ((index + xs.length : Nat) : Int), 0⟩ := by
  induction xs generalizing index count with
  | nil => exact absurd rfl hne
  | cons x rest ih =>
    cases rest with
    | nil =>
      simp only [braceDepth, add_zero] at hclose
      have hx : x = 125 := by
        by_contra h
        by_cases h1 : x = 123
        · rw [if_pos h1] at hclose; omega
        · rw [if_neg h1, if_neg h] at hclose; omega
      subst hx
      have hc : count = 1 := by
        simp at hclose
        omega
      subst hc
      simp [braceLoop, hstart]
    | cons y ys =>
      have h1 := hopen 1 (by omega) (by simp)
      simp only [List.take_succ_cons, List.take_zero, braceDepth, add_zero] at h1
      have hrec : ∀ c', 0 < c' →
          c' = count + (if x = 123 then 1 else if x = 125 then -1 else 0) →
          braceLoop ((y :: ys) ++ post) (index + 1) ⟨jsonStart, 0, c'⟩ =
            ⟨jsonStart, ((index + (x :: y :: ys).length : Nat) : Int), 0⟩ := by
        intro c' hpos hc'
        have := ih (index + 1) c' hpos (by simp)
          (by
            intro k hk0 hk
            have := hopen (k + 1) (by omega) (by simp at hk ⊢; omega)
            simp only [List.take_succ_cons, braceDepth] at this
            rw [hc']
            omega)
          (by
            simp only [braceDepth] at hclose ⊢
            rw [hc']
            omega)
        rw [this]
        simp only [List.length_cons]
        congr 2
        omega
      have hcne : count ≠ 0 := by omega
      by_cases hx1 : x = 123
      · subst hx1
        simp only [if_true] at h1
        simp only [List.cons_append, braceLoop, hcne, and_false, if_false, if_true]
        exact hrec (count + 1) (by omega) (by simp)
      · by_cases hx2 : x = 125
        · subst hx2
          simp only [if_neg hx1, if_true] at h1
          have hne1 : ¬ (count - 1 = 0 ∧ 0 ≤ jsonStart) := by
            intro h; omega
          simp only [List.cons_append, braceLoop, hx1, false_and, if_false, if_true, hne1]
          exact hrec (count - 1) (by omega) (by simp; omega)
        · simp only [List.cons_append, braceLoop, hx1, hx2, false_and, if_false]
          exact hrec count hcount (by simp [hx1, hx2])

/-- C15: when the trimmed payload is `pre ++ obj ++ post`, `pre` contains no
brace, `obj` starts with `{` and its brace depth first returns to 0 at its last
byte (which is then a `}`), the candidate region that `parseJsonAndTextBody`
passes to the JSON parser is exactly `obj`. -/
theorem json_candidate_is_first_balanced_object (env : Env) (payload pre obj post : List Byte)
    (htrim : trimSpace env payload = pre ++ obj ++ post)
    (hpre : ∀ b ∈ pre, b ≠ 123 ∧ b ≠ 125)
    (hfirst : obj.head? = some 123)
    (hopen : ∀ k < obj.length, 0 < k → braceDepth (obj.take k) ≠ 0)
    (hclose : braceDepth obj = 0) :
    jsonCandidate env payload = .ok obj := by
  obtain ⟨tail, rfl⟩ : ∃ tail, obj = 123 :: tail := by
    cases obj with
    | nil => simp at hfirst
    | cons a l => simp at hfirst; exact ⟨l, by rw [hfirst]⟩
  have htail : tail ≠ [] := by
    rintro rfl
    simp [braceDepth] at hclose
  have hscan : braceLoop (pre ++ (123 :: tail) ++ post) 0 ⟨0, 0, 0⟩ =
      ⟨(pre.length : Int), ((pre.length + (123 :: tail).length : Nat) : Int), 0⟩ := by
    rw [List.append_assoc, braceLoop_skip pre _ 0 hpre]
    simp only [List.cons_append, braceLoop, and_self, if_true, Nat.zero_add, List.append_eq]
    have := braceLoop_close tail post (pre.length + 1) (pre.length : Int) 1
      (by omega) (by omega) htail
      (by
        intro k hk0 hk
        have := hopen (k + 1) (by simp; omega) (by omega)
        simp only [List.take_succ_cons, braceDepth, if_true] at this
        omega)
      (by
        simp only [braceDepth, if_true] at hclose
        omega)
    rw [this]
    simp only [List.length_cons]
    congr 2
    omega
  unfold jsonCandidate
  simp only [htrim, hscan]
  have hne : ¬ (((pre.length + (123 :: tail).length : Nat) : Int) = 0 ∧ 0 ≤ (pre.length : Int)) := by
    simp only [List.length_cons]
    intro h
    omega
  have hok : ¬ ((pre.length : Int) < 0 ∨ ((pre.length + (123 :: tail).length : Nat) : Int) = 0) := by
    simp only [List.length_cons]
    intro h
    omega
  rw [if_neg hne, if_neg hok]
  have hsl : slice (pre ++ (123 :: tail) ++ post) (pre.length : Int)
      ((pre.length + (123 :: tail).length : Nat) : Int) = some (123 :: tail) := by
    unfold slice
    rw [if_pos ⟨by omega, by push_cast; omega, by simp⟩]
    have e1 : ((pre.length : Int)).toNat = pre.length := Int.toNat_ofNat _
    have e2 : (((pre.length + (123 :: tail).length : Nat) : Int)).toNat =
        pre.length + (123 :: tail).length := Int.toNat_ofNat _
    rw [e1, e2, Nat.add_sub_cancel_left, List.append_assoc, List.drop_left, List.take_left]
  rw [hsl]

theorem json_candidate_is_first_balanced_object_witness :
    (trimSpace asciiEnv (bs "\r\nnote \x7b\"a\":\x7b\"pw\":1\x7d\x7d \x7b\"b\":2\x7d\r\n") =
        bs "note " ++ bs "\x7b\"a\":\x7b\"pw\":1\x7d\x7d" ++ bs " \x7b\"b\":2\x7d" ∧
      braceDepth (bs "\x7b\"a\":\x7b\"pw\":1\x7d\x7d") = 0) ∧
    jsonCandidate asciiEnv (bs "\r\nnote \x7b\"a\":\x7b\"pw\":1\x7d\x7d \x7b\"b\":2\x7d\r\n") =
      .ok (bs "\x7b\"a\":\x7b\"pw\":1\x7d\x7d") :=
  ⟨by decide,
    json_candidate_is_first_balanced_object asciiEnv
      (bs "\r\nnote \x7b\"a\":\x7b\"pw\":1\x7d\x7d \x7b\"b\":2\x7d\r\n") (bs "note ") (bs "\x7b\"a\":\x7b\"pw\":1\x7d\x7d")
      (bs " \x7b\"b\":2\x7d") (by decide) (by decide) (by decide) (by decide) (by decide)⟩

/-! ## The payload range of `extractPostPayload` -/

/-- A body sub-range without the terminal marker is "no content": no log
entry, no error. -/
theorem extractPostPayload_without_marker (env : Env) (httpHdrStart : Int)
    (payload recvBuf : List Byte) (h : bytesIndex payload (bs "0\r\n\r\n") = -1) :
    extractPostPayload env httpHdrStart payload recvBuf = some [] := by
  unfold extractPostPayload
  simp only [h, if_true]

/-- C13 fails on the code.  For the empty chunked body `0 CRLF CRLF` the first
CRLF is the one inside the terminal marker: `noChunkStart` is 1, `noChunkEnd`
is 0, the range is not valid, and `extractPostPayload` panics in
`payload[noChunkStart:noChunkEnd]` (here inside the request
`reqmodPostEmptyBody`, which has a Referer line).  The same happens whenever
no CRLF comes before the marker, as for the body `pw=1` followed by the marker. -/
theorem empty_chunked_body_panics :
    bytesIndex (bs "0\r\n\r\n") (bs "\r\n") = 1 ∧
    bytesIndex (bs "0\r\n\r\n") (bs "0\r\n\r\n") = 0 ∧
    slice (bs "0\r\n\r\n") 1 0 = none ∧
    reqmodPostEmptyBody.drop (payloadStartOf reqmodPostEmptyBody 65).toNat = bs "0\r\n\r\n" ∧
    extractPostPayload asciiEnv (httpHdrStartOf reqmodPostEmptyBody) (bs "0\r\n\r\n")
      reqmodPostEmptyBody = none ∧
    extractPostPayload asciiEnv (httpHdrStartOf reqmodPostEmptyBody) (bs "pw=10\r\n\r\n")
      reqmodPostEmptyBody = none := by
  decide

/-- Outside the key gate.  The trimmed text `null` contains no opening brace,
and `parseJsonAndTextBody`, called on it directly, does not fail: `jsonStart`
starts at 0, so the test `jsonStart < 0` never holds, the whole text is handed
to the JSON parser, which accepts `null`, and a log entry is written.  The
text holds no sensitive key, so `extractPostPayload` does not call the
function with it. -/
theorem null_text_is_logged :
    hasKeyParameter (bs " null\r\n") = false ∧
    trimSpace sampleEnv (bs " null\r\n") = bs "null" ∧
    (∀ b ∈ trimSpace sampleEnv (bs " null\r\n"), b ≠ 123) ∧
    jsonCandidate sampleEnv (bs " null\r\n") = .ok (bs "null") ∧
    parseJsonAndTextBody sampleEnv (bs "https://site/login") (bs " null\r\n") =
      .ok [⟨bs "https://site/login",
        bs "[2006-01-02 15:04:05]\n=====================================\n" ++
        bs "1. TargetURL: https://site/login\n2. Payload\nnull\n" ++
        bs "=====================================\n\n"⟩] := by
  decide

/-! ## A JSON POST from the first read to the log entry -/

theorem run_reply204_extract (env : Env) (msg : List Byte) (reads : List ReadResult)
    (writes : List WriteResult) (httpHdrStart : Int) (payload recvBuf : List Byte)
    (calls : List LogCall) (hne : msg.length ≠ 0)
    (h : iteration env ⟨msg, 0, []⟩ = .reply204 (some (httpHdrStart, payload, recvBuf)))
    (hx : extractPostPayload env httpHdrStart payload recvBuf = some calls) :
    HTTPMessageHandle env (.ok msg :: reads) writes =
      ⟨(sendHTTPCode204 writes).outcome, (sendHTTPCode204 writes).written, calls, true, reads,
        (sendHTTPCode204 writes).writes⟩ := by
  simp [HTTPMessageHandle, handleLoop, hne, h, hx]

theorem parseJsonAndTextBody_ok (env : Env) (targetURL payload obj indentJSON : List Byte)
    (hcand : jsonCandidate env payload = .ok obj)
    (hjson : env.jsonIndent obj = some indentJSON) :
    parseJsonAndTextBody env targetURL payload =
      .ok [⟨targetURL, jsonDisplayFormat env targetURL indentJSON⟩] := by
  unfold parseJsonAndTextBody
  simp only [hcand, hjson]
  rfl

theorem extractPostPayload_json (env : Env) (httpHdrStart : Int)
    (payload recvBuf hdrs body obj indentJSON : List Byte) (h : HdrScan)
    (hmarker : 0 ≤ bytesIndex payload (bs "0\r\n\r\n"))
    (hhdrs : sliceFrom recvBuf httpHdrStart = some hdrs)
    (hscan : hdrScan env (bytesSplit hdrs (bs "\r\n")) ⟨[], []⟩ = some h)
    (hurl : h.targetURL ≠ [])
    (hbody : slice payload (bytesIndex payload (bs "\r\n"))
      (bytesIndex payload (bs "0\r\n\r\n")) = some body)
    (hkey : hasKeyParameter body = true)
    (htype : contains h.contentType (bs "application/json") = true)
    (hcand : jsonCandidate env body = .ok obj)
    (hjson : env.jsonIndent obj = some indentJSON) :
    extractPostPayload env httpHdrStart payload recvBuf =
      some [⟨h.targetURL, jsonDisplayFormat env h.targetURL indentJSON⟩] := by
  have hne : bytesIndex payload (bs "0\r\n\r\n") ≠ -1 := by omega
  have hgate : hasGetPostData (hasURLParameter h.targetURL) true = true := by
    cases hasURLParameter h.targetURL <;> rfl
  unfold extractPostPayload
  simp only [hne, if_false, hhdrs, hscan, hurl, hbody, hkey, htype, if_true, hgate,
    parseJsonAndTextBody_ok env h.targetURL body obj indentJSON hcand hjson]

/-- C17: when the first read delivers a well-formed single-chunk POST message
(both header blocks complete, an Encapsulated table with `req-hdr` and
`req-body` and without `null-body`, the completeness check passed, the
`req-body` offset inside the buffer, the terminal chunk marker present) whose
header lines give a Content-Type that contains `application/json` and a Referer
value `h.targetURL` that is not empty, and whose chunk text `body` contains a
sensitive key and holds the JSON object `obj`, which the JSON library
re-serialises with two-space indentation as `indentJSON`, `HTTPMessageHandle`
replies `httpCode204` and calls the log sink once, with the Referer URL and the
entry `jsonDisplayFormat`, which contains that URL and `indentJSON`. -/
theorem json_post_is_logged (env : Env) (msg : List Byte) (reads : List ReadResult)
    (ns : List Nat) (rest : List WriteResult) (offsets : Offsets)
    (contentLength reqBodyLen : Int) (body obj indentJSON : List Byte) (h : HdrScan)
    (hdelim : 0 ≤ icapHdrEndOf msg)
    (hnotopt : hasPrefix (toUpper env (icapHdrOf msg)) (bs "OPTIONS ") = false)
    (hhttp : 0 ≤ bytesIndex (afterIcapOf msg) hdrDelimiter)
    (htable : encapsulatedLoop env (bytesSplit (icapHdrOf msg) (bs "\r\n")) [] = some offsets)
    (hnull : offsets.lookup (bs "null-body") = none)
    (hreqhdr : (offsets.lookup (bs "req-hdr")).isSome = true)
    (hreqbody : offsets.lookup (bs "req-body") = some reqBodyLen)
    (hlen : contentLengthLoop env (bytesSplit (httpHdrOf msg) (bs "\r\n")) 0 = some contentLength)
    (hcomplete : completenessSum msg contentLength ≤ msg.length)
    (hlo : 0 ≤ payloadStartOf msg reqBodyLen)
    (hhi : payloadStartOf msg reqBodyLen ≤ msg.length)
    (hpost : hasPrefix (toUpper env (afterIcapOf msg)) (bs "POST ") = true)
    (hmarker : 0 ≤ bytesIndex (msg.drop (payloadStartOf msg reqBodyLen).toNat) (bs "0\r\n\r\n"))
    (hscan : hdrScan env (bytesSplit (afterIcapOf msg) (bs "\r\n")) ⟨[], []⟩ = some h)
    (hurl : h.targetURL ≠ [])
    (htype : contains h.contentType (bs "application/json") = true)
    (hbody : slice (msg.drop (payloadStartOf msg reqBodyLen).toNat)
      (bytesIndex (msg.drop (payloadStartOf msg reqBodyLen).toNat) (bs "\r\n"))
      (bytesIndex (msg.drop (payloadStartOf msg reqBodyLen).toNat) (bs "0\r\n\r\n")) = some body)
    (hkey : hasKeyParameter body = true)
    (hcand : jsonCandidate env body = .ok obj)
    (hjson : env.jsonIndent obj = some indentJSON)
    (hcap : httpCode204.length ≤ ns.sum) :
    (HTTPMessageHandle env (.ok msg :: reads) (accepting ns rest)).outcome = .returned none ∧
      (HTTPMessageHandle env (.ok msg :: reads) (accepting ns rest)).written = httpCode204 ∧
      (HTTPMessageHandle env (.ok msg :: reads) (accepting ns rest)).logged =
        [⟨h.targetURL, jsonDisplayFormat env h.targetURL indentJSON⟩] ∧
      h.targetURL <:+: jsonDisplayFormat env h.targetURL indentJSON ∧
      indentJSON <:+: jsonDisplayFormat env h.targetURL indentJSON := by
  have hsl : sliceFrom msg (wrap64 (httpHdrStartOf msg + reqBodyLen)) =
      some (msg.drop (payloadStartOf msg reqBodyLen).toNat) := by
    unfold sliceFrom slice
    unfold payloadStartOf at hlo hhi ⊢
    rw [if_pos ⟨hlo, hhi, le_refl _⟩]
    congr 1
    apply List.take_of_length_le
    simp
  have hit : iteration env ⟨msg, 0, []⟩ =
      .reply204 (some (httpHdrStartOf msg, msg.drop (payloadStartOf msg reqBodyLen).toNat, msg)) := by
    rw [iteration_checked env ⟨msg, 0, []⟩ offsets contentLength hdelim hnotopt hhttp htable
      hnull hlen hcomplete]
    simp only [hreqbody, Option.getD_some, hsl, hpost, Option.isSome_some, Bool.and_self, if_true]
    cases hr : offsets.lookup (bs "req-hdr") with
    | none => rw [hr] at hreqhdr; simp at hreqhdr
    | some v => simp
  have hhdrs : sliceFrom msg (httpHdrStartOf msg) = some (afterIcapOf msg) := by
    have := sliceFrom_afterIcap msg hdelim
    unfold httpHdrStartOf icapHdrEndOf
    exact this
  have hx := extractPostPayload_json env (httpHdrStartOf msg)
    (msg.drop (payloadStartOf msg reqBodyLen).toNat) msg (afterIcapOf msg) body obj indentJSON h
    hmarker hhdrs hscan hurl hbody hkey htype hcand hjson
  rw [run_reply204_extract env msg reads _ _ _ _ _ (ne_nil_of_icapHdrEnd msg hdelim) hit hx]
  obtain ⟨ho, hw⟩ := sendHTTPCode204_accepting ns rest hcap
  refine ⟨ho, hw, rfl, ?_, ?_⟩
  · unfold jsonDisplayFormat
    exact ⟨bs "[" ++ env.now ++ bs "]\n" ++ bs "=====================================\n" ++
      bs "1. TargetURL: ", bs "\n" ++ bs "2. Payload\n" ++ indentJSON ++ bs "\n" ++
      bs "=====================================\n\n", by simp [List.append_assoc]⟩
  · unfold jsonDisplayFormat
    exact ⟨bs "[" ++ env.now ++ bs "]\n" ++ bs "=====================================\n" ++
      bs "1. TargetURL: " ++ h.targetURL ++ bs "\n" ++ bs "2. Payload\n", bs "\n" ++
      bs "=====================================\n\n", by simp [List.append_assoc]⟩

theorem json_post_is_logged_witness :
    (hasKeyParameter (bs "\r\n\x7b\"password\":\"abc123\"\x7d\r\n") = true ∧
      jsonCandidate sampleEnv (bs "\r\n\x7b\"password\":\"abc123\"\x7d\r\n") =
        .ok (bs "\x7b\"password\":\"abc123\"\x7d") ∧
      hdrScan sampleEnv (bytesSplit (afterIcapOf reqmodPostJson) (bs "\r\n")) ⟨[], []⟩ =
        some ⟨bs "application/json", bs "https://site/login"⟩ ∧
      jsonDisplayFormat sampleEnv (bs "https://site/login")
          (bs "\x7b\n  \"password\": \"abc123\"\n\x7d") =
        bs "[2006-01-02 15:04:05]\n=====================================\n" ++
        bs "1. TargetURL: https://site/login\n2. Payload\n" ++
        bs "\x7b\n  \"password\": \"abc123\"\n\x7d\n" ++
        bs "=====================================\n\n") ∧
    (HTTPMessageHandle sampleEnv [.ok reqmodPostJson] (accepting [100] [])).written
      = httpCode204 ∧
    (HTTPMessageHandle sampleEnv [.ok reqmodPostJson] (accepting [100] [])).logged =
      [⟨bs "https://site/login", jsonDisplayFormat sampleEnv (bs "https://site/login")
        (bs "\x7b\n  \"password\": \"abc123\"\n\x7d")⟩] := by
  have h := json_post_is_logged sampleEnv reqmodPostJson [] [100] []
    [(bs "req-body", 97), (bs "req-hdr", 0)] 0 97
    (bs "\r\n\x7b\"password\":\"abc123\"\x7d\r\n") (bs "\x7b\"password\":\"abc123\"\x7d")
    (bs "\x7b\n  \"password\": \"abc123\"\n\x7d") ⟨bs "application/json", bs "https://site/login"⟩
    (by decide) (by decide) (by decide) (by decide) (by decide) (by decide) (by decide)
    (by decide) (by decide) (by decide) (by decide) (by decide) (by decide) (by decide)
    (by decide) (by decide) (by decide) (by decide) (by decide) (by decide) (by decide)
  exact ⟨by decide, h.2.1, h.2.2.1⟩

/-! ## Two runs on the same message -/

/-- The JSON and plain-text path does not look at the order in which `range`
visits a map: its log entry is the same in every run with the same clock. -/
theorem parseJsonAndTextBody_free_of_range_order (env : Env)
    (order : List Byte → Option (List (List Byte × List (List Byte))))
    (targetURL payload : List Byte) :
    parseJsonAndTextBody { env with formEntries := order } targetURL payload =
      parseJsonAndTextBody env targetURL payload := rfl

/-- C18 fails on the code.  The form message `reqmodPostForm` has the two keys
`password` and `email`.  Both runs reply `httpCode204` and log the same URL,
but `parseFormBody` writes the payload lines in the order in which `range`
visits the map: with the same clock, the run that visits `password` first and
the run that visits `email` first log different payload texts. -/
theorem form_payload_text_depends_on_range_order :
    sampleEnv.now = sampleEnvEmailFirst.now ∧
    (HTTPMessageHandle sampleEnv [.ok reqmodPostForm] (accepting [100] [])).written
      = httpCode204 ∧
    (HTTPMessageHandle sampleEnvEmailFirst [.ok reqmodPostForm] (accepting [100] [])).written
      = httpCode204 ∧
    (HTTPMessageHandle sampleEnv [.ok reqmodPostForm] (accepting [100] [])).logged =
      [⟨bs "https://site/login",
        bs "[2006-01-02 15:04:05]\n=====================================\n" ++
        bs "1. TargetURL: https://site/login\n\n2. Payload\n" ++
        bs "password | a\nemail    | b\n" ++
        bs "=====================================\n\n"⟩] ∧
    (HTTPMessageHandle sampleEnvEmailFirst [.ok reqmodPostForm] (accepting [100] [])).logged =
      [⟨bs "https://site/login",
        bs "[2006-01-02 15:04:05]\n=====================================\n" ++
        bs "1. TargetURL: https://site/login\n\n2. Payload\n" ++
        bs "email    | b\npassword | a\n" ++
        bs "=====================================\n\n"⟩] ∧
    (HTTPMessageHandle sampleEnv [.ok reqmodPostForm] (accepting [100] [])).logged ≠
      (HTTPMessageHandle sampleEnvEmailFirst [.ok reqmodPostForm] (accepting [100] [])).logged := by
  decide

/-! ## Facts about `strconv.Atoi` -/

theorem decimalFrom_cons (n : Nat) (c : Byte) (cs : List Byte) :
    decimalFrom n (c :: cs) = decimalFrom (n * 10 + (c - 48)) cs := rfl

theorem le_decimalFrom (n : Nat) (ds : List Byte) : n ≤ decimalFrom n ds := by
  induction ds generalizing n with
  | nil => exact le_refl _
  | cons c cs ih =>
    rw [decimalFrom_cons]
    have := ih (n * 10 + (c - 48))
    omega

theorem two_pow_64 : (2 : Nat) ^ 64 = 18446744073709551616 := by norm_num

theorem two_pow_63 : (2 : Nat) ^ 63 = 9223372036854775808 := by norm_num

theorem parseUintLoop_step (c : Byte) (cs : List Byte) (n : Nat)
    (hc : isDigit c = true) (hsmall : n * 10 + (c - 48) < 2 ^ 64) :
    parseUintLoop (c :: cs) n = parseUintLoop cs (n * 10 + (c - 48)) := by
  have hd : 48 ≤ c ∧ c ≤ 57 := by simpa [isDigit] using hc
  rw [two_pow_64] at hsmall
  conv_lhs => rw [parseUintLoop]
  rw [if_pos hd, two_pow_64]
  rw [if_neg (by omega), if_neg (by omega)]

theorem parseUintLoop_digits (ds : List Byte) (n : Nat)
    (hds : ∀ d ∈ ds, isDigit d = true) (hsmall : decimalFrom n ds < 2 ^ 64) :
    parseUintLoop ds n = .value (decimalFrom n ds) := by
  induction ds generalizing n with
  | nil => rfl
  | cons c cs ih =>
    rw [decimalFrom_cons] at hsmall ⊢
    have hle := le_decimalFrom (n * 10 + (c - 48)) cs
    rw [parseUintLoop_step c cs n (hds c (List.mem_cons_self _ _)) (by omega)]
    exact ih _ (fun d hd => hds d (List.mem_cons_of_mem _ hd)) hsmall

theorem parseUintLoop_nondigit (ds : List Byte) (c : Byte) (rest : List Byte) (n : Nat)
    (hds : ∀ d ∈ ds, isDigit d = true) (hc : isDigit c = false)
    (hsmall : decimalFrom n ds < 2 ^ 64) :
    parseUintLoop (ds ++ c :: rest) n = .syntaxError := by
  induction ds generalizing n with
  | nil =>
    have hd : ¬ (48 ≤ c ∧ c ≤ 57) := by simpa [isDigit] using hc
    simp only [List.nil_append]
    rw [parseUintLoop, if_neg hd]
  | cons d cs ih =>
    rw [decimalFrom_cons] at hsmall
    have hle := le_decimalFrom (n * 10 + (d - 48)) cs
    rw [List.cons_append,
      parseUintLoop_step d _ n (hds d (List.mem_cons_self _ _)) (by omega)]
    exact ih _ (fun x hx => hds x (List.mem_cons_of_mem _ hx)) hsmall

theorem atoi_eq (s : List Byte) (hs : s ≠ []) :
    atoi s = match parseUint (digitsPart s) with
      | none => 0
      | some un => clampInt (decide (s.head? = some 45)) un := by
  cases s with
  | nil => exact absurd rfl hs
  | cons c rest =>
    unfold atoi digitsPart
    simp

/-- A value that is not a number is read as 0. -/
theorem atoi_nonNumeric (s : List Byte) (h : NonNumeric s) : atoi s = 0 := by
  cases s with
  | nil => rfl
  | cons c rest =>
    rw [atoi_eq _ (by simp)]
    rcases h with h | ⟨ds, x, tail, h, hds, hx, hsmall⟩
    · rw [h]
      simp [parseUint]
    · rw [h]
      have := parseUintLoop_nondigit ds x tail 0 hds hx hsmall
      simp [parseUint, this]

/-- A non-empty string of digits below 2^63 is read as the number it denotes. -/
theorem atoi_decimal (ds : List Byte) (hne : ds ≠ []) (hds : ∀ d ∈ ds, isDigit d = true)
    (hsmall : decimalFrom 0 ds < 2 ^ 63) : atoi ds = (decimalFrom 0 ds : Int) := by
  cases ds with
  | nil => exact absurd rfl hne
  | cons c rest =>
    have hc : 48 ≤ c ∧ c ≤ 57 := by simpa [isDigit] using hds c (List.mem_cons_self _ _)
    have hpart : digitsPart (c :: rest) = c :: rest := by
      show (if c = 43 ∨ c = 45 then rest else c :: rest) = c :: rest
      rw [if_neg (by rintro (h | h) <;> simp [h] at hc)]
    have h64 : decimalFrom 0 (c :: rest) < 2 ^ 64 := by
      rw [two_pow_63] at hsmall
      rw [two_pow_64]
      omega
    have hloop := parseUintLoop_digits (c :: rest) 0 hds h64
    rw [atoi_eq _ (by simp), hpart]
    have hhead : decide ((c :: rest).head? = some 45) = false := by
      simp only [List.head?_cons, Option.some.injEq, decide_eq_false_iff_not]
      rintro h
      simp [h] at hc
    simp only [parseUint, hloop, hhead]
    unfold clampInt
    rw [two_pow_63] at hsmall
    simp
    intro h
    omega

/-! ## The Encapsulated parser -/

theorem hasPrefix_singleton (x c : Byte) (cs : List Byte) :
    hasPrefix (c :: cs) [x] = true ↔ x = c := by
  simp [hasPrefix]

theorem indexFrom_of_mem (x : Byte) (s : List Byte) (i : Nat) (h : x ∈ s) :
    (i : Int) ≤ indexFrom [x] s i := by
  induction s generalizing i with
  | nil => simp at h
  | cons c cs ih =>
    unfold indexFrom
    by_cases hp : hasPrefix (c :: cs) [x] = true
    · rw [if_pos hp]
    · rw [if_neg hp]
      have hne : x ≠ c := fun e => hp ((hasPrefix_singleton x c cs).2 e)
      have hmem : x ∈ cs := by
        rcases List.mem_cons.1 h with h1 | h1
        · exact absurd h1 hne
        · exact h1
      have := ih (i + 1) hmem
      push_cast at this
      omega

theorem encapsulatedEntries_step (env : Env) (encapsulated : List Byte)
    (rest : List (List Byte)) (offsets : Offsets) (h : 61 ∈ trimSpace env encapsulated) :
    encapsulatedEntries env (encapsulated :: rest) offsets =
      encapsulatedEntries env rest (entryPair env encapsulated :: offsets) := by
  have hidx : 0 ≤ bytesIndex (trimSpace env encapsulated) (bs "=") := by
    have := indexFrom_of_mem 61 (trimSpace env encapsulated) 0 h
    exact_mod_cast this
  have hsplit : splitN2 (trimSpace env encapsulated) (bs "=") =
      [(trimSpace env encapsulated).take (bytesIndex (trimSpace env encapsulated) (bs "=")).toNat,
        (trimSpace env encapsulated).drop
          ((bytesIndex (trimSpace env encapsulated) (bs "=")).toNat + 1)] := by
    unfold splitN2
    simp only
    rw [if_neg (by omega)]
    rfl
  conv_lhs => rw [encapsulatedEntries]
  simp only [hsplit]
  rfl

theorem encapsulatedEntries_table (env : Env) (entries : List (List Byte)) (offsets : Offsets)
    (h : ∀ e ∈ entries, 61 ∈ trimSpace env e) :
    encapsulatedEntries env entries offsets =
      some ((entries.map (entryPair env)).reverse ++ offsets) := by
  induction entries generalizing offsets with
  | nil => rfl
  | cons e rest ih =>
    rw [encapsulatedEntries_step env e rest offsets (h e (List.mem_cons_self _ _)),
      ih _ (fun x hx => h x (List.mem_cons_of_mem _ hx))]
    simp

/-- C11 as stated fails: the value `req-hdr=0, req-body=-500` parses into a
table that maps `req-body` to -500, which is negative; the well-formed
non-negative integer 99999999999999999999 is stored as 2^63 - 1, not as its
decimal value; and the malformed value 99999999999999999999x is stored as
2^63 - 1, not as 0. -/
theorem encapsulated_offset_can_be_negative :
    encapsulatedEntries asciiEnv
        (bytesSplit (trimSpace asciiEnv (bs " req-hdr=0, req-body=-500")) (bs ",")) [] =
      some [(bs "req-body", -500), (bs "req-hdr", 0)] ∧
    List.lookup (bs "req-body") [(bs "req-body", (-500 : Int)), (bs "req-hdr", 0)] =
      some (-500) ∧
    (-500 : Int) < 0 ∧
    encapsulatedEntries asciiEnv
        (bytesSplit (trimSpace asciiEnv (bs " req-body=99999999999999999999")) (bs ",")) [] =
      some [(bs "req-body", 2 ^ 63 - 1)] ∧
    encapsulatedEntries asciiEnv
        (bytesSplit (trimSpace asciiEnv (bs " req-body=99999999999999999999x")) (bs ",")) [] =
      some [(bs "req-body", 2 ^ 63 - 1)] := by
  decide

/-- C11, amended: for every value of the Encapsulated header whose
comma-separated entries each contain `=`, the parser does not fail and yields a
table that holds, latest entry first, for each entry its trimmed name (the
text before the first `=`) with the integer `strconv.Atoi` gives for the
trimmed text after the `=` (`entryPair`).  That integer is the decimal value
when the text is a non-empty string of digits denoting a number below 2^63,
and 0 when the text is not a number (`NonNumeric`). -/
theorem encapsulated_value_parses (env : Env) (value : List Byte) (offsets : Offsets)
    (heq : ∀ e ∈ bytesSplit (trimSpace env value) (bs ","), 61 ∈ trimSpace env e) :
    encapsulatedEntries env (bytesSplit (trimSpace env value) (bs ",")) offsets =
        some (((bytesSplit (trimSpace env value) (bs ",")).map (entryPair env)).reverse
          ++ offsets) ∧
      (∀ ds : List Byte, ds ≠ [] → (∀ d ∈ ds, isDigit d = true) → decimalFrom 0 ds < 2 ^ 63 →
        atoi ds = (decimalFrom 0 ds : Int) ∧ 0 ≤ atoi ds) ∧
      (∀ s : List Byte, NonNumeric s → atoi s = 0) := by
  refine ⟨encapsulatedEntries_table env _ offsets heq, ?_, atoi_nonNumeric⟩
  intro ds hne hds hsmall
  have := atoi_decimal ds hne hds hsmall
  refine ⟨this, ?_⟩
  rw [this]
  exact Int.natCast_nonneg _

theorem encapsulated_value_parses_witness :
    (∀ e ∈ bytesSplit (trimSpace asciiEnv (bs " req-hdr=0, req-body=41, x=1a")) (bs ","),
        61 ∈ trimSpace asciiEnv e) ∧
    encapsulatedEntries asciiEnv
        (bytesSplit (trimSpace asciiEnv (bs " req-hdr=0, req-body=41, x=1a")) (bs ",")) [] =
      some (((bytesSplit (trimSpace asciiEnv (bs " req-hdr=0, req-body=41, x=1a"))
        (bs ",")).map (entryPair asciiEnv)).reverse ++ []) ∧
    ((bytesSplit (trimSpace asciiEnv (bs " req-hdr=0, req-body=41, x=1a"))
        (bs ",")).map (entryPair asciiEnv)).reverse =
      [(bs "x", 0), (bs "req-body", 41), (bs "req-hdr", 0)] :=
  ⟨by decide,
    (encapsulated_value_parses asciiEnv (bs " req-hdr=0, req-body=41, x=1a") []
      (by decide)).1,
    by decide⟩

/-! ## The Content-Length line and the completeness check -/

theorem wrap64_of_small (x : Int) (h0 : -(2 ^ 63) ≤ x) (h1 : x < 2 ^ 63) : wrap64 x = x := by
  unfold wrap64
  omega

theorem contentLengthLoop_append (env : Env) (xs ys : List (List Byte)) (c : Int) :
    contentLengthLoop env (xs ++ ys) c =
      (contentLengthLoop env xs c).bind (contentLengthLoop env ys) := by
  induction xs generalizing c with
  | nil => rfl
  | cons x rest ih =>
    simp only [List.cons_append, contentLengthLoop]
    split
    · split
      · rfl
      · exact ih _
    · exact ih _

theorem contentLengthLoop_other_lines (env : Env) (lines : List (List Byte)) (c : Int)
    (h : ∀ l ∈ lines, hasPrefix (toLower env l) (bs "content-length: ") = false) :
    contentLengthLoop env lines c = some c := by
  induction lines with
  | nil => rfl
  | cons l rest ih =>
    have hl := h l (List.mem_cons_self _ _)
    simp only [contentLengthLoop, hl, Bool.false_eq_true, if_false]
    exact ih (fun x hx => h x (List.mem_cons_of_mem _ hx))

theorem sliceFrom_of_le (s : List Byte) (n : Nat) (h : n ≤ s.length) :
    sliceFrom s (n : Int) = some (s.drop n) := by
  unfold sliceFrom slice
  rw [if_pos ⟨by omega, by omega, le_refl _⟩]
  congr 1
  simp

theorem contentLengthLoop_line (env : Env) (line : List Byte) (post : List (List Byte))
    (c : Int) (hline : hasPrefix (toLower env line) (bs "content-length: ") = true)
    (hlen : (bs "Content-Length:").length ≤ line.length) :
    contentLengthLoop env (line :: post) c =
      contentLengthLoop env post
        (atoi (trimSpace env (line.drop (bs "Content-Length:").length))) := by
  conv_lhs => rw [contentLengthLoop]
  rw [if_pos hline, sliceFrom_of_le line _ hlen]

theorem httpHdrEndOf_bound (msg : List Byte) (hdelim : 0 ≤ icapHdrEndOf msg)
    (hhttp : 0 ≤ bytesIndex (afterIcapOf msg) hdrDelimiter) :
    0 ≤ httpHdrEndOf msg ∧ httpHdrEndOf msg + 4 ≤ (msg.length : Int) := by
  have hb := icapHdrEndOf_bound msg hdelim
  have hlen : ((afterIcapOf msg).length : Int) = (msg.length : Int) - (icapHdrEndOf msg + 4) := by
    unfold afterIcapOf httpHdrStartOf
    rw [hdrDelimiter_length]
    simp only [List.length_drop]
    push_cast
    omega
  have hb3 : bytesIndex (afterIcapOf msg) hdrDelimiter + 4 ≤ ((afterIcapOf msg).length : Int) := by
    rcases bytesIndex_bounds (afterIcapOf msg) hdrDelimiter with h1 | ⟨_, h2⟩
    · omega
    · rw [hdrDelimiter_length] at h2
      exact_mod_cast h2
  unfold httpHdrEndOf httpHdrStartOf
  rw [hdrDelimiter_length]
  push_cast
  constructor <;> omega

theorem completenessSum_zero (msg : List Byte) (hdelim : 0 ≤ icapHdrEndOf msg)
    (hhttp : 0 ≤ bytesIndex (afterIcapOf msg) hdrDelimiter)
    (hsize : (msg.length : Int) < 2 ^ 63) :
    completenessSum msg 0 = httpHdrEndOf msg + 4 := by
  obtain ⟨h0, h1⟩ := httpHdrEndOf_bound msg hdelim hhttp
  have e : ((bs "\r\n\r\n").length : Int) = 4 := by decide
  unfold completenessSum
  rw [e, wrap64_of_small (httpHdrEndOf msg + 4) (by omega) (by omega), add_zero,
    wrap64_of_small (httpHdrEndOf msg + 4) (by omega) (by omega)]

/-- C12 as stated fails: the Content-Length value `99999999999999999999x` of
`reqmodHugeLength` is not numeric, yet `contentLength` becomes 2^63 - 1 and not
0 (the digits overflow before `strconv.Atoi` reaches the `x`, and the value of
the range error is kept); the sum of the completeness check then wraps around
to a negative number. -/
theorem huge_nonnumeric_content_length_is_not_zero :
    atoi (bs "99999999999999999999x") = 2 ^ 63 - 1 ∧
    contentLengthLoop asciiEnv (bytesSplit (httpHdrOf reqmodHugeLength) (bs "\r\n")) 0 =
      some (2 ^ 63 - 1) ∧
    contentLengthLoop asciiEnv (bytesSplit (httpHdrOf reqmodHugeLength) (bs "\r\n")) 0 ≠
      some 0 ∧
    completenessSum reqmodHugeLength (2 ^ 63 - 1) < 0 ∧
    completenessSum reqmodHugeLength (2 ^ 63 - 1) ≠ httpHdrEndOf reqmodHugeLength + 4 + 0 := by
  decide

/-- C12, amended: when the last Content-Length line of the embedded HTTP
header block carries a value that is not a number (`NonNumeric`: after an
optional sign it is empty, or it reaches a byte that is not a digit while the
digits before it stay below 2^64), `HTTPMessageHandle` does not fail on it,
records `contentLength = 0`, and its completeness check compares
`httpHdrEnd + 4 + 0` with the number of buffered bytes and passes; the round
goes on to the `req-hdr` test. -/
theorem nonnumeric_content_length_reads_zero (env : Env) (msg : List Byte) (offsets : Offsets)
    (pre post : List (List Byte)) (line : List Byte) (c0 : Int)
    (hdelim : 0 ≤ icapHdrEndOf msg)
    (hnotopt : hasPrefix (toUpper env (icapHdrOf msg)) (bs "OPTIONS ") = false)
    (hhttp : 0 ≤ bytesIndex (afterIcapOf msg) hdrDelimiter)
    (htable : encapsulatedLoop env (bytesSplit (icapHdrOf msg) (bs "\r\n")) [] = some offsets)
    (hnull : offsets.lookup (bs "null-body") = none)
    (hlines : bytesSplit (httpHdrOf msg) (bs "\r\n") = pre ++ line :: post)
    (hpre : contentLengthLoop env pre 0 = some c0)
    (hline : hasPrefix (toLower env line) (bs "content-length: ") = true)
    (hlen : (bs "Content-Length:").length ≤ line.length)
    (hval : NonNumeric (trimSpace env (line.drop (bs "Content-Length:").length)))
    (hpost : ∀ l ∈ post, hasPrefix (toLower env l) (bs "content-length: ") = false)
    (hsize : (msg.length : Int) < 2 ^ 63) :
    contentLengthLoop env (bytesSplit (httpHdrOf msg) (bs "\r\n")) 0 = some 0 ∧
      completenessSum msg 0 = httpHdrEndOf msg + 4 + 0 ∧
      ¬ (completenessSum msg 0 > msg.length) ∧
      iteration env ⟨msg, 0, []⟩ =
        (if (offsets.lookup (bs "req-hdr")).isNone then .fail .reqHdrNotFound
        else
          match sliceFrom msg
            (wrap64 (httpHdrStartOf msg + (offsets.lookup (bs "req-body")).getD 0)) with
          | none => .panicked
          | some payload =>
            if (offsets.lookup (bs "req-body")).isSome &&
                hasPrefix (toUpper env (afterIcapOf msg)) (bs "POST ") then
              .reply204 (some (httpHdrStartOf msg, payload, msg))
            else .reply204 none) := by
  have hcl : contentLengthLoop env (bytesSplit (httpHdrOf msg) (bs "\r\n")) 0 = some 0 := by
    rw [hlines, contentLengthLoop_append, hpre]
    simp only [Option.some_bind]
    rw [contentLengthLoop_line env line post c0 hline hlen, atoi_nonNumeric _ hval]
    exact contentLengthLoop_other_lines env post 0 hpost
  have hsum := completenessSum_zero msg hdelim hhttp hsize
  obtain ⟨_, hb⟩ := httpHdrEndOf_bound msg hdelim hhttp
  have hle : completenessSum msg 0 ≤ msg.length := by rw [hsum]; exact hb
  refine ⟨hcl, by rw [hsum, add_zero], by omega, ?_⟩
  exact iteration_checked env ⟨msg, 0, []⟩ offsets 0 hdelim hnotopt hhttp htable hnull hcl hle

theorem nonnumeric_content_length_reads_zero_witness :
    (bytesSplit (httpHdrOf reqmodBadLength) (bs "\r\n") =
        [bs "PUT /item HTTP/1.1", bs "Host: example.com"] ++
          bs "Content-Length: 12abc" :: [] ∧
      trimSpace asciiEnv ((bs "Content-Length: 12abc").drop (bs "Content-Length:").length) =
        bs "12" ++ 97 :: bs "bc") ∧
    contentLengthLoop asciiEnv (bytesSplit (httpHdrOf reqmodBadLength) (bs "\r\n")) 0 = some 0 ∧
    completenessSum reqmodBadLength 0 = httpHdrEndOf reqmodBadLength + 4 + 0 :=
  ⟨by decide,
    (nonnumeric_content_length_reads_zero asciiEnv reqmodBadLength
      [(bs "req-body", 67), (bs "req-hdr", 0)]
      [bs "PUT /item HTTP/1.1", bs "Host: example.com"] [] (bs "Content-Length: 12abc") 0
      (by decide) (by decide) (by decide) (by decide) (by decide) (by decide) (by decide)
      (by decide) (by decide)
      (Or.inr ⟨bs "12", 97, bs "bc", by decide, by decide, by decide, by decide⟩)
      (by decide) (by decide)).1,
    (nonnumeric_content_length_reads_zero asciiEnv reqmodBadLength
      [(bs "req-body", 67), (bs "req-hdr", 0)]
      [bs "PUT /item HTTP/1.1", bs "Host: example.com"] [] (bs "Content-Length: 12abc") 0
      (by decide) (by decide) (by decide) (by decide) (by decide) (by decide) (by decide)
      (by decide) (by decide)
      (Or.inr ⟨bs "12", 97, bs "bc", by decide, by decide, by decide, by decide⟩)
      (by decide) (by decide)).2.1⟩

/-! ## Single-chunk framing -/

theorem indexFrom_skip (sep : List Byte) (c : Byte) (cs : List Byte) (k : Nat)
    (h : hasPrefix (c :: cs) sep = false) :
    indexFrom sep (c :: cs) k = indexFrom sep cs (k + 1) := by
  conv_lhs => rw [indexFrom]
  rw [if_neg (by rw [h]; exact Bool.false_ne_true)]

theorem indexFrom_found (sep : List Byte) (c : Byte) (cs : List Byte) (k : Nat)
    (h : hasPrefix (c :: cs) sep = true) : indexFrom sep (c :: cs) k = (k : Int) := by
  conv_lhs => rw [indexFrom]
  rw [if_pos h]

theorem crlf_index (pre tail : List Byte) (k : Nat) (hpre : ∀ c ∈ pre, c ≠ 13) :
    indexFrom [13, 10] (pre ++ 13 :: 10 :: tail) k = ((k + pre.length : Nat) : Int) := by
  induction pre generalizing k with
  | nil =>
    rw [List.nil_append, indexFrom_found _ _ _ _ (by simp [hasPrefix, List.isPrefixOf])]
    rfl
  | cons c cs ih =>
    have hc := hpre c (List.mem_cons_self _ _)
    rw [List.cons_append, indexFrom_skip _ _ _ _ (by simp [hasPrefix, List.isPrefixOf, Ne.symm hc]),
      ih _ (fun x hx => hpre x (List.mem_cons_of_mem _ hx))]
    simp only [List.length_cons]
    congr 1
    omega

theorem marker_index_size (sizeLine rest : List Byte) (d : Byte) (k : Nat)
    (hsize : ∀ c ∈ sizeLine, c ≠ 13) (hd : d ≠ 13) :
    indexFrom [48, 13, 10, 13, 10] (sizeLine ++ 13 :: 10 :: d :: rest) k =
      indexFrom [48, 13, 10, 13, 10] (d :: rest) (k + sizeLine.length + 2) := by
  induction sizeLine generalizing k with
  | nil =>
    rw [List.nil_append, indexFrom_skip _ _ _ _ (by simp [hasPrefix, List.isPrefixOf]),
      indexFrom_skip _ _ _ _ (by simp [hasPrefix, List.isPrefixOf])]
    rfl
  | cons c cs ih =>
    have hskip : hasPrefix (c :: (cs ++ 13 :: 10 :: d :: rest)) [48, 13, 10, 13, 10] = false := by
      cases cs with
      | nil => simp [hasPrefix, List.isPrefixOf, Ne.symm hd]
      | cons c' cs' =>
        have hc' := hsize c' (List.mem_cons_of_mem _ (List.mem_cons_self _ _))
        simp [hasPrefix, List.isPrefixOf, Ne.symm hc']
    rw [List.cons_append, indexFrom_skip _ _ _ _ hskip,
      ih _ (fun x hx => hsize x (List.mem_cons_of_mem _ hx))]
    simp only [List.length_cons]
    congr 1
    omega

theorem marker_index_data (data post : List Byte) (k : Nat) (hdata : ∀ c ∈ data, c ≠ 13) :
    indexFrom [48, 13, 10, 13, 10] (data ++ 13 :: 10 :: 48 :: 13 :: 10 :: 13 :: 10 :: post) k =
      ((k + data.length + 2 : Nat) : Int) := by
  induction data generalizing k with
  | nil =>
    rw [List.nil_append, indexFrom_skip _ _ _ _ (by simp [hasPrefix, List.isPrefixOf]),
      indexFrom_skip _ _ _ _ (by simp [hasPrefix, List.isPrefixOf]),
      indexFrom_found _ _ _ _ (by simp [hasPrefix, List.isPrefixOf])]
    rfl
  | cons d ds ih =>
    have hskip : hasPrefix (d :: (ds ++ 13 :: 10 :: 48 :: 13 :: 10 :: 13 :: 10 :: post))
        [48, 13, 10, 13, 10] = false := by
      cases ds with
      | nil => simp [hasPrefix, List.isPrefixOf]
      | cons d' ds' =>
        have hd' := hdata d' (List.mem_cons_of_mem _ (List.mem_cons_self _ _))
        simp [hasPrefix, List.isPrefixOf, Ne.symm hd']
    rw [List.cons_append, indexFrom_skip _ _ _ _ hskip,
      ih _ (fun x hx => hdata x (List.mem_cons_of_mem _ hx))]
    simp only [List.length_cons]
    congr 1
    omega

/-- The range `extractPostPayload` cuts out of a single-chunk body is the data
between its two CRLF. -/
theorem chunkRange_singleChunk (sizeLine data : List Byte)
    (hsize : ∀ c ∈ sizeLine, c ≠ 13) (hne : data ≠ []) (hdata : ∀ c ∈ data, c ≠ 13) :
    chunkRange (singleChunk sizeLine data) = some (bs "\r\n" ++ data ++ bs "\r\n") := by
  obtain ⟨d, ds, rfl⟩ : ∃ d ds, data = d :: ds := by
    cases data with
    | nil => exact absurd rfl hne
    | cons d ds => exact ⟨d, ds, rfl⟩
  have hd := hdata d (List.mem_cons_self _ _)
  have hshape : singleChunk sizeLine (d :: ds) =
      sizeLine ++ 13 :: 10 :: d :: (ds ++ 13 :: 10 :: 48 :: 13 :: 10 :: 13 :: 10 :: []) := by
    have e1 : bs "\r\n" = [13, 10] := by decide
    have e2 : bs "\r\n0\r\n\r\n" = [13, 10, 48, 13, 10, 13, 10] := by decide
    unfold singleChunk
    rw [e1, e2]
    simp
  have hstart : bytesIndex (singleChunk sizeLine (d :: ds)) (bs "\r\n") =
      ((sizeLine.length : Nat) : Int) := by
    have e1 : bs "\r\n" = [13, 10] := by decide
    unfold bytesIndex
    rw [hshape, e1, crlf_index sizeLine _ 0 hsize, Nat.zero_add]
  have hend : bytesIndex (singleChunk sizeLine (d :: ds)) (bs "0\r\n\r\n") =
      ((sizeLine.length + 2 + (d :: ds).length + 2 : Nat) : Int) := by
    have e3 : bs "0\r\n\r\n" = [48, 13, 10, 13, 10] := by decide
    unfold bytesIndex
    rw [hshape, e3, marker_index_size sizeLine _ d 0 hsize hd]
    have := marker_index_data (d :: ds) [] (0 + sizeLine.length + 2) hdata
    rw [List.cons_append] at this
    rw [this]
    congr 1
    omega
  unfold chunkRange
  rw [hstart, hend]
  unfold slice
  rw [if_pos ⟨by omega, by push_cast; omega, by
    rw [hshape]
    simp only [List.length_append, List.length_cons, List.length_nil]
    push_cast
    omega⟩]
  have e1 : bs "\r\n" = [13, 10] := by decide
  rw [Int.toNat_ofNat, Int.toNat_ofNat, hshape, List.drop_left, e1]
  have e4 : sizeLine.length + 2 + (d :: ds).length + 2 - sizeLine.length =
      ([13, 10] ++ (d :: ds) ++ [13, 10]).length := by
    simp only [List.length_append, List.length_cons, List.length_nil]
    omega
  rw [e4]
  have e5 : 13 :: 10 :: d :: (ds ++ [13, 10, 48, 13, 10, 13, 10]) =
      ([13, 10] ++ (d :: ds) ++ [13, 10]) ++ [48, 13, 10, 13, 10] := by simp
  rw [e5, List.take_left]

/-! ## Trimming the extracted range -/

theorem trimSpace_framed (env : Env) (data : List Byte)
    (hcrlf : env.unicodeTrim (data ++ bs "\r\n") = env.unicodeTrim data)
    (hlead : ∀ c, data.head? = some c → asciiSpace c = false) :
    trimSpace env (bs "\r\n" ++ data ++ bs "\r\n") = trimSpace env data := by
  have e1 : bs "\r\n" = [13, 10] := by decide
  cases data with
  | nil =>
    rw [e1]
    rfl
  | cons d ds =>
    have hd := hlead d rfl
    have hscan : trimScan ([13, 10] ++ (d :: ds) ++ [13, 10]) =
        trimScan ((d :: ds) ++ [13, 10]) := by
      simp [trimScan, asciiSpace]
    by_cases h128 : 128 ≤ d
    · have h1 : trimScan ((d :: ds) ++ [13, 10]) = .unicode ((d :: ds) ++ [13, 10]) := by
        simp [trimScan, h128]
      have h2 : trimScan (d :: ds) = .unicode (d :: ds) := by
        simp [trimScan, h128]
      unfold trimSpace
      rw [e1, hscan, h1, h2]
      simp only
      rw [← e1]
      exact hcrlf
    · have h1 : trimScan ((d :: ds) ++ [13, 10]) = .stop ((d :: ds) ++ [13, 10]) := by
        simp [trimScan, h128, hd]
      have h2 : trimScan (d :: ds) = .stop (d :: ds) := by
        simp [trimScan, h128, hd]
      have h3 : trimScan ((d :: ds) ++ [13, 10]).reverse = trimScan (d :: ds).reverse := by
        simp [trimScan, asciiSpace]
      unfold trimSpace
      rw [e1, hscan, h1, h2]
      simp only
      rw [h3]

/-- C14: de-framing undoes single-chunk framing.  For every chunk-size line of
hexadecimal digits and every non-empty data without CR or LF that has no
leading or trailing white space (its first byte is not ASCII white space and
the trimming of the body parsers leaves it unchanged), the range
`extractPostPayload` extracts from the body
`sizeLine ++ CRLF ++ data ++ CRLF ++ "0" ++ CRLF ++ CRLF` is, after that
trimming, exactly `data`.  Used of the library's Unicode-aware trimming: it
gives the same for `data` followed by CR LF as for `data`. -/
theorem deframing_undoes_single_chunk_framing (env : Env) (sizeLine data : List Byte)
    (hcrlf : env.unicodeTrim (data ++ bs "\r\n") = env.unicodeTrim data)
    (hsize : ∀ c ∈ sizeLine, isHexDigit c = true)
    (hne : data ≠ [])
    (hdata : ∀ c ∈ data, c ≠ 13 ∧ c ≠ 10)
    (hlead : ∀ c, data.head? = some c → asciiSpace c = false)
    (hclean : trimSpace env data = data) :
    ∃ range, chunkRange (singleChunk sizeLine data) = some range ∧
      trimSpace env range = data := by
  refine ⟨bs "\r\n" ++ data ++ bs "\r\n", ?_, ?_⟩
  · refine chunkRange_singleChunk sizeLine data ?_ hne (fun c hc => (hdata c hc).1)
    intro c hc h13
    have := hsize c hc
    rw [h13] at this
    exact absurd this (by decide)
  · rw [trimSpace_framed env data hcrlf hlead, hclean]

theorem deframing_undoes_single_chunk_framing_witness :
    (trimFuncSpace ([230, 151, 165] ++ bs "=pw 1" ++ bs "\r\n") =
        trimFuncSpace ([230, 151, 165] ++ bs "=pw 1") ∧
      trimSpace trimmingEnv ([230, 151, 165] ++ bs "=pw 1") = [230, 151, 165] ++ bs "=pw 1" ∧
      singleChunk (bs "8") ([230, 151, 165] ++ bs "=pw 1") =
        bs "8\r\n" ++ [230, 151, 165] ++ bs "=pw 1\r\n0\r\n\r\n") ∧
    ∃ range, chunkRange (singleChunk (bs "8") ([230, 151, 165] ++ bs "=pw 1")) = some range ∧
      trimSpace trimmingEnv range = [230, 151, 165] ++ bs "=pw 1" :=
  ⟨by decide,
    deframing_undoes_single_chunk_framing trimmingEnv (bs "8")
      ([230, 151, 165] ++ bs "=pw 1") (by decide)
      (by decide) (by decide) (by decide) (by decide) (by decide)⟩

/-! ## Facts about the Unicode-aware trimming -/

theorem decodeRune_width (s : List Byte) (hne : s ≠ []) :
    1 ≤ (decodeRune s).2 ∧ (decodeRune s).2 ≤ s.length := by
  rcases s with _ | ⟨p0, rest⟩
  · exact absurd rfl hne
  unfold decodeRune
  dsimp only
  generalize (if p0 = 0xE0 then 0xA0 else if p0 = 0xF0 then 0x90 else 0x80) = lo
  generalize (if p0 = 0xED then 0x9F else if p0 = 0xF4 then 0x8F else 0xBF) = hi
  have hsz : (if p0 < 0xE0 then 2 else if p0 < 0xF0 then 3 else 4) ≤ 4 := by split_ifs <;> omega
  revert hsz
  generalize (if p0 < 0xE0 then 2 else if p0 < 0xF0 then 3 else 4) = sz
  intro hsz
  simp only [List.length_cons]
  rcases rest with _ | ⟨b1, _ | ⟨b2, _ | ⟨b3, rest⟩⟩⟩ <;>
    simp only [List.length_cons, List.length_nil] <;>
    split_ifs <;> simp

theorem decodeRune_append_crlf (s : List Byte) (hne : s ≠ []) :
    decodeRune (s ++ [13, 10]) = decodeRune s := by
  rcases s with _ | ⟨p0, rest⟩
  · exact absurd rfl hne
  rw [List.cons_append]
  unfold decodeRune
  dsimp only
  by_cases h1 : p0 < 128
  · simp only [h1, if_true]
  simp only [h1, if_false]
  by_cases h2 : p0 < 194 ∨ 245 ≤ p0
  · simp only [h2, if_true]
  simp only [h2, if_false]
  have hlo : 128 ≤ (if p0 = 224 then 160 else if p0 = 240 then 144 else 128) := by
    split_ifs <;> omega
  revert hlo
  generalize (if p0 = 224 then 160 else if p0 = 240 then 144 else 128) = lo
  generalize (if p0 = 237 then 159 else if p0 = 244 then 143 else 191) = hi
  have hsz : 2 ≤ (if p0 < 224 then 2 else if p0 < 240 then 3 else 4) ∧
      (if p0 < 224 then 2 else if p0 < 240 then 3 else 4) ≤ 4 := by split_ifs <;> omega
  revert hsz
  generalize (if p0 < 224 then 2 else if p0 < 240 then 3 else 4) = sz
  intro hsz hlo
  have h13 : (13 : Nat) < lo ∨ hi < 13 := Or.inl (by omega)
  have h10 : (10 : Nat) < 128 ∨ 191 < 10 := Or.inl (by omega)
  have h13b : (13 : Nat) < 128 ∨ 191 < 13 := Or.inl (by omega)
  rcases rest with _ | ⟨b1, _ | ⟨b2, _ | ⟨b3, rest⟩⟩⟩
  · simp only [List.nil_append, List.length_cons, List.length_nil, h13, if_true, ite_self]
  · simp only [List.cons_append, List.nil_append, List.length_cons, List.length_nil]
    by_cases hb1 : b1 < lo ∨ hi < b1
    · simp only [hb1, if_true, ite_self]
    simp only [hb1, if_false, h13b, if_true]
    by_cases hs2 : sz ≤ 2
    · have hs : ¬ (0 + 1 + 1 + 1 + 1 < sz) := by omega
      have hs0 : ¬ (0 + 1 + 1 < sz) := by omega
      simp only [hs2, hs, hs0, if_true, if_false]
    · have hs0 : 0 + 1 + 1 < sz := by omega
      simp only [hs2, hs0, if_true, if_false, ite_self]
  · simp only [List.cons_append, List.nil_append, List.length_cons, List.length_nil]
    by_cases hb1 : b1 < lo ∨ hi < b1
    · simp only [hb1, if_true, ite_self]
    simp only [hb1, if_false]
    by_cases hs2 : sz ≤ 2
    · have hs : ¬ (0 + 1 + 1 + 1 + 1 + 1 < sz) := by omega
      have hs0 : ¬ (0 + 1 + 1 + 1 < sz) := by omega
      simp only [hs2, hs, hs0, if_true, if_false]
    simp only [hs2, if_false]
    by_cases hb2 : b2 < 128 ∨ 191 < b2
    · simp only [hb2, if_true, ite_self]
    simp only [hb2, if_false]
    by_cases hs3 : sz ≤ 3
    · have hs : ¬ (0 + 1 + 1 + 1 + 1 + 1 < sz) := by omega
      have hs0 : ¬ (0 + 1 + 1 + 1 < sz) := by omega
      simp only [hs3, hs, hs0, if_true, if_false]
    · have hs0 : 0 + 1 + 1 + 1 < sz := by omega
      simp only [hs3, hs0, h13b, if_true, if_false, ite_self]
  · simp only [List.cons_append, List.length_cons, List.length_append, List.length_nil]
    have hs : ¬ (rest.length + (0 + 1 + 1) + 1 + 1 + 1 + 1 < sz) := by omega
    have hs0 : ¬ (rest.length + 1 + 1 + 1 + 1 < sz) := by omega
    simp only [hs, hs0, if_false]

theorem trimLeftSpace_append_crlf (s : List Byte) :
    ∀ k, k ≤ s.length →
      trimLeftSpace (s ++ [13, 10]) k =
        if trimLeftSpace s k = [] then [] else trimLeftSpace s k ++ [13, 10] := by
  induction s with
  | nil =>
    intro k hk
    have hk0 : k = 0 := by simpa using hk
    subst hk0
    decide
  | cons c cs ih =>
    intro k hk
    rcases k with _ | k
    · rw [List.cons_append]
      unfold trimLeftSpace
      have hd : decodeRune (c :: (cs ++ [13, 10])) = decodeRune (c :: cs) :=
        decodeRune_append_crlf (c :: cs) (by simp)
      rw [hd]
      have hw := decodeRune_width (c :: cs) (by simp)
      generalize hrw : (if c < 128 then (c, 1) else decodeRune (c :: cs)) = rw
      have hrw2 : rw.2 - 1 ≤ cs.length := by
        by_cases hc : c < 128
        · rw [if_pos hc] at hrw
          subst hrw
          simp
        · rw [if_neg hc] at hrw
          subst hrw
          have := hw.2
          simp only [List.length_cons] at this
          omega
      dsimp only
      by_cases hsp : isSpaceRune rw.1 = true
      · simp only [hsp, if_true]
        exact ih _ hrw2
      · simp only [hsp, if_false]
        simp
    · rw [List.cons_append]
      simp only [trimLeftSpace]
      exact ih k (by simpa using hk)

theorem lookBack_le (p : List Byte) (lim : Int) (fuel : Nat) :
    ∀ start, lookBack p lim start fuel ≤ start := by
  induction fuel with
  | zero => intro start; simp [lookBack]
  | succ n ih =>
    intro start
    unfold lookBack
    split_ifs
    · exact le_refl _
    · exact le_refl _
    · have := ih (start - 1)
      omega

theorem decodeLastRune_width (p : List Byte) (hne : p ≠ []) : 1 ≤ (decodeLastRune p).2 := by
  unfold decodeLastRune
  have hlen : 0 < p.length := List.length_pos.mpr hne
  rcases hl : p.getLast? with _ | last
  · simp [List.getLast?_eq_none_iff] at hl
    exact absurd hl hne
  dsimp only
  by_cases hlast : last < 128
  · simp [hlast]
  simp only [hlast, if_false]
  generalize hfound : lookBack p (if (p.length : Int) - 4 < 0 then 0 else (p.length : Int) - 4)
    ((p.length : Int) - 2) 4 = found
  have hle : found ≤ (p.length : Int) - 2 := by
    rw [← hfound]
    exact lookBack_le _ _ _ _
  generalize hstart : (if found < 0 then 0 else found.toNat) = start
  have hst : start < p.length := by
    by_cases hf : found < 0
    · rw [if_pos hf] at hstart
      omega
    · rw [if_neg hf] at hstart
      omega
  by_cases hsum : start + (decodeRune (List.drop start p)).2 ≠ p.length
  · simp [hsum]
  · simp only [hsum, if_false]
    exact (decodeRune_width _ (by simpa using hst)).1

theorem lastIndexSpace_lt (rev : List Byte) :
    ∀ k i, lastIndexSpace rev k = some i → i < rev.length := by
  induction rev with
  | nil => intro k i h; simp [lastIndexSpace] at h
  | cons b rest ih =>
    intro k i h
    rcases k with _ | k
    · unfold lastIndexSpace at h
      have hw := decodeLastRune_width (b :: rest).reverse (by simp)
      generalize hrw : (if b < 128 then (b, 1) else decodeLastRune (b :: rest).reverse) = rw at h
      have hrw2 : 1 ≤ rw.2 := by
        by_cases hb : b < 128
        · rw [if_pos hb] at hrw
          subst hrw
          simp
        · rw [if_neg hb] at hrw
          subst hrw
          exact hw
      dsimp only at h
      by_cases hsp : isSpaceRune rw.1 = true
      · rw [if_pos hsp] at h
        have := ih _ _ h
        simp only [List.length_cons]
        omega
      · rw [if_neg hsp] at h
        simp only [Option.some.injEq, List.length_cons] at h ⊢
        omega
    · simp only [lastIndexSpace] at h
      have := ih _ _ h
      simp only [List.length_cons]
      omega

theorem trimRightSpace_append_crlf (t : List Byte) :
    trimRightSpace (t ++ [13, 10]) = trimRightSpace t := by
  unfold trimRightSpace
  have hrev : lastIndexSpace (t ++ [13, 10]).reverse 0 = lastIndexSpace t.reverse 0 := by
    have : (t ++ [13, 10]).reverse = 10 :: 13 :: t.reverse := by simp
    rw [this]
    have h10 : isSpaceRune 10 = true := by decide
    have h13 : isSpaceRune 13 = true := by decide
    conv_lhs => unfold lastIndexSpace
    simp only [show (10 : Nat) < 128 by omega, if_true, h10]
    conv_lhs => unfold lastIndexSpace
    simp only [show (13 : Nat) < 128 by omega, if_true, h13]
  rw [hrev]
  rcases hi : lastIndexSpace t.reverse 0 with _ | i
  · rfl
  · have hlt : i < t.length := by simpa using lastIndexSpace_lt _ _ _ hi
    have hdrop : (t ++ [13, 10]).drop i = t.drop i ++ [13, 10] := by
      rw [List.drop_append_of_le_length (by omega)]
    have hne : t.drop i ≠ [] := by simpa using hlt
    have hw := decodeRune_width (t.drop i) hne
    simp only [List.length_drop] at hw
    dsimp only
    rw [hdrop, decodeRune_append_crlf _ hne]
    have hget : (t ++ [13, 10]).getD i 0 = t.getD i 0 := by
      simp [List.getD_eq_getElem?_getD, List.getElem?_append_left hlt]
    rw [hget]
    rw [List.take_append_of_le_length (by omega), List.take_append_of_le_length (by omega)]

/-- The Unicode-aware trimming gives the same for a text followed by CR LF as
for the text. -/
theorem trimFuncSpace_append_crlf (s : List Byte) :
    trimFuncSpace (s ++ bs "\r\n") = trimFuncSpace s := by
  have e : bs "\r\n" = [13, 10] := by decide
  rw [e]
  unfold trimFuncSpace
  rw [trimLeftSpace_append_crlf s 0 (Nat.zero_le _)]
  by_cases h : trimLeftSpace s 0 = []
  · rw [if_pos h, h]
  · rw [if_neg h, trimRightSpace_append_crlf]

theorem decodeRune_bytes (p0 : Byte) (rest : List Byte) (h0 : 128 ≤ p0) :
    ∀ b ∈ (p0 :: rest).take (decodeRune (p0 :: rest)).2, 128 ≤ b := by
  have h1 : ¬ p0 < 128 := Nat.not_lt.mpr h0
  unfold decodeRune
  dsimp only
  simp only [h1, if_false]
  by_cases h2 : p0 < 194 ∨ 245 ≤ p0
  · simp only [h2, if_true]
    simpa using h0
  simp only [h2, if_false]
  have hlo : 128 ≤ (if p0 = 224 then 160 else if p0 = 240 then 144 else 128) := by
    split_ifs <;> omega
  revert hlo
  generalize (if p0 = 224 then 160 else if p0 = 240 then 144 else 128) = lo
  generalize (if p0 = 237 then 159 else if p0 = 244 then 143 else 191) = hi
  generalize (if p0 < 224 then 2 else if p0 < 240 then 3 else 4) = sz
  intro hlo
  by_cases hs : rest.length + 1 < sz
  · simp only [hs, if_true]
    simpa using h0
  simp only [hs, if_false]
  rcases rest with _ | ⟨b1, rest1⟩
  · simpa using h0
  dsimp only
  by_cases hb1 : b1 < lo ∨ hi < b1
  · simp only [hb1, if_true]
    simpa using h0
  simp only [hb1, if_false]
  have hb1g : 128 ≤ b1 := by
    dsimp only [Byte] at *
    omega
  by_cases hs2 : sz ≤ 2
  · simp only [hs2, if_true]
    intro b hb
    simp at hb
    rcases hb with rfl | rfl <;> assumption
  simp only [hs2, if_false]
  rcases rest1 with _ | ⟨b2, rest2⟩
  · simpa using h0
  dsimp only
  by_cases hb2 : b2 < 128 ∨ 191 < b2
  · simp only [hb2, if_true]
    simpa using h0
  simp only [hb2, if_false]
  have hb2g : 128 ≤ b2 := by
    dsimp only [Byte] at *
    omega
  by_cases hs3 : sz ≤ 3
  · simp only [hs3, if_true]
    intro b hb
    simp at hb
    rcases hb with rfl | rfl | rfl <;> assumption
  simp only [hs3, if_false]
  rcases rest2 with _ | ⟨b3, rest3⟩
  · simpa using h0
  dsimp only
  by_cases hb3 : b3 < 128 ∨ 191 < b3
  · simp only [hb3, if_true]
    simpa using h0
  simp only [hb3, if_false]
  have hb3g : 128 ≤ b3 := by
    dsimp only [Byte] at *
    omega
  intro b hb
  simp at hb
  rcases hb with rfl | rfl | rfl | rfl <;> assumption

theorem asciiSpace_of_isSpaceRune (c : Byte) (hc : c < 128) (h : isSpaceRune c = true) :
    asciiSpace c = true := by
  simp only [isSpaceRune, Bool.or_eq_true, Bool.and_eq_true, decide_eq_true_eq] at h
  simp only [asciiSpace, Bool.or_eq_true, decide_eq_true_eq]
  dsimp only [Byte] at *
  omega

theorem trimLeftSpace_keeps (c : Byte) (hc : c < 128) (hsp : asciiSpace c = false)
    (s : List Byte) :
    ∀ k, (∀ b ∈ s.take k, 128 ≤ b) → c ∈ s → c ∈ trimLeftSpace s k := by
  induction s with
  | nil => intro k _ h; simp at h
  | cons x xs ih =>
    intro k hk hmem
    rcases k with _ | k
    · unfold trimLeftSpace
      dsimp only
      by_cases hx : x < 128
      · simp only [hx, if_true]
        by_cases hs : isSpaceRune x = true
        · simp only [hs, if_true]
          have hxs := asciiSpace_of_isSpaceRune x hx hs
          have hne : c ≠ x := by
            intro e
            rw [e, hxs] at hsp
            exact absurd hsp (by decide)
          rcases List.mem_cons.mp hmem with e | e
          · exact absurd e hne
          · exact ih 0 (by simp) e
        · simp only [hs, if_false]
          exact hmem
      · simp only [hx, if_false]
        by_cases hs : isSpaceRune (decodeRune (x :: xs)).1 = true
        · simp only [hs, if_true]
          have hne : c ≠ x := by
            intro e
            rw [e] at hc
            exact hx hc
          have hw := (decodeRune_width (x :: xs) (by simp)).1
          have hb := decodeRune_bytes x xs (Nat.le_of_not_lt hx)
          rcases List.mem_cons.mp hmem with e | e
          · exact absurd e hne
          · refine ih _ ?_ e
            intro b hbm
            apply hb
            have e2 : (decodeRune (x :: xs)).2 = ((decodeRune (x :: xs)).2 - 1) + 1 := by omega
            rw [e2, List.take_succ_cons]
            exact List.mem_cons_of_mem _ hbm
        · simp only [hs, if_false]
          exact hmem
    · simp only [trimLeftSpace]
      have hx : 128 ≤ x := hk x (by simp)
      have hne : c ≠ x := by
        intro e
        rw [e] at hc
        exact absurd hc (Nat.not_lt.mpr hx)
      rcases List.mem_cons.mp hmem with e | e
      · exact absurd e hne
      · refine ih k ?_ e
        intro b hbm
        apply hk
        rw [List.take_succ_cons]
        exact List.mem_cons_of_mem _ hbm

theorem decodeLastRune_bytes (p : List Byte) (last : Byte) (hl : p.getLast? = some last)
    (hlast : 128 ≤ last) :
    ∀ b ∈ p.drop (p.length - (decodeLastRune p).2), 128 ≤ b := by
  have hne : p ≠ [] := by
    rintro rfl
    simp at hl
  have hlen : 0 < p.length := List.length_pos.mpr hne
  have hdropLast : p.drop (p.length - 1) = [last] := by
    rw [List.getLast?_eq_getElem?] at hl
    have hlt : p.length - 1 < p.length := by omega
    rw [List.getElem?_eq_getElem hlt] at hl
    rw [List.drop_eq_getElem_cons hlt]
    have e : p.length - 1 + 1 = p.length := by omega
    simp only [Option.some.injEq] at hl
    rw [hl, e, List.drop_length]
  unfold decodeLastRune
  rw [hl]
  dsimp only
  simp only [Nat.not_lt.mpr hlast, if_false]
  generalize hfound : lookBack p (if (p.length : Int) - 4 < 0 then 0 else (p.length : Int) - 4)
    ((p.length : Int) - 2) 4 = found
  generalize hstart : (if found < 0 then 0 else found.toNat) = start
  by_cases hsum : start + (decodeRune (List.drop start p)).2 ≠ p.length
  · rw [if_pos hsum]
    rw [hdropLast]
    intro b hb
    simp at hb
    rw [hb]
    exact hlast
  · rw [if_neg hsum]
    have hsum1 : start + (decodeRune (List.drop start p)).2 = p.length := by
      by_contra h
      exact hsum h
    have hd : p.length - (decodeRune (List.drop start p)).2 = start := by omega
    rw [hd]
    rcases hds : List.drop start p with _ | ⟨x, xs⟩
    · intro b hb
      exact absurd hb (List.not_mem_nil _)
    · rw [hds] at hsum1
      have hlenx : (x :: xs).length = p.length - start := by
        rw [← hds, List.length_drop]
      by_cases hx : x < 128
      · have hw : (decodeRune (x :: xs)).2 = 1 := by
          unfold decodeRune
          simp [hx]
        rw [hw] at hsum1
        have hst : start = p.length - 1 := by omega
        rw [hst, hdropLast] at hds
        simp only [List.cons.injEq] at hds
        rw [← hds.1] at hx
        exact absurd hx (Nat.not_lt.mpr hlast)
      · have hb := decodeRune_bytes x xs (Nat.le_of_not_lt hx)
        have hfull : (decodeRune (x :: xs)).2 = (x :: xs).length := by omega
        rw [hfull, List.take_length] at hb
        exact hb

theorem lastIndexSpace_keeps (c : Byte) (hc : c < 128) (hsp : asciiSpace c = false)
    (rev : List Byte) :
    ∀ k, (∀ b ∈ rev.take k, 128 ≤ b) → c ∈ rev →
      ∃ i, lastIndexSpace rev k = some i ∧ c ∈ rev.reverse.take (i + 1) := by
  induction rev with
  | nil => intro k _ h; simp at h
  | cons x xs ih =>
    intro k hk hmem
    have hstep : ∀ j, c ∈ xs → (∀ b ∈ xs.take j, 128 ≤ b) →
        ∃ i, lastIndexSpace xs j = some i ∧ c ∈ (x :: xs).reverse.take (i + 1) := by
      intro j hcx hj
      obtain ⟨i, hi, hin⟩ := ih j hj hcx
      refine ⟨i, hi, ?_⟩
      rw [List.reverse_cons, List.take_append_eq_append_take]
      exact List.mem_append_left _ hin
    rcases k with _ | k
    · unfold lastIndexSpace
      dsimp only
      by_cases hx : x < 128
      · simp only [hx, if_true]
        by_cases hs : isSpaceRune x = true
        · rw [if_pos hs]
          have hxs := asciiSpace_of_isSpaceRune x hx hs
          have hne : c ≠ x := by
            intro e
            rw [e, hxs] at hsp
            exact absurd hsp (by decide)
          rcases List.mem_cons.mp hmem with e | e
          · exact absurd e hne
          · exact hstep 0 e (by simp)
        · rw [if_neg hs]
          refine ⟨_, rfl, ?_⟩
          have e : (x :: xs).length - 1 + 1 = (x :: xs).reverse.length := by simp
          rw [e, List.take_length]
          exact List.mem_reverse.mpr hmem
      · simp only [hx, if_false]
        have hx1 : 128 ≤ x := Nat.le_of_not_lt hx
        have hne : c ≠ x := by
          intro e
          rw [e] at hc
          exact hx hc
        have hcx : c ∈ xs := by
          rcases List.mem_cons.mp hmem with e | e
          · exact absurd e hne
          · exact e
        have hlastq : (x :: xs).reverse.getLast? = some x := by simp
        have hb := decodeLastRune_bytes (x :: xs).reverse x hlastq hx1
        have hw := decodeLastRune_width (x :: xs).reverse (by simp)
        generalize hsz : (decodeLastRune (x :: xs).reverse).2 = size at hb hw
        generalize (decodeLastRune (x :: xs).reverse).1 = r
        by_cases hs : isSpaceRune r = true
        · rw [if_pos hs]
          refine hstep _ hcx ?_
          intro b hbm
          apply hb
          rw [List.drop_reverse]
          simp only [List.length_reverse, List.mem_reverse]
          have hbm2 : b ∈ (x :: xs).take size := by
            have e2 : size = (size - 1) + 1 := by omega
            rw [e2, List.take_succ_cons]
            exact List.mem_cons_of_mem _ hbm
          by_cases hle : size ≤ (x :: xs).length
          · have e3 : (x :: xs).length - ((x :: xs).length - size) = size := by omega
            rw [e3]
            exact hbm2
          · have e3 : (x :: xs).length - ((x :: xs).length - size) = (x :: xs).length := by omega
            rw [e3, List.take_length]
            exact List.mem_of_mem_take hbm2
        · rw [if_neg hs]
          refine ⟨_, rfl, ?_⟩
          have hcp : c ∈ (x :: xs).reverse := List.mem_reverse.mpr hmem
          rw [← List.take_append_drop ((x :: xs).length - size + 1) (x :: xs).reverse] at hcp
          rcases List.mem_append.mp hcp with h | h
          · exact h
          · exfalso
            have hsub : c ∈ (x :: xs).reverse.drop ((x :: xs).reverse.length - size) := by
              simp only [List.length_reverse]
              have : (x :: xs).reverse.drop ((x :: xs).length - size + 1) =
                  ((x :: xs).reverse.drop ((x :: xs).length - size)).drop 1 := by
                rw [List.drop_drop, Nat.add_comm]
              rw [this] at h
              exact List.mem_of_mem_drop h
            have := hb c hsub
            exact absurd hc (Nat.not_lt.mpr this)
    · simp only [lastIndexSpace]
      have hx : 128 ≤ x := hk x (by simp)
      have hne : c ≠ x := by
        intro e
        rw [e] at hc
        exact absurd hc (Nat.not_lt.mpr hx)
      rcases List.mem_cons.mp hmem with e | e
      · exact absurd e hne
      · refine hstep k e ?_
        intro b hbm
        apply hk
        rw [List.take_succ_cons]
        exact List.mem_cons_of_mem _ hbm

theorem trimRightSpace_keeps (c : Byte) (hc : c < 128) (hsp : asciiSpace c = false)
    (s : List Byte) (hmem : c ∈ s) : c ∈ trimRightSpace s := by
  obtain ⟨i, hi, hin⟩ := lastIndexSpace_keeps c hc hsp s.reverse 0 (by simp)
    (List.mem_reverse.mpr hmem)
  rw [List.reverse_reverse] at hin
  have hlt : i < s.length := by simpa using lastIndexSpace_lt _ _ _ hi
  unfold trimRightSpace
  rw [hi]
  dsimp only
  split_ifs
  · have hw := (decodeRune_width (s.drop i) (by simpa using hlt)).1
    exact (List.take_subset_take_left s (by omega : i + 1 ≤ i + (decodeRune (s.drop i)).2)) hin
  · exact hin

/-- The Unicode-aware trimming removes no ASCII byte other than white space. -/
theorem trimFuncSpace_keeps (s : List Byte) (c : Byte) (hmem : c ∈ s) (hc : c < 128)
    (hsp : asciiSpace c = false) : c ∈ trimFuncSpace s :=
  trimRightSpace_keeps c hc hsp _ (trimLeftSpace_keeps c hc hsp s 0 (by simp) hmem)

/-! ## A text without an opening brace -/

theorem braceLoop_without_open (text : List Byte) :
    ∀ (index : Nat) (st : BraceScan), (∀ c ∈ text, c ≠ 123) → st.braceCount ≤ 0 →
      (braceLoop text index st).jsonStart = st.jsonStart ∧
        (braceLoop text index st).jsonEnd = st.jsonEnd := by
  induction text with
  | nil => intro index st _ _; exact ⟨rfl, rfl⟩
  | cons c cs ih =>
    intro index st hc hst
    have hc0 : c ≠ 123 := hc c (List.mem_cons_self _ _)
    have hcs : ∀ d ∈ cs, d ≠ 123 := fun d hd => hc d (List.mem_cons_of_mem _ hd)
    unfold braceLoop
    simp only [hc0, false_and, if_false]
    by_cases h125 : c = 125
    · have hne : ¬ (st.braceCount - 1 = 0 ∧ 0 ≤ st.jsonStart) := by
        intro h
        omega
      simp only [h125, if_true, hne, if_false]
      exact ih _ _ hcs (by simp only; omega)
    · simp only [h125, if_false]
      exact ih _ _ hcs hst

theorem jsonCandidate_without_open (env : Env) (payload : List Byte)
    (hbrace : ∀ c ∈ trimSpace env payload, c ≠ 123) :
    jsonCandidate env payload =
      if trimSpace env payload = [] then .error else .ok (trimSpace env payload) := by
  obtain ⟨h1, h2⟩ := braceLoop_without_open (trimSpace env payload) 0 ⟨0, 0, 0⟩ hbrace (le_refl _)
  unfold jsonCandidate
  simp only at h1 h2 ⊢
  rw [h1, h2]
  by_cases h : trimSpace env payload = []
  · simp [h]
  · have hlen : 0 < (trimSpace env payload).length := List.length_pos.mpr h
    have hlen1 : ((trimSpace env payload).length : Int) ≠ 0 := by omega
    simp [h, hlen1, slice]

theorem trimScan_keeps (c : Byte) (hsp : asciiSpace c = false) (s : List Byte) :
    ∀ r, (trimScan s = .stop r ∨ trimScan s = .unicode r) → c ∈ s → c ∈ r := by
  induction s with
  | nil => intro r _ h; simp at h
  | cons x xs ih =>
    intro r h hmem
    unfold trimScan at h
    split_ifs at h with h1 h2
    · rcases h with h | h <;> simp at h
      rw [← h]
      exact hmem
    · have hne : c ≠ x := by
        intro e
        rw [e, h2] at hsp
        exact absurd hsp (by decide)
      rcases List.mem_cons.mp hmem with e | e
      · exact absurd e hne
      · exact ih r h e
    · rcases h with h | h <;> simp at h
      rw [← h]
      exact hmem

theorem trimSpace_keeps (env : Env)
    (htrim : ∀ s c, c ∈ s → c < 128 → asciiSpace c = false → c ∈ env.unicodeTrim s)
    (s : List Byte) (c : Byte) (hmem : c ∈ s) (hc : c < 128) (hsp : asciiSpace c = false) :
    c ∈ trimSpace env s := by
  unfold trimSpace
  rcases h : trimScan s with rest | rest
  · have h1 := trimScan_keeps c hsp s rest (Or.inl h) hmem
    dsimp only
    rcases h2 : trimScan rest.reverse with r | r
    · have h3 := trimScan_keeps c hsp _ r (Or.inl h2) (by simpa using h1)
      simpa using h3
    · have h3 := trimScan_keeps c hsp _ r (Or.inr h2) (by simpa using h1)
      exact htrim _ c (by simpa using h3) hc hsp
  · have h1 := trimScan_keeps c hsp s rest (Or.inr h) hmem
    exact htrim _ c h1 hc hsp

theorem keyParameters_byte :
    ∀ k ∈ keyParameters,
      ∃ c ∈ k, c < 128 ∧ asciiSpace c = false ∧ c ∉ bs "null \t\r\n" := by
  decide

theorem hasKeyParameter_byte (payload : List Byte) (h : hasKeyParameter payload = true) :
    ∃ c ∈ payload, c < 128 ∧ asciiSpace c = false ∧ c ∉ bs "null \t\r\n" := by
  unfold hasKeyParameter at h
  have hm : sensitiveKeyPattern.matchString payload = true := by
    by_contra hn
    simp [hn] at h
  unfold sensitiveKeyPattern at hm
  obtain ⟨i, _, _, k, hk, hp, _⟩ := (matchString_pattern_iff payload keyParameters).mp hm
  obtain ⟨c, hck, hprop⟩ := keyParameters_byte k hk
  have hpre : k <+: payload.drop i := (hasPrefix_iff _ _).mp hp
  exact ⟨c, List.mem_of_mem_drop (hpre.subset hck), hprop⟩

theorem sampleTrimmingEnv_jsonIndent_without_open (t : List Byte) (hbrace : ∀ c ∈ t, c ≠ 123)
    (hother : ∃ c ∈ t, c ∉ bs "null \t\r\n") : sampleTrimmingEnv.jsonIndent t = none := by
  have h1 : t ≠ bs "null" := by
    rintro rfl
    obtain ⟨c, hc, hn⟩ := hother
    revert c
    decide
  have h2 : t ≠ bs "\x7b\"password\":\"abc123\"\x7d" := by
    rintro rfl
    revert hbrace
    decide
  simp [sampleTrimmingEnv, sampleEnv, h1, h2]

/-- C16: a payload whose trimmed text contains no opening brace makes
`parseJsonAndTextBody` fail with an error, and no log entry is written.  The
payload is one that the function is called with: both of its call sites, in
`extractPostPayload`, test `hasGetPostData(hasURL, hasKey)` first, where
`hasKey` is `hasKeyParameter` of the same bytes.  Used of the library: the
Unicode-aware trimming removes no ASCII byte other than white space, and
`json.Unmarshal` into a map rejects a text that has no opening brace and holds
a byte other than those of `null` and of JSON white space. -/
theorem text_without_open_brace_is_rejected (env : Env) (targetURL payload : List Byte)
    (hasURL : Bool)
    (hjson : ∀ t, (∀ c ∈ t, c ≠ 123) → (∃ c ∈ t, c ∉ bs "null \t\r\n") →
      env.jsonIndent t = none)
    (htrim : ∀ s c, c ∈ s → c < 128 → asciiSpace c = false → c ∈ env.unicodeTrim s)
    (hgate : hasGetPostData hasURL (hasKeyParameter payload) = true)
    (hbrace : ∀ c ∈ trimSpace env payload, c ≠ 123) :
    parseJsonAndTextBody env targetURL payload = .error := by
  have hkey : hasKeyParameter payload = true := by
    cases hk : hasKeyParameter payload
    · rw [hk] at hgate
      cases hasURL <;> simp [hasGetPostData] at hgate
    · rfl
  obtain ⟨c, hmem, hc, hsp, hother⟩ := hasKeyParameter_byte payload hkey
  have hin : c ∈ trimSpace env payload := trimSpace_keeps env htrim payload c hmem hc hsp
  have hne : trimSpace env payload ≠ [] := List.ne_nil_of_mem hin
  unfold parseJsonAndTextBody
  rw [jsonCandidate_without_open env payload hbrace, if_neg hne]
  simp only
  rw [hjson _ hbrace ⟨c, hin, hother⟩]

theorem text_without_open_brace_is_rejected_witness :
    (hasGetPostData true
        (hasKeyParameter (bs "\r\n" ++ [227, 128, 128] ++ bs "password=abc123\r\n")) = true ∧
      trimSpace sampleTrimmingEnv (bs "\r\n" ++ [227, 128, 128] ++ bs "password=abc123\r\n") =
        bs "password=abc123" ∧
      (∀ c ∈ trimSpace sampleTrimmingEnv
        (bs "\r\n" ++ [227, 128, 128] ++ bs "password=abc123\r\n"), c ≠ 123)) ∧
    parseJsonAndTextBody sampleTrimmingEnv (bs "https://site/login")
      (bs "\r\n" ++ [227, 128, 128] ++ bs "password=abc123\r\n") = .error :=
  ⟨by decide,
    text_without_open_brace_is_rejected sampleTrimmingEnv (bs "https://site/login")
      (bs "\r\n" ++ [227, 128, 128] ++ bs "password=abc123\r\n") true
      sampleTrimmingEnv_jsonIndent_without_open trimFuncSpace_keeps (by decide) (by decide)⟩

end ICAP
